import Mathlib

/-!
# IAMR: single-level advance and coarse/fine synchronisation

A shallow embedding of the parts of `Source/NavierStokes.cpp` and
`Source/SyncRegister.cpp` that the time-step estimate, the underflow floor,
`mac_sync`, `reflux`, `scalar_diffusion_update`, `calcDiffusivity`, `MaxVal`
and the functions `InitRHS`, `CrseInit`, `FineAdd` and `CompAdd` of
`SyncRegister` are made of, and a model of `Godunov::ComputeAofs`, which
`Source/Godunov.H` declares.

Conventions of the embedding.

* A finite `Real` of the program is an exact rational (`ℚ`): rounding is not
  modelled.  The one place where the program can leave the finite values, the
  quotient `cfl/cflmax` of `predict_velocity`, is modelled with the IEEE special
  values (`XReal`).  Elsewhere a quotient by zero has Lean's value `0`; the
  statements below never depend on it.
* An index vector is a list of integers, a box a pair of index vectors.
* A `MultiFab` is its list of valid boxes, its ghost width and its data, a
  function of the grid index, the cell and the component.
* A loop `for (MFIter mfi(mf,true); ...)` over `mfi.tilebox()` visits every
  cell of every valid box once, one over `mfi.growntilebox(ng)` every cell of
  every valid box grown by `ng` once: the tiles of a grid partition it.
* Library calls whose code is not part of the repository (fill-patch, the
  Godunov kernels, the projections, `FluxRegister::Reflux`, ...) appear as
  fields of the records of operations the embedded functions take.
* A statement about the order of the calls of a function runs it on the
  operations that append each call, with its arguments, to a list (`traceOps`,
  `traceDiffusionOps`).
-/

namespace IAMR

/-! ## Reals -/

/-- A double as far as the embedding tracks it: a finite value, held exactly,
or one of the IEEE special values. -/
inductive XReal where
  | fin (q : ℚ)
  | pinf
  | ninf
  | nan
  deriving DecidableEq, Repr

/-- The quotient `a / b` of two finite doubles, `b` being a non-negative zero
when it is zero (the sign of a zero is not tracked). -/
def XReal.div (a b : ℚ) : XReal :=
  if b = 0 then (if 0 < a then .pinf else if a < 0 then .ninf else .nan)
  else .fin (a / b)

/-- The test `x < a` of a double against a finite double. -/
def XReal.ltFin (x : XReal) (a : ℚ) : Bool :=
  match x with
  | .fin q => decide (q < a)
  | .pinf => false
  | .ninf => true
  | .nan => false

/-- The call `std::min(a, x)`, which is `(x < a) ? x : a`. -/
def stdMin (a : ℚ) (x : XReal) : XReal :=
  if x.ltFin a then x else .fin a

/-- The product `dt * x` of a finite double and a double. -/
def XReal.scale (dt : ℚ) (x : XReal) : XReal :=
  match x with
  | .fin q => .fin (dt * q)
  | .pinf => if 0 < dt then .pinf else if dt < 0 then .ninf else .nan
  | .ninf => if 0 < dt then .ninf else if dt < 0 then .pinf else .nan
  | .nan => .nan

/-- The literal `1.e-20`, taken as the decimal it denotes. -/
def floorThreshold : ℚ := 1 / 10 ^ 20

/-- The assignment `val = std::abs(val) > 1.e-20 ? val : 0`. -/
def floorSmall (val : ℚ) : ℚ :=
  if |val| > floorThreshold then val else 0

/-! ## Index space -/

/-- An `IntVect`. -/
abbrev IntVect := List ℤ

/-- A `Box`: its small and its big end. -/
structure Box where
  lo : IntVect
  hi : IntVect
  deriving DecidableEq, Repr

/-- Whether `lo ≤ c ≤ hi` holds in every direction. -/
def inRange : List ℤ → List ℤ → List ℤ → Bool
  | [], [], [] => true
  | l :: ls, h :: hs, c :: cs => decide (l ≤ c) && decide (c ≤ h) && inRange ls hs cs
  | _, _, _ => false

/-- The test `Box::contains(IntVect)`. -/
def Box.contains (b : Box) (c : IntVect) : Bool :=
  inRange b.lo b.hi c

/-- The integers `lo, lo+1, ..., hi`. -/
def rangeZ (lo hi : ℤ) : List ℤ :=
  (List.range (hi + 1 - lo).toNat).map (fun (k : ℕ) => lo + (k : ℤ))

/-- The index vectors between `lo` and `hi`. -/
def cellsOf : List ℤ → List ℤ → List IntVect
  | [], [] => [[]]
  | l :: ls, h :: hs => (rangeZ l h).flatMap (fun x => (cellsOf ls hs).map (fun cs => x :: cs))
  | _, _ => []

/-- The cells of a box. -/
def Box.cells (b : Box) : List IntVect :=
  cellsOf b.lo b.hi

/-- The function `amrex::grow(b, n)`. -/
def Box.grow (b : Box) (n : ℤ) : Box :=
  ⟨b.lo.map (fun x => x - n), b.hi.map (fun x => x + n)⟩

/-! ## Multifabs -/

/-- A `MultiFab`: `data i c n` is the value of component `n` at cell `c` of
the fab on grid `i`. -/
structure MultiFab where
  grids : List Box
  nGrow : ℕ
  data : ℕ → IntVect → ℕ → ℚ

/-- The box of the fab on grid `i`: the valid box grown by the ghost width. -/
def MultiFab.fabbox (mf : MultiFab) (i : ℕ) : Box :=
  ((mf.grids.getD i ⟨[], []⟩).grow mf.nGrow)

/-- Whether `c` is a cell of grid `i` grown by `ng`. -/
def MultiFab.inGrown (mf : MultiFab) (ng : ℕ) (i : ℕ) (c : IntVect) : Bool :=
  decide (i < mf.grids.length) && ((mf.grids.getD i ⟨[], []⟩).grow ng).contains c

/-- Whether `c` is a valid cell of grid `i`. -/
def MultiFab.inValid (mf : MultiFab) (i : ℕ) (c : IntVect) : Bool :=
  mf.inGrown 0 i c

/-- The loop of `predict_velocity` and `scalar_advection` that floors small
values: every component below `ncomp` of every cell of `growntilebox(ng)`. -/
def floorStates (mf : MultiFab) (ng ncomp : ℕ) : MultiFab :=
  { mf with data := fun i c n =>
      if mf.inGrown ng i c && decide (n < ncomp) then floorSmall (mf.data i c n)
      else mf.data i c n }

/-- The library call `VectorMaxAbs({&mf},tile,n,1,mf.nGrow())`: the largest
absolute value of component `n` over the cells of every fab, ghost cells
included, and `0` when there is no cell. -/
def VectorMaxAbs (mf : MultiFab) (n : ℕ) : ℚ :=
  (List.range mf.grids.length).foldl
    (fun m i => (mf.fabbox i).cells.foldl (fun m c => max m |mf.data i c n|) m) 0

/-! ## The level and its operations -/

/-- The values `Conservative` and `NonConservative` of `AdvectionForm`. -/
inductive AdvectionForm where
  | Conservative
  | NonConservative
  deriving DecidableEq, Repr

/-- The parameters and flags of a level that the embedded functions read. -/
structure Config where
  BL_SPACEDIM : ℕ
  NUM_STATE : ℕ
  NUM_SCALARS : ℕ
  Density : ℕ
  level : ℕ
  finestLevel : ℕ
  grids : List Box
  hypgrow : ℕ
  dx : ℕ → ℚ
  cfl : ℚ
  change_max : ℚ
  do_mac_proj : Bool
  do_mom_diff : ℤ
  do_reflux : Bool
  do_scalar_update_in_order : Bool
  scalarUpdateOrder : ℕ → ℕ
  have_divu : Bool
  have_dsdt : Bool
  initial_step : Bool
  projector : Bool
  is_diffusive : ℕ → Bool
  advectionType : ℕ → AdvectionForm

/-- The calls `advance` and the functions under it make into code that is not
embedded, as transformers of the state `σ` of the hierarchy. -/
structure LevelOps (σ : Type) where
  advance_setup : ℚ → ℚ → ℤ → ℤ → σ → σ
  /-- The data of `FillPatchIterator(*this,mf,ngrow,prev_time,State_Type,scomp,ncomp)`. -/
  FillPatchIterator : σ → (ngrow scomp ncomp : ℕ) → ℕ → IntVect → ℕ → ℚ
  /-- The rest of `predict_velocity`: forces and `ExtrapVelToFaces` into `u_mac`. -/
  ExtrapVelToFaces : ℚ → MultiFab → σ → σ
  create_mac_rhs : ℚ → ℚ → σ → σ
  mac_project : ℚ → ℚ → σ → σ
  velocity_advection : ℚ → σ → σ
  /-- The rest of the patch loop of `scalar_advection`: forces and
  `AdvectScalars` into `aofs` and the fluxes. -/
  AdvectScalars : ℚ → ℕ → ℕ → MultiFab → σ → σ
  /-- The call `advflux_reg->FineAdd(fluxes[d],d,srccomp,destcomp,numcomp,mult)`. -/
  advflux_FineAdd : (d srccomp destcomp numcomp : ℕ) → ℚ → σ → σ
  /-- The call `getAdvFluxReg(lev).CrseInit(fluxes[d],d,srccomp,destcomp,numcomp,mult)`. -/
  advflux_CrseInit : (lev d srccomp destcomp numcomp : ℕ) → ℚ → σ → σ
  scalar_advection_update : ℚ → ℕ → ℕ → σ → σ
  scalar_diffusion_update : ℚ → ℕ → ℕ → σ → σ
  /-- The test `S_new.contains_nan(sigma,1,0)`. -/
  contains_nan : σ → ℕ → Bool
  make_rho_curr_time : σ → σ
  calc_divu : ℚ → ℚ → σ → σ
  calc_dsdt : ℚ → ℚ → σ → σ
  /-- The copy of the new `Dsdt_Type` data to the old. -/
  copy_dsdt : σ → σ
  velocity_update : ℚ → σ → σ
  incrRhoAvg : ℚ → σ → σ
  level_projector : ℚ → ℚ → ℤ → σ → σ
  /-- The call `p_avg.setVal(0)`. -/
  p_avg_setVal : σ → σ
  advance_cleanup : ℤ → ℤ → σ → σ

/-- The velocity `Umf` of `predict_velocity` after its floor loop. -/
def predict_velocity_Umf {σ : Type} (ops : LevelOps σ) (cfg : Config) (s : σ) : MultiFab :=
  floorStates ⟨cfg.grids, cfg.hypgrow, ops.FillPatchIterator s cfg.hypgrow 0 cfg.BL_SPACEDIM⟩
    cfg.hypgrow cfg.BL_SPACEDIM

/-- The grid cfl number `cflmax` of `predict_velocity`. -/
def gridCfl (cfg : Config) (dt : ℚ) (umax : ℕ → ℚ) : ℚ :=
  (List.range' 1 (cfg.BL_SPACEDIM - 1)).foldl
    (fun cflmax d => max cflmax (dt * umax d / cfg.dx d)) (dt * umax 0 / cfg.dx 0)

/-- The function `NavierStokes::predict_velocity`: the state with the edge
velocities predicted, and the estimate of the next time step. -/
def predict_velocity {σ : Type} (ops : LevelOps σ) (cfg : Config) (dt : ℚ) (s : σ) :
    σ × XReal :=
  let Umf := predict_velocity_Umf ops cfg s
  let umax := fun d => VectorMaxAbs Umf d
  let cflmax := gridCfl cfg dt umax
  let tempdt := stdMin cfg.change_max (XReal.div cfg.cfl cflmax)
  (ops.ExtrapVelToFaces dt Umf s, XReal.scale dt tempdt)

/-- The scalars `Smf` of `scalar_advection` after its floor loop. -/
def scalar_advection_Smf {σ : Type} (ops : LevelOps σ) (cfg : Config)
    (fscalar lscalar : ℕ) (s : σ) : MultiFab :=
  let num_scalars := lscalar + 1 - fscalar
  floorStates ⟨cfg.grids, cfg.hypgrow, ops.FillPatchIterator s cfg.hypgrow fscalar num_scalars⟩
    cfg.hypgrow num_scalars

/-- The end of `scalar_advection`: the fluxes go to the flux registers. -/
def scalar_advection_fluxes {σ : Type} (ops : LevelOps σ) (cfg : Config) (dt : ℚ)
    (fscalar num_scalars : ℕ) (s : σ) : σ :=
  if cfg.do_reflux then
    let s := if 0 < cfg.level then
        (List.range cfg.BL_SPACEDIM).foldl
          (fun s d => ops.advflux_FineAdd d 0 fscalar num_scalars dt s) s
      else s
    if cfg.level < cfg.finestLevel then
      (List.range cfg.BL_SPACEDIM).foldl
        (fun s i => ops.advflux_CrseInit (cfg.level + 1) i 0 fscalar num_scalars (-dt) s) s
    else s
  else s

/-- The function `NavierStokes::scalar_advection`. -/
def scalar_advection {σ : Type} (ops : LevelOps σ) (cfg : Config) (dt : ℚ)
    (fscalar lscalar : ℕ) (s : σ) : σ :=
  let num_scalars := lscalar + 1 - fscalar
  let Smf := scalar_advection_Smf ops cfg fscalar lscalar s
  scalar_advection_fluxes ops cfg dt fscalar num_scalars
    (ops.AdvectScalars dt fscalar num_scalars Smf s)

/-- The function `NavierStokes::scalar_update`; `none` is the run ended by
`exit` on a new scalar that contains a NaN. -/
def scalar_update {σ : Type} (ops : LevelOps σ) (cfg : Config) (dt : ℚ)
    (first_scalar last_scalar : ℕ) (s : σ) : Option σ :=
  let s1 := ops.scalar_advection_update dt first_scalar last_scalar s
  let do_any_diffuse :=
    (List.range' first_scalar (last_scalar + 1 - first_scalar)).any cfg.is_diffusive
  let s2 := if do_any_diffuse then ops.scalar_diffusion_update dt first_scalar last_scalar s1
            else s1
  if (List.range' first_scalar (last_scalar + 1 - first_scalar)).any (ops.contains_nan s2)
  then none else some s2

/-- The ordered scalar updates of `advance`, one call per entry of
`scalarUpdateOrder`. -/
def scalar_update_in_order {σ : Type} (ops : LevelOps σ) (cfg : Config) (dt : ℚ)
    (first_scalar : ℕ) : List ℕ → σ → Option σ
  | [], s => some s
  | iComp :: rest, s =>
    (scalar_update ops cfg dt (first_scalar + cfg.scalarUpdateOrder iComp)
      (first_scalar + cfg.scalarUpdateOrder iComp) s).bind
      (scalar_update_in_order ops cfg dt first_scalar rest)

/-- The function `NavierStokes::advance` of a build without `AMREX_PARTICLES`;
`none` is the run ended inside `scalar_update`. -/
def advance {σ : Type} (ops : LevelOps σ) (cfg : Config) (time dt : ℚ)
    (iteration ncycle : ℤ) (s : σ) : Option (σ × XReal) :=
  let s := ops.advance_setup time dt iteration ncycle s
  let (s, dt_test) := predict_velocity ops cfg dt s
  let s := if cfg.do_mac_proj then ops.mac_project time dt (ops.create_mac_rhs time dt s) else s
  let s := if cfg.do_mom_diff = 0 then ops.velocity_advection dt s else s
  let first_scalar := cfg.Density
  let last_scalar := first_scalar + cfg.NUM_SCALARS - 1
  let s := scalar_advection ops cfg dt first_scalar last_scalar s
  (scalar_update ops cfg dt first_scalar first_scalar s).bind fun s =>
  let s := ops.make_rho_curr_time s
  let s := if cfg.do_mom_diff = 1 then ops.velocity_advection dt s else s
  (if cfg.do_scalar_update_in_order then
      scalar_update_in_order ops cfg dt first_scalar (List.range (cfg.NUM_SCALARS - 1)) s
    else scalar_update ops cfg dt (first_scalar + 1) last_scalar s).bind fun s =>
  let s := if cfg.have_divu then
      let s := ops.calc_divu (time + dt) dt s
      if cfg.have_dsdt then
        let s := ops.calc_dsdt time dt s
        if cfg.initial_step then ops.copy_dsdt s else s
      else s
    else s
  let s := ops.velocity_update dt s
  let s := if !cfg.initial_step then
      let s := if 0 < cfg.level then
          ops.incrRhoAvg ((if iteration = ncycle then 1 / 2 else 1) / (ncycle : ℚ)) s
        else s
      let s := if cfg.projector then ops.level_projector dt time iteration s else s
      if 0 < cfg.level ∧ iteration = 1 then ops.p_avg_setVal s else s
    else s
  some (ops.advance_cleanup iteration ncycle s, dt_test)

/-- The value `m` is the largest of the numbers `dt * umax d / dx d` over the
directions `d < BL_SPACEDIM`. -/
def IsGridCfl (cfg : Config) (dt : ℚ) (umax : ℕ → ℚ) (m : ℚ) : Prop :=
  (∃ d, d < cfg.BL_SPACEDIM ∧ m = dt * umax d / cfg.dx d) ∧
    ∀ d, d < cfg.BL_SPACEDIM → dt * umax d / cfg.dx d ≤ m

/-! ## Boxes -/

/-- The test `Box::ok()`. -/
def Box.ok (b : Box) : Bool :=
  decide (b.lo.length = b.hi.length) && (List.zipWith (fun l h => decide (l ≤ h)) b.lo b.hi).all id

/-- The intersection `a & b`. -/
def Box.inter (a b : Box) : Box :=
  ⟨List.zipWith max a.lo b.lo, List.zipWith min a.hi b.hi⟩

/-- The shifted box `b + iv`. -/
def Box.shift (b : Box) (iv : IntVect) : Box :=
  ⟨List.zipWith (fun x d => x + d) b.lo iv, List.zipWith (fun x d => x + d) b.hi iv⟩

/-- The test `Box::contains(Box)`. -/
def Box.containsBox (a b : Box) : Bool :=
  (List.zipWith (fun x y => decide (x ≤ y)) a.lo b.lo).all id &&
    (List.zipWith (fun x y => decide (y ≤ x)) a.hi b.hi).all id

/-- The function `amrex::surroundingNodes` of a cell-centred box. -/
def Box.surroundingNodes (b : Box) : Box :=
  ⟨b.lo, b.hi.map (fun x => x + 1)⟩

/-- The function `amrex::enclosedCells` of a node-centred box. -/
def Box.enclosedCells (b : Box) : Box :=
  ⟨b.lo, b.hi.map (fun x => x - 1)⟩

/-- The call `b.setRange(dir, sm_index, 1)`. -/
def Box.setRange (b : Box) (dir : ℕ) (sm_index : ℤ) : Box :=
  ⟨b.lo.set dir sm_index, b.hi.set dir sm_index⟩

/-- The face of the box `b` at its small end in direction `dir`. -/
def Box.loFace (b : Box) (dir : ℕ) : Box :=
  b.setRange dir (b.lo.getD dir 0)

/-- The face of the box `b` at its big end in direction `dir`. -/
def Box.hiFace (b : Box) (dir : ℕ) : Box :=
  b.setRange dir (b.hi.getD dir 0)

/-! ## Fab arithmetic on valid cells -/

/-- The call `fab.divide(src,bx,srccomp,destcomp,1)` in a loop over the tile
boxes `bx` of `mf`: component `destcomp` of every valid cell is divided by
component `srccomp` of `src`. -/
def MultiFab.divide (mf src : MultiFab) (srccomp destcomp : ℕ) : MultiFab :=
  { mf with data := fun i c n =>
      if mf.inValid i c && decide (n = destcomp) then mf.data i c n / src.data i c srccomp
      else mf.data i c n }

/-- The call `fab.plus(src,bx,srccomp,destcomp,1)` in a loop over the tile
boxes `bx` of `mf`. -/
def MultiFab.plus (mf src : MultiFab) (srccomp destcomp : ℕ) : MultiFab :=
  { mf with data := fun i c n =>
      if mf.inValid i c && decide (n = destcomp) then mf.data i c n + src.data i c srccomp
      else mf.data i c n }

/-- The call `mf.mult(val, mf.nGrow())`: every component of every cell, ghost
cells included, is multiplied by `val`. -/
def MultiFab.mult (mf : MultiFab) (val : ℚ) : MultiFab :=
  { mf with data := fun i c n => mf.data i c n * val }

/-! ## Coarsening -/

/-- The library function `amrex::coarsen(IntVect, IntVect)`: the floor of the
quotient in every direction. -/
def coarsenIV (iv ratio : IntVect) : IntVect :=
  List.zipWith Int.fdiv iv ratio

/-- The library function `Box::coarsen(ratio)` on a cell-centred box. -/
def Box.coarsen (b : Box) (ratio : IntVect) : Box :=
  ⟨coarsenIV b.lo ratio, coarsenIV b.hi ratio⟩

/-! ## Reflux -/

/-- A `FluxRegister`: `data f i c n` is component `n` at index `c` of the fab
`i` of the face `f`. -/
structure FluxRegister where
  data : ℕ → ℕ → IntVect → ℕ → ℚ

/-- The library call `reg.Reflux(S,volume,scale,scomp,dcomp,ncomp,geom)`,
taken as adding an increment: `incr reg scale i c n` is what register
component `n` adds to cell `c` of grid `i`. -/
def FluxRegister.Reflux (incr : FluxRegister → ℚ → ℕ → IntVect → ℕ → ℚ)
    (reg : FluxRegister) (S : MultiFab) (scale : ℚ) (scomp dcomp ncomp : ℕ) : MultiFab :=
  { S with data := fun i c n =>
      if decide (dcomp ≤ n) && decide (n < dcomp + ncomp)
      then S.data i c n + incr reg scale i c (scomp + (n - dcomp))
      else S.data i c n }

/-- What `reflux` reads and writes: the sync fields of the level and the flux
registers of the next finer level. -/
structure SyncFields where
  Vsync : MultiFab
  Ssync : MultiFab
  fr_adv : FluxRegister
  fr_visc : FluxRegister

/-- Whether some box of `ba` contains `c`. -/
def coveredBy (ba : List Box) (c : IntVect) : Bool :=
  ba.any (fun b => b.contains c)

/-- The last loop of `reflux`: components below `ncomp` of `fab` are set to
zero on every intersection of a box of `baf` with a tile box of `iter`. -/
def zeroCovered (iter : MultiFab) (baf : List Box) (fab : MultiFab) (ncomp : ℕ) : MultiFab :=
  { fab with data := fun i c n =>
      if iter.inValid i c && coveredBy baf c && decide (n < ncomp) then 0
      else fab.data i c n }

/-- The function `NavierStokes::reflux`; `Rh` is `get_rho_half_time()`,
`dt_crse` is `parent->dtLevel(level)` and `fine_boxes` the box array of the
next finer level. -/
def reflux (cfg : Config) (incr : FluxRegister → ℚ → ℕ → IntVect → ℕ → ℚ)
    (dt_crse : ℚ) (Rh : MultiFab) (fine_boxes : List Box) (fine_ratio : IntVect)
    (st : SyncFields) : SyncFields :=
  if cfg.level = cfg.finestLevel then st
  else
    let scale := 1 / dt_crse
    let Vsync := st.fr_visc.Reflux incr st.Vsync scale 0 0 cfg.BL_SPACEDIM
    let Ssync := st.fr_visc.Reflux incr st.Ssync scale cfg.BL_SPACEDIM 0
      (cfg.NUM_STATE - cfg.BL_SPACEDIM)
    let Vsync := if cfg.do_mom_diff = 0 then
        (List.range cfg.BL_SPACEDIM).foldl (fun V d => V.divide Rh 0 d) Vsync
      else Vsync
    let Ssync := (List.range' cfg.BL_SPACEDIM (cfg.NUM_STATE - cfg.BL_SPACEDIM)).foldl
      (fun S istate =>
        if cfg.advectionType istate = .NonConservative
        then S.divide Rh 0 (istate - cfg.BL_SPACEDIM) else S) Ssync
    let Vsync := st.fr_adv.Reflux incr Vsync scale 0 0 cfg.BL_SPACEDIM
    let Ssync := st.fr_adv.Reflux incr Ssync scale cfg.BL_SPACEDIM 0
      (cfg.NUM_STATE - cfg.BL_SPACEDIM)
    let baf := fine_boxes.map (fun b => b.coarsen fine_ratio)
    { st with
      Vsync := zeroCovered Vsync baf Vsync cfg.BL_SPACEDIM
      Ssync := zeroCovered Vsync baf Ssync (cfg.NUM_STATE - cfg.BL_SPACEDIM) }

/-! ## The mac sync -/

/-- The data of a multifab. -/
abbrev FabData := ℕ → IntVect → ℕ → ℚ

/-- One component of the data of a multifab. -/
abbrev Field := ℕ → IntVect → ℚ

/-- The call `fab.plus(src,bx,srccomp,destcomp,numcomp)` in a loop over the
tile boxes `bx` of `mf`. -/
def MultiFab.plusN (mf src : MultiFab) (srccomp destcomp numcomp : ℕ) : MultiFab :=
  { mf with data := fun i c n =>
      if mf.inValid i c && decide (destcomp ≤ n) && decide (n < destcomp + numcomp)
      then mf.data i c n + src.data i c (srccomp + (n - destcomp))
      else mf.data i c n }

/-- What `mac_sync` reads and writes: the new-time state, the sync fields,
`DeltaSsync` and `rho_ctime` of the level, the new-time state of every level,
and the rest of the hierarchy. -/
structure SyncLevel (ρ : Type) where
  S_new : MultiFab
  Vsync : MultiFab
  Ssync : MultiFab
  DeltaSsync : MultiFab
  rho_ctime : MultiFab
  fine_S_new : ℕ → MultiFab
  rest : ρ

/-- The calls of `mac_sync` into code that is not embedded.  A call that
writes a multifab returns its new data, one that writes elsewhere the new rest
of the hierarchy. -/
structure SyncOps (ρ : Type) where
  /-- The contents of the `DeltaSsync` that `sync_setup` allocates. -/
  sync_setup : SyncLevel ρ → FabData
  mac_sync_solve : ℚ → SyncLevel ρ → ρ
  /-- The new `Vsync`, the new `Ssync` and the rest after `mac_sync_compute`. -/
  mac_sync_compute : ℚ → SyncLevel ρ → FabData × FabData × ρ
  /-- The new `Vsync` and the rest after `diffuse_Vsync(Vsync,dt,..,rho_flag,..)`. -/
  diffuse_Vsync : ℚ → ℤ → SyncLevel ρ → FabData × ρ
  /-- The viscous sync `diffuse_Ssync(Ssync,sigma,dt,..,rho_flag,..)` as a
  function of component `sigma` of `Ssync`, the only one it writes. -/
  diffuse_Ssync : MultiFab → ℕ → ℚ → ℤ → Field → Field
  /-- The rest after `diffuse_Ssync` has left its fluxes in `fluxSC`. -/
  diffuse_Ssync_flux : ℕ → ℚ → SyncLevel ρ → ρ
  /-- The call `getViscFluxReg().FineAdd(*fluxSC[d],d,srccomp,destcomp,numcomp,mult)`. -/
  viscflux_FineAdd : (d srccomp destcomp numcomp : ℕ) → ℚ → ρ → ρ
  /-- The data of `rho_ctime` after `make_rho_curr_time`. -/
  make_rho_curr_time : SyncLevel ρ → FabData
  incrRhoAvg : MultiFab → ℕ → ℚ → ρ → ρ
  /-- The data of `sync_incr` after
  `SyncInterp(Ssync,c_lev,sync_incr,f_lev,ratio,src_comp,dest_comp,num_comp,increment,mult,bc)`. -/
  SyncInterp : MultiFab → ℕ → MultiFab → ℕ → IntVect → (src_comp dest_comp num_comp : ℕ) →
    ℤ → ℚ → SyncLevel ρ → FabData
  /-- The call `getLevel(lev).make_rho_curr_time()`. -/
  fine_make_rho_curr_time : ℕ → SyncLevel ρ → ρ
  /-- The call `getLevel(lev).incrRhoAvg(sync_incr,comp,mult)`. -/
  fine_incrRhoAvg : ℕ → MultiFab → ℕ → ℚ → ρ → ρ
  sync_cleanup : SyncLevel ρ → ρ
  /-- The value `parent->refRatio(lev)`. -/
  refRatio : ℕ → IntVect
  /-- The value `Diffusion::set_rho_flag(diffusionType[state_ind])`. -/
  rho_flag : ℕ → ℤ

/-- The call of `mac_sync_compute` and the scaling `Ssync.mult(dt,Ssync.nGrow())`. -/
def mac_sync_scale {ρ : Type} (ops : SyncOps ρ) (dt : ℚ) (st : SyncLevel ρ) : SyncLevel ρ :=
  let r := ops.mac_sync_compute dt st
  { st with
    Vsync := { st.Vsync with data := r.1 }
    Ssync := MultiFab.mult { st.Ssync with data := r.2.1 } dt
    rest := r.2.2 }

/-- One turn of the first loop over `istate` of `mac_sync`, on the counter
`iconserved` and the multifabs `Ssync` and `DeltaSsync`. -/
def deltaSsyncStep (cfg : Config) (S_new : MultiFab) (acc : ℤ × MultiFab × MultiFab)
    (istate : ℕ) : ℤ × MultiFab × MultiFab :=
  if istate ≠ cfg.Density ∧ cfg.advectionType istate = .Conservative then
    let iconserved := acc.1 + 1
    let Ssync := acc.2.1
    let DeltaSsync := acc.2.2
    let delta_ssync : Field := fun i c =>
      S_new.data i c istate / S_new.data i c cfg.Density
        * Ssync.data i c (cfg.Density - cfg.BL_SPACEDIM)
    (iconserved,
      { Ssync with data := fun i c n =>
          if S_new.inValid i c && decide (n = istate - cfg.BL_SPACEDIM)
          then Ssync.data i c n - delta_ssync i c else Ssync.data i c n },
      { DeltaSsync with data := fun i c n =>
          if S_new.inValid i c && decide (n = iconserved.toNat)
          then delta_ssync i c else DeltaSsync.data i c n })
  else acc

/-- The first loop over `istate` of `mac_sync`: `DeltaSsync` is formed and
subtracted from `Ssync`. -/
def mac_sync_subtract {ρ : Type} (cfg : Config) (st : SyncLevel ρ) : SyncLevel ρ :=
  let r := (List.range' cfg.BL_SPACEDIM (cfg.NUM_STATE - cfg.BL_SPACEDIM)).foldl
    (deltaSsyncStep cfg st.S_new) (-1, st.Ssync, st.DeltaSsync)
  { st with Ssync := r.2.1, DeltaSsync := r.2.2 }

/-- The division of `Vsync` by `rho_ctime` and the viscous sync of `Vsync`. -/
def mac_sync_velocity {ρ : Type} (ops : SyncOps ρ) (cfg : Config) (dt : ℚ)
    (st : SyncLevel ρ) : SyncLevel ρ :=
  let st := if cfg.do_mom_diff = 1 then
      { st with Vsync := ((List.range cfg.BL_SPACEDIM).foldl
          (fun V d => V.divide st.rho_ctime 0 d) st.Vsync) }
    else st
  if cfg.is_diffusive 0 then
    let rho_flag : ℤ := if cfg.do_mom_diff = 0 then 1 else 3
    let r := ops.diffuse_Vsync dt rho_flag st
    { st with Vsync := { st.Vsync with data := r.1 }, rest := r.2 }
  else st

/-- The component `sigma` of a multifab replaced by a field. -/
def MultiFab.setComp (mf : MultiFab) (sigma : ℕ) (f : Field) : MultiFab :=
  { mf with data := fun i c n => if n = sigma then f i c else mf.data i c n }

/-- One turn of the loop over `sigma` of `mac_sync` that applies the viscous
sync to the scalars. -/
def viscousSyncStep {ρ : Type} (ops : SyncOps ρ) (cfg : Config) (dt : ℚ)
    (st : SyncLevel ρ) (sigma : ℕ) : SyncLevel ρ :=
  let state_ind := cfg.BL_SPACEDIM + sigma
  let rho_flag := ops.rho_flag state_ind
  if cfg.is_diffusive state_ind then
    let st := { st with
      Ssync := st.Ssync.setComp sigma
        (ops.diffuse_Ssync st.S_new sigma dt rho_flag (fun i c => st.Ssync.data i c sigma))
      rest := ops.diffuse_Ssync_flux sigma dt st }
    if 0 < cfg.level then
      { st with rest := ((List.range cfg.BL_SPACEDIM).foldl
          (fun r d => ops.viscflux_FineAdd d 0 state_ind 1 dt r) st.rest) }
    else st
  else st

/-- The loop over `sigma` of `mac_sync` that applies the viscous sync. -/
def mac_sync_viscous {ρ : Type} (ops : SyncOps ρ) (cfg : Config) (dt : ℚ)
    (st : SyncLevel ρ) : SyncLevel ρ :=
  (List.range (cfg.NUM_STATE - cfg.BL_SPACEDIM)).foldl (viscousSyncStep ops cfg dt) st

/-- One turn of the second loop over `istate` of `mac_sync`, on the counter
`iconserved` and the multifab `Ssync`. -/
def readdStep (cfg : Config) (DeltaSsync : MultiFab) (acc : ℤ × MultiFab) (istate : ℕ) :
    ℤ × MultiFab :=
  if istate ≠ cfg.Density ∧ cfg.advectionType istate = .Conservative then
    (acc.1 + 1, acc.2.plus DeltaSsync (acc.1 + 1).toNat (istate - cfg.BL_SPACEDIM))
  else acc

/-- The second loop over `istate` of `mac_sync`: `DeltaSsync` is added back
to `Ssync`. -/
def mac_sync_readd {ρ : Type} (cfg : Config) (st : SyncLevel ρ) : SyncLevel ρ :=
  { st with Ssync := ((List.range' cfg.BL_SPACEDIM (cfg.NUM_STATE - cfg.BL_SPACEDIM)).foldl
      (readdStep cfg st.DeltaSsync) (-1, st.Ssync)).2 }

/-- The sync correction is added to the new-time state; `rho_ctime` and the
rho average follow. -/
def mac_sync_add {ρ : Type} (ops : SyncOps ρ) (cfg : Config) (st : SyncLevel ρ) :
    SyncLevel ρ :=
  let st := { st with S_new := ((List.range (cfg.NUM_STATE - cfg.BL_SPACEDIM)).foldl
      (fun S sigma => S.plus st.Ssync sigma (cfg.BL_SPACEDIM + sigma)) st.S_new) }
  let st := { st with rho_ctime := { st.rho_ctime with data := ops.make_rho_curr_time st } }
  if 0 < cfg.level then
    { st with rest := ops.incrRhoAvg st.Ssync (cfg.Density - cfg.BL_SPACEDIM) 1 st.rest }
  else st

/-- One turn of the loop over the finer levels `lev` of `mac_sync`, on the
accumulated `ratio` and the state. -/
def syncInterpStep {ρ : Type} (ops : SyncOps ρ) (cfg : Config)
    (acc : IntVect × SyncLevel ρ) (lev : ℕ) : IntVect × SyncLevel ρ :=
  let numscal := cfg.NUM_STATE - cfg.BL_SPACEDIM
  let ratio := List.zipWith (fun a b => a * b) acc.1 (ops.refRatio (lev - 1))
  let st := acc.2
  let zero : MultiFab := ⟨(st.fine_S_new lev).grids, 0, fun _ _ _ => 0⟩
  let sync_incr : MultiFab :=
    { zero with data := ops.SyncInterp st.Ssync cfg.level zero lev ratio 0 0 numscal 1 1 st }
  let st := { st with fine_S_new := fun l =>
      if l = lev then (st.fine_S_new lev).plusN sync_incr 0 cfg.Density numscal
      else st.fine_S_new l }
  let st := { st with rest := ops.fine_make_rho_curr_time lev st }
  (ratio, { st with rest :=
      ops.fine_incrRhoAvg lev sync_incr (cfg.Density - cfg.BL_SPACEDIM) 1 st.rest })

/-- The loop over the finer levels of `mac_sync`. -/
def mac_sync_interp {ρ : Type} (ops : SyncOps ρ) (cfg : Config) (st : SyncLevel ρ) :
    SyncLevel ρ :=
  ((List.range' (cfg.level + 1) (cfg.finestLevel - cfg.level)).foldl
    (syncInterpStep ops cfg) (List.replicate cfg.BL_SPACEDIM 1, st)).2

/-- The start of `mac_sync`: `sync_setup` and `mac_sync_solve`. -/
def mac_sync_entry {ρ : Type} (ops : SyncOps ρ) (cfg : Config) (dt : ℚ) (st : SyncLevel ρ) :
    SyncLevel ρ :=
  let st := { st with DeltaSsync := ⟨cfg.grids, 0, ops.sync_setup st⟩ }
  { st with rest := ops.mac_sync_solve dt st }

/-- The branch `if (do_reflux)` of `mac_sync`. -/
def mac_sync_reflux {ρ : Type} (ops : SyncOps ρ) (cfg : Config) (dt : ℚ) (st : SyncLevel ρ) :
    SyncLevel ρ :=
  mac_sync_interp ops cfg (mac_sync_add ops cfg (mac_sync_readd cfg
    (mac_sync_viscous ops cfg dt (mac_sync_velocity ops cfg dt
      (mac_sync_subtract cfg (mac_sync_scale ops dt st))))))

/-- The state of `mac_sync` with `do_reflux` set when it reaches the loop over
the finer levels: the coarse correction has been added to the level. -/
def mac_sync_corrected {ρ : Type} (ops : SyncOps ρ) (cfg : Config) (dt : ℚ)
    (st : SyncLevel ρ) : SyncLevel ρ :=
  mac_sync_add ops cfg (mac_sync_readd cfg (mac_sync_viscous ops cfg dt
    (mac_sync_velocity ops cfg dt (mac_sync_subtract cfg
      (mac_sync_scale ops dt (mac_sync_entry ops cfg dt st))))))

/-- The function `NavierStokes::mac_sync`; `dt` is `parent->dtLevel(level)`. -/
def mac_sync {ρ : Type} (ops : SyncOps ρ) (cfg : Config) (dt : ℚ) (st : SyncLevel ρ) :
    SyncLevel ρ :=
  let st := mac_sync_entry ops cfg dt st
  let st := if cfg.do_reflux then mac_sync_reflux ops cfg dt st else st
  { st with rest := ops.sync_cleanup st }

/-- Whether `istate` is a conservative component other than the density. -/
def isConservedScalar (cfg : Config) (istate : ℕ) : Bool :=
  decide (istate ≠ cfg.Density) && decide (cfg.advectionType istate = .Conservative)

/-- The number of conservative components other than the density among the
state components `BL_SPACEDIM, ..., istate - 1`. -/
def conservedBelow (cfg : Config) (istate : ℕ) : ℕ :=
  (List.range' cfg.BL_SPACEDIM (istate - cfg.BL_SPACEDIM)).countP (isConservedScalar cfg)

/-- The amount `(Delta rho / rho) * q` that `mac_sync` holds in `DeltaSsync`
for the state component `istate` at cell `c` of grid `i`; `Ssync_c` is the
`Ssync` that `mac_sync_compute` returned. -/
def deltaRhoQ (cfg : Config) (dt : ℚ) (S_new : MultiFab) (Ssync_c : FabData) (istate : ℕ) :
    Field :=
  fun i c => S_new.data i c istate / S_new.data i c cfg.Density
    * (dt * Ssync_c i c (cfg.Density - cfg.BL_SPACEDIM))

/-- The viscous sync of scalar `sigma` as `mac_sync` applies it: the function
`diffuse_Ssync` when the component is diffusive, nothing otherwise. -/
def viscousSync {ρ : Type} (ops : SyncOps ρ) (cfg : Config) (dt : ℚ) (S_new : MultiFab)
    (sigma : ℕ) (f : Field) : Field :=
  if cfg.is_diffusive (cfg.BL_SPACEDIM + sigma)
  then ops.diffuse_Ssync S_new sigma dt (ops.rho_flag (cfg.BL_SPACEDIM + sigma)) f
  else f

/-! ## The sync register -/

/-- The value `Outflow` of the library enumeration of physical boundary types. -/
def Outflow : ℤ := 2

/-- A `Geometry` as the sync register reads it: the domain and the periodic
directions. -/
structure Geometry where
  Domain : Box
  isPeriodic : ℕ → Bool

/-- A `BCRec`: the low and high boundary type per direction. -/
structure BCRec where
  lo : ℕ → ℤ
  hi : ℕ → ℤ

/-- A `FabSet` with one component: the boxes of its fabs and `data k c`, the
value at index `c` of fab `k`. -/
structure FabSet where
  boxes : List Box
  data : ℕ → IntVect → ℚ

/-- A `SyncRegister`: the coarsened grids, the ratio and, per face, the
boundary register and its mask. -/
structure SyncRegister where
  grids : List Box
  ratio : IntVect
  bndry : ℕ → FabSet
  bndry_mask : ℕ → FabSet

/-- The library calls and Fortran kernels of the sync register. -/
structure SyncRegOps where
  /-- The data of `dest` after `fs.copyTo(dest,ngrow,0,0,1,period)`; the
  periodicity is that of the geometry given, none when the argument is absent. -/
  copyTo : FabSet → MultiFab → ℕ → Option Geometry → FabData
  /-- The data of `fs` after `fs.plusFrom(src,0,0,0,1,period)`. -/
  plusFrom : FabSet → MultiFab → Geometry → ℕ → IntVect → ℚ
  /-- The shifts that `geom.periodicShift(target,src,pshifts)` returns. -/
  periodicShift : Geometry → Box → Box → List IntVect
  /-- The kernel `makemask(mask,mlo,mhi,cells,clo,chi)`: the new `mask`. -/
  makemask : Box → (IntVect → ℚ) → Box → (IntVect → ℚ) → IntVect → ℚ
  /-- The kernel `convertmask(mask,mlo,mhi)`: the new `mask`. -/
  convertmask : Box → (IntVect → ℚ) → IntVect → ℚ
  /-- The kernel `srcrsereg(fine,flo,fhi,crse,clo,chi,clo,chi,dir,ratio)`: the new `crse`. -/
  srcrsereg : Box → (IntVect → ℚ) → Box → ℕ → IntVect → IntVect → ℚ

/-- The loop of `InitRHS` that records the outflow directions in
`outflow_dirs[BL_SPACEDIM-1]` and counts them in `nOutflow`; `none` is a write
past the end of the array. -/
def recordOutflow (D : ℕ) (phys_bc : BCRec) : Option (List ℤ × ℕ) :=
  (List.range D).foldlM
    (fun (acc : List ℤ × ℕ) dir =>
      if phys_bc.lo dir = Outflow ∨ phys_bc.hi dir = Outflow then
        if acc.2 < D - 1 then some (acc.1.set acc.2 (dir : ℤ), acc.2 + 1) else none
      else some acc)
    ((List.replicate (D - 1) (0 : ℤ)).set 0 (-1), 0)

/-- The call `fab.setVal(0.0,bx,0,1)` on the fab of grid `i` when `bx` is ok. -/
def zeroOnBox (data : FabData) (i : ℕ) (bx : Box) : FabData :=
  fun j c n => if j = i ∧ bx.ok = true ∧ bx.contains c = true ∧ n = 0 then 0 else data j c n

/-- The loop of `InitRHS` over the recorded outflow directions: `rhs` is set
to zero on the outflow faces of the node domain. -/
def zeroOutflow (phys_bc : BCRec) (node_domain : Box) (grids : List Box)
    (outflow_dirs : List ℤ) (nOutflow : ℕ) (data : FabData) : FabData :=
  (List.range nOutflow).foldl
    (fun data n =>
      let dir := (outflow_dirs.getD n 0).toNat
      (List.range grids.length).foldl
        (fun data i =>
          let vbx := grids.getD i ⟨[], []⟩
          let data := if phys_bc.lo dir = Outflow
            then zeroOnBox data i (vbx.inter (node_domain.loFace dir)) else data
          if phys_bc.hi dir = Outflow
          then zeroOnBox data i (vbx.inter (node_domain.hiFace dir)) else data)
        data)
    data

/-- The cells `tmpfab` of `InitRHS` for the mask fab on `fabbox`: `1` on the
cells of `mask_cells` that a grid of the register, or a periodic image of one,
covers, and `0` on the others. -/
def maskCells (ops : SyncRegOps) (D : ℕ) (geom : Geometry) (grids : List Box)
    (fabbox : Box) : IntVect → ℚ :=
  let mask_cells := (fabbox.grow 1).enclosedCells
  let direct := fun c => grids.any (fun g => (g.inter mask_cells).contains c)
  let shifted := fun c =>
    (List.range D).any geom.isPeriodic && !geom.Domain.containsBox mask_cells &&
      (ops.periodicShift geom geom.Domain mask_cells).any (fun iv =>
        grids.any (fun g =>
          (((g.inter (mask_cells.shift iv)).shift (iv.map (fun x => -x))).contains c)))
  fun c => if mask_cells.contains c && (direct c || shifted c) then 1 else 0

/-- The doubling of a mask fab on the faces of the node domain in the
directions that are not periodic. -/
def doubleAtBoundary (D : ℕ) (geom : Geometry) (node_domain fabbox : Box)
    (mask : IntVect → ℚ) : IntVect → ℚ :=
  (List.range D).foldl
    (fun mask dir =>
      if !geom.isPeriodic dir then
        let blo := fabbox.inter (node_domain.loFace dir)
        let mask := fun c => if blo.ok && blo.contains c then mask c * 2 else mask c
        let bhi := fabbox.inter (node_domain.hiFace dir)
        fun c => if bhi.ok && bhi.contains c then mask c * 2 else mask c
      else mask)
    mask

/-- The boundary mask that `InitRHS` leaves on a face: it is set to zero, made
from the covered cells, doubled at the physical boundary and converted. -/
def makeBndryMask (ops : SyncRegOps) (D : ℕ) (geom : Geometry) (grids : List Box)
    (fs : FabSet) : FabSet :=
  { fs with data := (fun k =>
      let fabbox := fs.boxes.getD k ⟨[], []⟩
      let mask := ops.makemask fabbox (fun _ => 0) (fabbox.grow 1).enclosedCells
        (maskCells ops D geom grids fabbox)
      ops.convertmask fabbox
        (doubleAtBoundary D geom geom.Domain.surroundingNodes fabbox mask)) }

/-- The last loop of `InitRHS`: `rhs` is multiplied by the mask of every face. -/
def multiplyByMasks (ops : SyncRegOps) (D : ℕ) (mask : ℕ → FabSet) (rhs : MultiFab) :
    MultiFab :=
  (List.range (2 * D)).foldl
    (fun rhs face =>
      let tmp : MultiFab := { rhs with data := fun _ _ _ => 1 }
      let tmp : MultiFab := { tmp with data := ops.copyTo (mask face) tmp rhs.nGrow none }
      { rhs with data := (fun i c n =>
          if rhs.inGrown rhs.nGrow i c && decide (n = 0)
          then rhs.data i c n * tmp.data i c 0 else rhs.data i c n) })
    rhs

/-- The function `SyncRegister::InitRHS`: the register and `rhs` afterwards;
`none` is a write past the end of `outflow_dirs`. -/
def InitRHS (ops : SyncRegOps) (D : ℕ) (reg : SyncRegister) (rhs : MultiFab)
    (geom : Geometry) (phys_bc : BCRec) : Option (SyncRegister × MultiFab) :=
  let ngrow := rhs.nGrow
  let rhs : MultiFab := { rhs with data := fun _ _ _ => 0 }
  let rhs := (List.range (2 * D)).foldl
    (fun rhs face => { rhs with data := ops.copyTo (reg.bndry face) rhs ngrow (some geom) }) rhs
  (recordOutflow D phys_bc).bind fun r =>
    let node_domain := geom.Domain.surroundingNodes
    let rhs : MultiFab := if 0 < r.2
      then { rhs with data := zeroOutflow phys_bc node_domain rhs.grids r.1 r.2 rhs.data }
      else rhs
    let mask := fun face => makeBndryMask ops D geom reg.grids
      { reg.bndry_mask face with data := fun _ _ => 0 }
    some ({ reg with bndry_mask := mask }, multiplyByMasks ops D mask rhs)

/-- Whether direction `dir` has an `Outflow` low or high boundary. -/
def isOutflowDir (phys_bc : BCRec) (dir : ℕ) : Bool :=
  decide (phys_bc.lo dir = Outflow ∨ phys_bc.hi dir = Outflow)

/-! ## Sample levels -/

/-- The unit box at the origin of the plane. -/
def unitBox : Box := ⟨[0, 0], [0, 0]⟩

/-- A level in two dimensions with the one grid `unitBox`, velocity, density
and one tracer; `dy` is its cell size in the second direction. -/
def sampleCfg (dy : ℚ) : Config where
  BL_SPACEDIM := 2
  NUM_STATE := 4
  NUM_SCALARS := 2
  Density := 2
  level := 0
  finestLevel := 0
  grids := [unitBox]
  hypgrow := 1
  dx := fun d => if d = 0 then 1 else dy
  cfl := 1 / 2
  change_max := 11 / 10
  do_mac_proj := true
  do_mom_diff := 0
  do_reflux := true
  do_scalar_update_in_order := false
  scalarUpdateOrder := fun _ => 1
  have_divu := false
  have_dsdt := false
  initial_step := false
  projector := true
  is_diffusive := fun _ => false
  advectionType := fun _ => .Conservative

/-- Operations on a state that holds nothing, with an old-time state that is
`u` in the first and `v` in the second component of every cell. -/
def sampleOps (u v : ℚ) : LevelOps Unit where
  advance_setup := fun _ _ _ _ s => s
  FillPatchIterator := fun _ _ _ _ _ _ n => if n = 0 then u else v
  ExtrapVelToFaces := fun _ _ s => s
  create_mac_rhs := fun _ _ s => s
  mac_project := fun _ _ s => s
  velocity_advection := fun _ s => s
  AdvectScalars := fun _ _ _ _ s => s
  advflux_FineAdd := fun _ _ _ _ _ s => s
  advflux_CrseInit := fun _ _ _ _ _ _ s => s
  scalar_advection_update := fun _ _ _ s => s
  scalar_diffusion_update := fun _ _ _ s => s
  contains_nan := fun _ _ => false
  make_rho_curr_time := fun s => s
  calc_divu := fun _ _ s => s
  calc_dsdt := fun _ _ s => s
  copy_dsdt := fun s => s
  velocity_update := fun _ s => s
  incrRhoAvg := fun _ s => s
  level_projector := fun _ _ _ s => s
  p_avg_setVal := fun s => s
  advance_cleanup := fun _ _ s => s

/-- The sample level as the coarser of two levels, with the given
`do_mom_diff` and advection forms. -/
def coarseCfg (do_mom_diff : ℤ) (advectionType : ℕ → AdvectionForm) : Config :=
  { sampleCfg 1 with
    finestLevel := 1
    grids := [⟨[0, 0], [3, 3]⟩]
    do_mom_diff := do_mom_diff
    advectionType := advectionType }

/-- A multifab on the grid `[0,3] x [0,3]` with one ghost cell that holds `v`
in every component of every cell. -/
def constMF (v : ℚ) : MultiFab := ⟨[⟨[0, 0], [3, 3]⟩], 1, fun _ _ _ => v⟩

/-- Sync fields with `Vsync = 6`, `Ssync = 8` and flux registers that hold `1`
(advective) and `2` (viscous). -/
def sampleSync : SyncFields where
  Vsync := constMF 6
  Ssync := constMF 8
  fr_adv := ⟨fun _ _ _ _ => 1⟩
  fr_visc := ⟨fun _ _ _ _ => 2⟩

/-- A reflux increment: the scaled register value at the cell. -/
def sampleIncr : FluxRegister → ℚ → ℕ → IntVect → ℕ → ℚ :=
  fun reg scale i c n => scale * reg.data 0 i c n

/-- The boxes of the finer level: the one box `[4,7] x [4,7]`. -/
def sampleFineBoxes : List Box := [⟨[4, 4], [7, 7]⟩]

/-- The coarse sample level with conservative scalars and a diffusive tracer. -/
def syncCfg : Config :=
  { coarseCfg 0 (fun _ => .Conservative) with is_diffusive := fun k => decide (k = 3) }

/-- Sync operations on a hierarchy that holds nothing else: `mac_sync_compute`
returns `Ssync = (3, 5)`, and the viscous sync of a scalar doubles it. -/
def sampleSyncOps : SyncOps Unit where
  sync_setup := fun _ _ _ _ => 0
  mac_sync_solve := fun _ _ => ()
  mac_sync_compute := fun _ _ => (fun _ _ _ => 0, fun _ _ n => if n = 0 then 3 else 5, ())
  diffuse_Vsync := fun _ _ st => (st.Vsync.data, ())
  diffuse_Ssync := fun _ _ _ _ f i c => 2 * f i c
  diffuse_Ssync_flux := fun _ _ _ => ()
  viscflux_FineAdd := fun _ _ _ _ _ r => r
  make_rho_curr_time := fun st => st.rho_ctime.data
  incrRhoAvg := fun _ _ _ r => r
  SyncInterp := fun _ _ _ _ _ _ _ _ _ _ _ _ _ _ => 0
  fine_make_rho_curr_time := fun _ _ => ()
  fine_incrRhoAvg := fun _ _ _ _ r => r
  sync_cleanup := fun _ => ()
  refRatio := fun _ => [2, 2]
  rho_flag := fun _ => 2

/-- A level with density `2` and every other state component `4`. -/
def sampleSyncLevel : SyncLevel Unit where
  S_new := ⟨[⟨[0, 0], [3, 3]⟩], 1, fun _ _ n => if n = 2 then 2 else 4⟩
  Vsync := constMF 0
  Ssync := constMF 0
  DeltaSsync := constMF 0
  rho_ctime := constMF 2
  fine_S_new := fun _ => ⟨[⟨[4, 4], [7, 7]⟩], 1, fun _ _ _ => 1⟩
  rest := ()

/-- Kernels and library calls for a sample register: copies take the value of
the first fab at the index, the mask is the number of covered cells at the
index, and a mask above `3.5` becomes `0`, any other `1`. -/
def sampleRegOps : SyncRegOps where
  copyTo := fun fs _ _ _ _ c _ => fs.data 0 c
  plusFrom := fun fs src _ k c => fs.data k c + src.data 0 c 0
  periodicShift := fun _ _ _ => []
  makemask := fun _ _ _ cells c => cells c
  convertmask := fun _ mask c => if mask c > 7 / 2 then 0 else 1
  srcrsereg := fun _ fine _ _ _ c => fine c

/-- A register on the grid `[2,3] x [2,3]` whose boundary registers hold `4`. -/
def sampleReg : SyncRegister where
  grids := [⟨[2, 2], [3, 3]⟩]
  ratio := [2, 2]
  bndry := fun _ => ⟨[⟨[2, 2], [2, 4]⟩], fun _ _ => 4⟩
  bndry_mask := fun _ => ⟨[⟨[2, 2], [2, 4]⟩], fun _ _ => 9⟩

/-- The domain `[0,7] x [0,7]`, not periodic. -/
def sampleGeom : Geometry := ⟨⟨[0, 0], [7, 7]⟩, fun _ => false⟩

/-- A boundary record with the same type on every low and on every high side. -/
def sampleBC (lo hi : ℤ) : BCRec := ⟨fun _ => lo, fun _ => hi⟩

/-- The old-time velocity that `predict_velocity` fills, before its floor loop. -/
def predict_velocity_Ufill {σ : Type} (ops : LevelOps σ) (cfg : Config) (s : σ) : MultiFab :=
  ⟨cfg.grids, cfg.hypgrow, ops.FillPatchIterator s cfg.hypgrow 0 cfg.BL_SPACEDIM⟩

/-! ## Sample states for `scalar_update` -/

/-- Whether a double is finite. -/
def XReal.isFinite : XReal → Bool
  | .fin _ => true
  | _ => false

/-- Operations on a state that is the new-time value of the scalars in the
one valid cell of a level: the updates leave it as it is, and
`contains_nan` holds when it is a NaN. -/
def cellOps : LevelOps XReal where
  advance_setup := fun _ _ _ _ s => s
  FillPatchIterator := fun _ _ _ _ _ _ _ => 0
  ExtrapVelToFaces := fun _ _ s => s
  create_mac_rhs := fun _ _ s => s
  mac_project := fun _ _ s => s
  velocity_advection := fun _ s => s
  AdvectScalars := fun _ _ _ _ s => s
  advflux_FineAdd := fun _ _ _ _ _ s => s
  advflux_CrseInit := fun _ _ _ _ _ _ s => s
  scalar_advection_update := fun _ _ _ s => s
  scalar_diffusion_update := fun _ _ _ s => s
  contains_nan := fun s _ => decide (s = .nan)
  make_rho_curr_time := fun s => s
  calc_divu := fun _ _ s => s
  calc_dsdt := fun _ _ s => s
  copy_dsdt := fun s => s
  velocity_update := fun _ s => s
  incrRhoAvg := fun _ s => s
  level_projector := fun _ _ _ s => s
  p_avg_setVal := fun s => s
  advance_cleanup := fun _ _ s => s

/-- The state of `scalar_update` when it tests for NaNs: after the advective
and, if any scalar is diffusive, the diffusive update. -/
def scalar_update_state {σ : Type} (ops : LevelOps σ) (cfg : Config) (dt : ℚ)
    (first_scalar last_scalar : ℕ) (s : σ) : σ :=
  if (List.range' first_scalar (last_scalar + 1 - first_scalar)).any cfg.is_diffusive
  then ops.scalar_diffusion_update dt first_scalar last_scalar
    (ops.scalar_advection_update dt first_scalar last_scalar s)
  else ops.scalar_advection_update dt first_scalar last_scalar s

/-- Operations like `cellOps` whose advective update of a scalar other than
the density (component `2` of the sample level) leaves a NaN. -/
def lateNanOps : LevelOps XReal :=
  { cellOps with
    scalar_advection_update := fun _ first_scalar _ s => if first_scalar = 2 then s else .nan }

/-- The state of `advance` when it calls `scalar_update` for the density. -/
def advance_before_density {σ : Type} (ops : LevelOps σ) (cfg : Config) (time dt : ℚ)
    (iteration ncycle : ℤ) (s : σ) : σ :=
  let s := ops.advance_setup time dt iteration ncycle s
  let s := (predict_velocity ops cfg dt s).1
  let s := if cfg.do_mac_proj then ops.mac_project time dt (ops.create_mac_rhs time dt s) else s
  let s := if cfg.do_mom_diff = 0 then ops.velocity_advection dt s else s
  scalar_advection ops cfg dt cfg.Density (cfg.Density + cfg.NUM_SCALARS - 1) s

/-- The state of `advance` when it goes on to the scalars other than the
density, `s` being the state the update of the density returned. -/
def advance_before_updates {σ : Type} (ops : LevelOps σ) (cfg : Config) (dt : ℚ) (s : σ) : σ :=
  let s := ops.make_rho_curr_time s
  if cfg.do_mom_diff = 1 then ops.velocity_advection dt s else s

/-! ## The calls of `advance` -/

/-- A call of `advance`, or of a function under it, into code that is not
embedded, with its arguments. -/
inductive Call where
  | advance_setup (time dt : ℚ) (iteration ncycle : ℤ)
  | ExtrapVelToFaces (dt : ℚ)
  | create_mac_rhs (time dt : ℚ)
  | mac_project (time dt : ℚ)
  | velocity_advection (dt : ℚ)
  | AdvectScalars (dt : ℚ) (fscalar num_scalars : ℕ)
  | advflux_FineAdd (d srccomp destcomp numcomp : ℕ) (mult : ℚ)
  | advflux_CrseInit (lev d srccomp destcomp numcomp : ℕ) (mult : ℚ)
  | scalar_advection_update (dt : ℚ) (first_scalar last_scalar : ℕ)
  | scalar_diffusion_update (dt : ℚ) (first_scalar last_scalar : ℕ)
  | make_rho_curr_time
  | calc_divu (time dt : ℚ)
  | calc_dsdt (time dt : ℚ)
  | copy_dsdt
  | velocity_update (dt : ℚ)
  | incrRhoAvg (w : ℚ)
  | level_projector (dt time : ℚ) (iteration : ℤ)
  | p_avg_setVal
  | advance_cleanup (iteration ncycle : ℤ)
  deriving DecidableEq, Repr

/-- The operations that record themselves: the state is the list of the calls
made so far, and `nan` is the test `contains_nan`. -/
def traceOps (nan : List Call → ℕ → Bool) : LevelOps (List Call) where
  advance_setup := fun time dt iteration ncycle s =>
    s ++ [.advance_setup time dt iteration ncycle]
  FillPatchIterator := fun _ _ _ _ _ _ _ => 0
  ExtrapVelToFaces := fun dt _ s => s ++ [.ExtrapVelToFaces dt]
  create_mac_rhs := fun time dt s => s ++ [.create_mac_rhs time dt]
  mac_project := fun time dt s => s ++ [.mac_project time dt]
  velocity_advection := fun dt s => s ++ [.velocity_advection dt]
  AdvectScalars := fun dt fscalar num_scalars _ s => s ++ [.AdvectScalars dt fscalar num_scalars]
  advflux_FineAdd := fun d srccomp destcomp numcomp mult s =>
    s ++ [.advflux_FineAdd d srccomp destcomp numcomp mult]
  advflux_CrseInit := fun lev d srccomp destcomp numcomp mult s =>
    s ++ [.advflux_CrseInit lev d srccomp destcomp numcomp mult]
  scalar_advection_update := fun dt a b s => s ++ [.scalar_advection_update dt a b]
  scalar_diffusion_update := fun dt a b s => s ++ [.scalar_diffusion_update dt a b]
  contains_nan := nan
  make_rho_curr_time := fun s => s ++ [.make_rho_curr_time]
  calc_divu := fun time dt s => s ++ [.calc_divu time dt]
  calc_dsdt := fun time dt s => s ++ [.calc_dsdt time dt]
  copy_dsdt := fun s => s ++ [.copy_dsdt]
  velocity_update := fun dt s => s ++ [.velocity_update dt]
  incrRhoAvg := fun w s => s ++ [.incrRhoAvg w]
  level_projector := fun dt time iteration s => s ++ [.level_projector dt time iteration]
  p_avg_setVal := fun s => s ++ [.p_avg_setVal]
  advance_cleanup := fun iteration ncycle s => s ++ [.advance_cleanup iteration ncycle]

/-- Whether a call is `velocity_advection`. -/
def Call.isVelocityAdvection : Call → Bool
  | .velocity_advection _ => true
  | _ => false

/-- Whether a call is one of the two updates `scalar_update` makes. -/
def Call.isScalarUpdate : Call → Bool
  | .scalar_advection_update _ _ _ => true
  | .scalar_diffusion_update _ _ _ => true
  | _ => false

/-- Whether a call is `FineAdd` or `CrseInit` on an advective flux register. -/
def Call.isFluxRegister : Call → Bool
  | .advflux_FineAdd _ _ _ _ _ => true
  | .advflux_CrseInit _ _ _ _ _ _ => true
  | _ => false

/-- The flux-register calls at the end of `scalar_advection`, in order. -/
def fluxCalls (cfg : Config) (dt : ℚ) (fscalar num_scalars : ℕ) : List Call :=
  if cfg.do_reflux then
    (if 0 < cfg.level then
        (List.range cfg.BL_SPACEDIM).map (fun d => .advflux_FineAdd d 0 fscalar num_scalars dt)
      else []) ++
    (if cfg.level < cfg.finestLevel then
        (List.range cfg.BL_SPACEDIM).map
          (fun i => .advflux_CrseInit (cfg.level + 1) i 0 fscalar num_scalars (-dt))
      else [])
  else []

/-- The calls of a returning `scalar_update`, in order. -/
def updateCalls (cfg : Config) (dt : ℚ) (first_scalar last_scalar : ℕ) : List Call :=
  .scalar_advection_update dt first_scalar last_scalar ::
    (if (List.range' first_scalar (last_scalar + 1 - first_scalar)).any cfg.is_diffusive
      then [.scalar_diffusion_update dt first_scalar last_scalar] else [])

/-- The calls of a returning `advance` from the second scalar updates on. -/
def advanceCallsEnd (cfg : Config) (time dt : ℚ) (iteration ncycle : ℤ) : List Call :=
  (if cfg.do_scalar_update_in_order then
      (List.range (cfg.NUM_SCALARS - 1)).flatMap (fun iComp =>
        updateCalls cfg dt (cfg.Density + cfg.scalarUpdateOrder iComp)
          (cfg.Density + cfg.scalarUpdateOrder iComp))
    else updateCalls cfg dt (cfg.Density + 1) (cfg.Density + cfg.NUM_SCALARS - 1)) ++
  (if cfg.have_divu then
      .calc_divu (time + dt) dt ::
        (if cfg.have_dsdt then
            .calc_dsdt time dt :: (if cfg.initial_step then [.copy_dsdt] else [])
          else [])
    else []) ++
  [.velocity_update dt] ++
  (if !cfg.initial_step then
      (if 0 < cfg.level then
          [.incrRhoAvg ((if iteration = ncycle then 1 / 2 else 1) / (ncycle : ℚ))]
        else []) ++
      (if cfg.projector then [.level_projector dt time iteration] else []) ++
      (if 0 < cfg.level ∧ iteration = 1 then [.p_avg_setVal] else [])
    else []) ++
  [.advance_cleanup iteration ncycle]

/-- The calls of a returning `advance` up to the update of the density. -/
def advanceCallsStart (cfg : Config) (time dt : ℚ) (iteration ncycle : ℤ) : List Call :=
  [.advance_setup time dt iteration ncycle, .ExtrapVelToFaces dt] ++
  (if cfg.do_mac_proj then [.create_mac_rhs time dt, .mac_project time dt] else []) ++
  (if cfg.do_mom_diff = 0 then [.velocity_advection dt] else []) ++
  (.AdvectScalars dt cfg.Density (cfg.Density + cfg.NUM_SCALARS - 1 + 1 - cfg.Density) ::
    fluxCalls cfg dt cfg.Density (cfg.Density + cfg.NUM_SCALARS - 1 + 1 - cfg.Density)) ++
  updateCalls cfg dt cfg.Density cfg.Density

/-- The calls of a returning `advance`, in order. -/
def advanceCalls (cfg : Config) (time dt : ℚ) (iteration ncycle : ℤ) : List Call :=
  advanceCallsStart cfg time dt iteration ncycle ++
  [.make_rho_curr_time] ++
  (if cfg.do_mom_diff = 1 then [.velocity_advection dt] else []) ++
  advanceCallsEnd cfg time dt iteration ncycle

/-- The stage of `advance` a call belongs to: `0` set-up and prediction,
`1` MAC projection, `2` velocity advection, `3` scalar advection and its flux
registers, `4` scalar updates, `5` `make_rho_curr_time`, `6` divergence
terms, `7` velocity update, `8` rho average, level projection and pressure
average, `9` clean-up. -/
def Call.stage : Call → ℕ
  | .advance_setup _ _ _ _ => 0
  | .ExtrapVelToFaces _ => 0
  | .create_mac_rhs _ _ => 1
  | .mac_project _ _ => 1
  | .velocity_advection _ => 2
  | .AdvectScalars _ _ _ => 3
  | .advflux_FineAdd _ _ _ _ _ => 3
  | .advflux_CrseInit _ _ _ _ _ _ => 3
  | .scalar_advection_update _ _ _ => 4
  | .scalar_diffusion_update _ _ _ => 4
  | .make_rho_curr_time => 5
  | .calc_divu _ _ => 6
  | .calc_dsdt _ _ => 6
  | .copy_dsdt => 6
  | .velocity_update _ => 7
  | .incrRhoAvg _ => 8
  | .level_projector _ _ _ => 8
  | .p_avg_setVal => 8
  | .advance_cleanup _ _ => 9

/-- Whether a call belongs to the MAC projection. -/
def Call.isMacProjection : Call → Bool
  | .create_mac_rhs _ _ => true
  | .mac_project _ _ => true
  | _ => false

/-- Whether a call belongs to `scalar_advection`. -/
def Call.isScalarAdvection : Call → Bool
  | .AdvectScalars _ _ _ => true
  | .advflux_FineAdd _ _ _ _ _ => true
  | .advflux_CrseInit _ _ _ _ _ _ => true
  | _ => false

/-- Whether a call is the level projection. -/
def Call.isLevelProjector : Call → Bool
  | .level_projector _ _ _ => true
  | _ => false

/-- Whether a call is `incrRhoAvg`. -/
def Call.isIncrRhoAvg : Call → Bool
  | .incrRhoAvg _ => true
  | _ => false

/-- Whether a call is the reset `p_avg.setVal(0)`. -/
def Call.isPAvgReset : Call → Bool
  | .p_avg_setVal => true
  | _ => false

/-! ## Scalar diffusion update -/

/-- The calls `scalar_diffusion_update` makes on a state `σ`.  The fluxes
`fluxSCn`, `fluxSCnp1` that `diffuse_scalar` fills are part of the state, and
the flux-register calls read their sum in direction `d` from it.
`getDiffusivity newTime sigma dst ncomp` is the call at the current time of
the state for `newTime = true` and at its previous time otherwise;
`diffuse_scalar dt sigma rho_flag hasDiffn` has the edge diffusivities set
when `hasDiffn` holds and null otherwise. -/
structure DiffusionOps (σ : Type) where
  getDiffusivity : Bool → ℕ → ℕ → ℕ → σ → σ
  diffuse_scalar_setup : ℕ → ℤ → σ → σ
  diffuse_scalar : ℚ → ℕ → ℤ → Bool → σ → σ
  viscflux_FineAdd : ℕ → ℕ → ℕ → ℕ → ℚ → σ → σ
  viscflux_CrseInit : ℕ → ℕ → ℕ → ℕ → ℕ → ℚ → σ → σ

/-- The increment of the viscous flux registers for the scalar `sigma` in
`scalar_diffusion_update`. -/
def scalar_diffusion_fluxes {σ : Type} (ops : DiffusionOps σ) (cfg : Config) (dt : ℚ)
    (sigma : ℕ) (s : σ) : σ :=
  if cfg.do_reflux then
    (List.range cfg.BL_SPACEDIM).foldl
      (fun s d =>
        let s := if 0 < cfg.level then ops.viscflux_FineAdd d 0 sigma 1 dt s else s
        if cfg.level < cfg.finestLevel then
          ops.viscflux_CrseInit (cfg.level + 1) d 0 sigma 1 (-dt) s
        else s) s
  else s

/-- The body of the loop over `sigma` in `scalar_diffusion_update`. -/
def scalar_diffusion_step {σ : Type} (ops : DiffusionOps σ) (cfg : Config)
    (variable_scal_diff : Bool) (dt : ℚ) (s : σ) (sigma : ℕ) : σ :=
  if cfg.is_diffusive sigma then
    let rho_flag : ℤ := 0
    let s := if variable_scal_diff then
        ops.getDiffusivity true sigma 0 1 (ops.getDiffusivity false sigma 0 1 s)
      else s
    let s := ops.diffuse_scalar_setup sigma rho_flag s
    let s := ops.diffuse_scalar dt sigma rho_flag variable_scal_diff s
    scalar_diffusion_fluxes ops cfg dt sigma s
  else s

/-- The function `NavierStokes::scalar_diffusion_update`. -/
def scalar_diffusion_update {σ : Type} (ops : DiffusionOps σ) (cfg : Config)
    (variable_scal_diff : Bool) (dt : ℚ) (first_scalar last_scalar : ℕ) (s : σ) : σ :=
  (List.range' first_scalar (last_scalar + 1 - first_scalar)).foldl
    (scalar_diffusion_step ops cfg variable_scal_diff dt) s

/-- The calls of `scalar_diffusion_update` with their arguments. -/
inductive DiffusionCall
  | getDiffusivity (newTime : Bool) (sigma dst ncomp : ℕ)
  | diffuse_scalar_setup (sigma : ℕ) (rho_flag : ℤ)
  | diffuse_scalar (dt : ℚ) (sigma : ℕ) (rho_flag : ℤ) (hasDiffn : Bool)
  | viscflux_FineAdd (dir srccomp destcomp numcomp : ℕ) (mult : ℚ)
  | viscflux_CrseInit (lev dir srccomp destcomp numcomp : ℕ) (mult : ℚ)
  deriving DecidableEq, Repr

/-- The operations that record each call of `scalar_diffusion_update`. -/
def traceDiffusionOps : DiffusionOps (List DiffusionCall) where
  getDiffusivity := fun t sigma dst n s => s ++ [.getDiffusivity t sigma dst n]
  diffuse_scalar_setup := fun sigma f s => s ++ [.diffuse_scalar_setup sigma f]
  diffuse_scalar := fun dt sigma f v s => s ++ [.diffuse_scalar dt sigma f v]
  viscflux_FineAdd := fun d sc dc n m s => s ++ [.viscflux_FineAdd d sc dc n m]
  viscflux_CrseInit := fun l d sc dc n m s => s ++ [.viscflux_CrseInit l d sc dc n m]

/-- Whether a call is `FineAdd` or `CrseInit` on a viscous flux register. -/
def DiffusionCall.isFluxRegister : DiffusionCall → Bool
  | .viscflux_FineAdd _ _ _ _ _ => true
  | .viscflux_CrseInit _ _ _ _ _ _ => true
  | _ => false

/-! ## The advective operator -/

/-- The index of the high face of the cell `c` in direction `d`; the low face
has the index `c` itself. -/
def hiEdge (c : IntVect) (d : ℕ) : IntVect :=
  c.set d (c.getD d 0 + 1)

/-- Modelled from the spec: the face flux that `Godunov::ComputeAofs` sums,
whose body is not in `Godunov.H` (only the declaration is): edge velocity
times edge state times area, on the face `f` of direction `d`. -/
def faceFlux (area uedge edge_state : ℕ → IntVect → ℚ) (d : ℕ) (f : IntVect) : ℚ :=
  uedge d f * edge_state d f * area d f

/-- Modelled from the spec: `Godunov::ComputeAofs`, of which `Godunov.H` has
the declaration only, at the cell `c` of a patch with `D` directions.  With
`iconserv = 1` (the form `div(u*phi)`) `Aofs` is the sum of the face fluxes
over the faces of the cell, out through the high face and in through the low
face of every direction, divided by the cell volume; otherwise (the form
`u*grad(phi)`) it is the sum over the directions of `u_d * d(phi)/d(x_d)`,
taken from the edge states without area weighting, `u_d` being the mean of the
edge velocities on the two faces and `dx d` the cell width. -/
def ComputeAofs (D : ℕ) (dx : ℕ → ℚ) (area uedge edge_state : ℕ → IntVect → ℚ)
    (vol : IntVect → ℚ) (iconserv : ℤ) (c : IntVect) : ℚ :=
  if iconserv = 1 then
    ((List.range D).map (fun d =>
      faceFlux area uedge edge_state d (hiEdge c d) - faceFlux area uedge edge_state d c)).sum
      / vol c
  else
    ((List.range D).map (fun d =>
      (uedge d c + uedge d (hiEdge c d)) / 2 *
        ((edge_state d (hiEdge c d) - edge_state d c) / dx d))).sum

/-! ## Fine contributions to the sync register -/

/-- The loop over `j` of `FineAdd`: in every direction `j` that is not
periodic, `cbndfab` is doubled on the part of `bndbox` on the low face of the
node domain and on the part on its high face. -/
def doubleDomainFaces (D : ℕ) (crse_geom : Geometry) (crse_node_domain bndbox : Box)
    (cbndfab : IntVect → ℚ) : IntVect → ℚ :=
  (List.range D).foldl
    (fun fab j =>
      if !crse_geom.isPeriodic j then
        let domlo := (crse_node_domain.setRange j (crse_node_domain.lo.getD j 0)).inter bndbox
        let fab : IntVect → ℚ :=
          if domlo.ok then (fun c => if domlo.contains c then fab c * 2 else fab c) else fab
        let domhi := (crse_node_domain.setRange j (crse_node_domain.hi.getD j 0)).inter bndbox
        if domhi.ok then (fun c => if domhi.contains c then fab c * 2 else fab c) else fab
      else fab)
    cbndfab

/-- One turn of the loop over `side` of `FineAdd` for the direction `dir` and
the grid `i`, on `bndbox` and `Sync_resid_crse`: the fine residual is
coarsened onto the face, doubled at the domain boundary and added to the
coarse fab. -/
def fineAddSide (ops : SyncRegOps) (D : ℕ) (ratio : IntVect) (crse_geom : Geometry)
    (fine : MultiFab) (dir i : ℕ) (acc : Box × MultiFab) (side : ℕ) : Box × MultiFab :=
  let crse := acc.2
  let crsebox := crse.fabbox i
  let bndbox :=
    if side = 0 then acc.1.setRange dir (crsebox.lo.getD dir 0)
    else acc.1.setRange dir (crsebox.hi.getD dir 0)
  let cbndfab := ops.srcrsereg (fine.fabbox i) (fun c => fine.data i c 0) bndbox dir ratio
  let cbndfab := doubleDomainFaces D crse_geom crse_geom.Domain.surroundingNodes bndbox cbndfab
  (bndbox, { crse with data := (fun k c n =>
      if k = i ∧ n = 0 ∧ crsebox.contains c = true ∧ bndbox.contains c = true
      then crse.data k c n + cbndfab c else crse.data k c n) })

/-- The multifab `Sync_resid_crse` that `FineAdd` builds on the coarsened box
array `cba` from the scaled fine residual. -/
def FineAdd_crse (ops : SyncRegOps) (D : ℕ) (ratio : IntVect) (crse_geom : Geometry)
    (fine : MultiFab) (cba : List Box) : MultiFab :=
  (List.range D).foldl
    (fun crse dir =>
      (List.range fine.grids.length).foldl
        (fun crse i =>
          ([0, 1].foldl (fineAddSide ops D ratio crse_geom fine dir i) (crse.fabbox i, crse)).2)
        crse)
    ⟨cba, 0, fun _ _ _ => 0⟩

/-- The function `SyncRegister::FineAdd`: the register and `Sync_resid_fine`
afterwards; `cba` is the box array of `Sync_resid_fine` coarsened by the ratio
of the register. -/
def FineAdd (ops : SyncRegOps) (D : ℕ) (reg : SyncRegister) (Sync_resid_fine : MultiFab)
    (cba : List Box) (crse_geom : Geometry) (mult : ℚ) : SyncRegister × MultiFab :=
  let fine : MultiFab := { Sync_resid_fine with data := (fun i c n =>
    if Sync_resid_fine.inValid i c then Sync_resid_fine.data i c n * mult
    else Sync_resid_fine.data i c n) }
  let crse := FineAdd_crse ops D reg.ratio crse_geom fine cba
  ({ reg with bndry := (fun face =>
      { reg.bndry face with data := ops.plusFrom (reg.bndry face) crse crse_geom }) }, fine)

/-- The library enumeration `TimeLevel`. -/
inductive TimeLevel
  | AmrOldTime
  | AmrHalfTime
  | AmrNewTime
  | Amr1QtrTime
  | Amr3QtrTime
  | AmrOtherTime
  deriving DecidableEq, Repr

/-- How a call of `calcDiffusivity` ends when it does not return: in `Abort`,
or at a time that is neither the old nor the new one, where `BL_ASSERT` fails
and `diff_cc` is null. -/
inductive DiffusivityError
  | abort
  | badTime
  deriving DecidableEq, Repr

/-- The cell-centred diffusivities of a level at the old and at the new time. -/
structure DiffusivityArrays where
  diffn_cc : MultiFab
  diffnp1_cc : MultiFab

/-- The call `mf.setVal(val,comp,1,mf.nGrow())`. -/
def MultiFab.setValComp (mf : MultiFab) (val : ℚ) (comp : ℕ) : MultiFab :=
  { mf with data := fun i c n =>
      if mf.inGrown mf.nGrow i c && decide (n = comp) then val else mf.data i c n }

/-- The array `diff_cc` that `calcDiffusivity` selects; `none` is the null
pointer it starts from. -/
def select_diff_cc (whichTime : TimeLevel) (st : DiffusivityArrays) : Option MultiFab :=
  if whichTime = .AmrOldTime then some st.diffn_cc
  else if whichTime = .AmrNewTime then some st.diffnp1_cc
  else none

/-- The body of the loop over `comp` of `calcDiffusivity`. -/
def calcDiffusivityStep (cfg : Config) (visc_coef : ℕ → ℚ) (diff_cc : MultiFab) (comp : ℕ) :
    Except DiffusivityError MultiFab :=
  let diff_comp := comp - cfg.Density - 1
  if cfg.is_diffusive comp then
    if visc_coef comp ≥ 0 then .ok (diff_cc.setValComp (visc_coef comp) diff_comp)
    else .error .abort
  else .ok diff_cc

/-- The function `NavierStokes::calcDiffusivity`; `whichTime` is
`which_time(State_Type,time)`. -/
def calcDiffusivity (cfg : Config) (visc_coef : ℕ → ℚ) (whichTime : TimeLevel)
    (st : DiffusivityArrays) : Except DiffusivityError DiffusivityArrays :=
  let src_comp := cfg.Density + 1
  let ncomp := cfg.NUM_STATE - cfg.BL_SPACEDIM - 1
  match select_diff_cc whichTime st with
  | none => .error .badTime
  | some diff_cc =>
    match (List.range' src_comp ncomp).foldlM (calcDiffusivityStep cfg visc_coef) diff_cc with
    | .error e => .error e
    | .ok diff_cc =>
      .ok (if whichTime = .AmrOldTime then { st with diffn_cc := diff_cc }
        else { st with diffnp1_cc := diff_cc })

/-- Diffusivity arrays on the grid `[0,3] x [0,3]` that hold `7` and `9`. -/
def sampleDiffusivity : DiffusivityArrays := ⟨constMF 7, constMF 9⟩

/-- Diffusion coefficients that are `1/2` for every state component. -/
def sampleViscCoef : ℕ → ℚ := fun _ => 1 / 2

/-! ## Coarse contributions to the sync register -/

/-- The call `mf.mult(val)`: every component of every valid cell is multiplied
by `val`. -/
def MultiFab.multValid (mf : MultiFab) (val : ℚ) : MultiFab :=
  { mf with data := fun i c n => if mf.inValid i c then mf.data i c n * val else mf.data i c n }

/-- The call `setVal(0)` on a sync register: every boundary register is set to
zero. -/
def SyncRegister.setValZero (reg : SyncRegister) : SyncRegister :=
  { reg with bndry := fun face => { reg.bndry face with data := fun _ _ => 0 } }

/-- The function `SyncRegister::CrseInit`: the register and `Sync_resid_crse`
afterwards. -/
def CrseInit (ops : SyncRegOps) (reg : SyncRegister) (Sync_resid_crse : MultiFab)
    (crse_geom : Geometry) (mult : ℚ) : SyncRegister × MultiFab :=
  let reg := reg.setValZero
  let resid := Sync_resid_crse.multValid mult
  ({ reg with bndry := (fun face =>
      { reg.bndry face with data := ops.plusFrom (reg.bndry face) resid crse_geom }) }, resid)

/-- Library calls for a sample register whose `plusFrom` adds, at an index,
the value of every valid cell of the source there. -/
def accumRegOps : SyncRegOps :=
  { sampleRegOps with
    plusFrom := fun fs src _ k c => fs.data k c +
      ((List.range src.grids.length).map
        (fun i => if src.inValid i c then src.data i c 0 else 0)).sum }

/-! ## Fine contributions with covered nodes left out -/

/-- The loop of `CompAdd` over the boxes of `Pgrids` that meet `sync_box`, the
valid box of the fab `k`: the fab is set to zero on the intersection with the
box and on the intersection with every periodic shift of it. -/
def compAddGrid (ops : SyncRegOps) (fine_geom : Geometry) (Pgrids : List Box)
    (data : FabData) (k : ℕ) (sync_box : Box) : FabData :=
  Pgrids.foldl
    (fun data pbx =>
      let isect := pbx.inter sync_box
      if isect.ok then
        (ops.periodicShift fine_geom sync_box pbx).foldl
          (fun data it => zeroOnBox data k ((pbx.shift it).inter sync_box))
          (zeroOnBox data k isect)
      else data)
    data

/-- The residual that `CompAdd` passes to `FineAdd`. -/
def CompAdd_mask (ops : SyncRegOps) (fine_geom : Geometry) (Pgrids : List Box)
    (Sync_resid_fine : MultiFab) : MultiFab :=
  { Sync_resid_fine with data := ((List.range Sync_resid_fine.grids.length).foldl
      (fun data k =>
        compAddGrid ops fine_geom Pgrids data k (Sync_resid_fine.grids.getD k ⟨[], []⟩))
      Sync_resid_fine.data) }

/-- The function `SyncRegister::CompAdd`: the register and `Sync_resid_fine`
afterwards; `cba` is the box array of `Sync_resid_fine` coarsened by the ratio
of the register. -/
def CompAdd (ops : SyncRegOps) (D : ℕ) (reg : SyncRegister) (Sync_resid_fine : MultiFab)
    (cba : List Box) (fine_geom crse_geom : Geometry) (Pgrids : List Box) (mult : ℚ) :
    SyncRegister × MultiFab :=
  FineAdd ops D reg (CompAdd_mask ops fine_geom Pgrids Sync_resid_fine) cba crse_geom mult

/-- Library calls for a domain that is `8` cells wide and periodic in the
first direction: `periodicShift` returns the shifts by one period that make
the source meet the target. -/
def periodicRegOps : SyncRegOps :=
  { sampleRegOps with
    periodicShift := fun _ target src =>
      [[-8, 0], [8, 0]].filter (fun s => ((src.shift s).inter target).ok) }

/-- The domain `[0,7] x [0,7]`, periodic in the first direction. -/
def periodicGeom : Geometry := ⟨⟨[0, 0], [7, 7]⟩, fun d => decide (d = 0)⟩

/-- A fine nodal residual on the grid `[0,0] x [2,2]` that holds `1`. -/
def sampleEdgeResid : MultiFab := ⟨[⟨[0, 0], [2, 2]⟩], 0, fun _ _ _ => 1⟩

/-- The weight `(iteration==ncycle ? 0.5 : 1.0) / Real(ncycle)` that `advance`
passes to `incrRhoAvg`. -/
def incrRhoAvgWeight (iteration ncycle : ℤ) : ℚ :=
  (if iteration = ncycle then 1 / 2 else 1) / (ncycle : ℚ)

/-- The scalars `first_scalar`, `last_scalar` of the call of `scalar_update`
that a `scalar_advection_update` call belongs to. -/
def Call.updateRange : Call → Option (ℕ × ℕ)
  | .scalar_advection_update _ first_scalar last_scalar => some (first_scalar, last_scalar)
  | _ => none

/-- The state components `first_scalar, ..., last_scalar`. -/
def scalarsOf (p : ℕ × ℕ) : List ℕ :=
  List.range' p.1 (p.2 + 1 - p.1)

/-! ## The maximum of a derived quantity -/

/-- Modelled from the spec: the Fortran kernel `fort_maxval`, whose code and
declaration are not among the sources: the maximum of the field `dat` over the
cells of the box `bx`.  On a box without cells the value is `0`, which
`MaxVal` does not tell from any other value not above `0`. -/
def fort_maxval (dat : IntVect → ℚ) (bx : Box) : ℚ :=
  match bx.cells with
  | [] => 0
  | c :: cs => cs.foldl (fun m x => max m (dat x)) (dat c)

/-- The fab of grid `i` in `MaxVal` after the cells of the grid under the
coarsened boxes `baf` of the next finer level are set to zero. -/
def maxValFab (cfg : Config) (mf : MultiFab) (baf : List Box) (i : ℕ) : IntVect → ℚ :=
  fun c =>
    if cfg.level < cfg.finestLevel ∧ (cfg.grids.getD i ⟨[], []⟩).contains c = true ∧
        coveredBy baf c = true
    then 0 else mf.data i c 0

/-- The function `NavierStokes::MaxVal`; `mf` is `derive(name,time,0)` and
`fine_boxes` the box array of the next finer level. -/
def MaxVal (cfg : Config) (mf : MultiFab) (fine_boxes : List Box) (fine_ratio : IntVect) : ℚ :=
  let baf := if cfg.level < cfg.finestLevel
    then fine_boxes.map (fun b => b.coarsen fine_ratio) else []
  (List.range mf.grids.length).foldl
    (fun mxval i =>
      max mxval (fort_maxval (maxValFab cfg mf baf i) (cfg.grids.getD i ⟨[], []⟩)))
    0

/-- Sync operations like `sampleSyncOps` whose interpolation returns `3 + n`
in the component `n` of the increment. -/
def interpSyncOps : SyncOps Unit :=
  { sampleSyncOps with
    SyncInterp := fun _ _ _ _ _ _ _ _ _ _ _ _ _ n => 3 + (n : ℚ) }

/-! # Properties -/

/-! ## Folds of maxima -/

theorem foldl_ge_init {α : Type} (g : ℚ → α → ℚ) (hg : ∀ m a, m ≤ g m a)
    (l : List α) (m : ℚ) : m ≤ l.foldl g m := by
  induction l generalizing m with
  | nil => exact le_refl m
  | cons a l ih => exact le_trans (hg m a) (ih (g m a))

theorem foldl_max_ge_mem {α : Type} (f : α → ℚ) (l : List α) (m : ℚ) (c : α)
    (hc : c ∈ l) : f c ≤ l.foldl (fun m c => max m (f c)) m := by
  induction l generalizing m with
  | nil => cases hc
  | cons a l ih =>
    rcases List.mem_cons.mp hc with h | h
    · subst h
      exact le_trans (le_max_right m (f c))
        (foldl_ge_init _ (fun m a => le_max_left m (f a)) l _)
    · exact ih _ h

theorem foldl_max_attained {α : Type} (f : α → ℚ) (l : List α) (m : ℚ) :
    l.foldl (fun m c => max m (f c)) m = m ∨
      ∃ c, c ∈ l ∧ l.foldl (fun m c => max m (f c)) m = f c := by
  induction l generalizing m with
  | nil => exact Or.inl rfl
  | cons a l ih =>
    rcases ih (max m (f a)) with h | ⟨c, hc, h⟩
    · rcases max_choice m (f a) with h2 | h2
      · left; simp only [List.foldl_cons]; rw [h, h2]
      · right; exact ⟨a, List.mem_cons_self a l, by simp only [List.foldl_cons]; rw [h, h2]⟩
    · right; exact ⟨c, List.mem_cons_of_mem a hc, h⟩

theorem VectorMaxAbs_nonneg (mf : MultiFab) (n : ℕ) : 0 ≤ VectorMaxAbs mf n :=
  foldl_ge_init _ (fun m _ => foldl_ge_init _ (fun m _ => le_max_left m _) _ m) _ 0

theorem gridCfl_isGridCfl (cfg : Config) (dt : ℚ) (umax : ℕ → ℚ)
    (hD : 0 < cfg.BL_SPACEDIM) : IsGridCfl cfg dt umax (gridCfl cfg dt umax) := by
  constructor
  · rcases foldl_max_attained (fun d => dt * umax d / cfg.dx d)
      (List.range' 1 (cfg.BL_SPACEDIM - 1)) (dt * umax 0 / cfg.dx 0) with h | ⟨d, hd, h⟩
    · exact ⟨0, hD, h⟩
    · refine ⟨d, ?_, h⟩
      have := List.mem_range'_1.mp hd
      omega
  · intro d hd
    rcases Nat.eq_zero_or_pos d with h0 | hpos
    · subst h0
      exact foldl_ge_init _ (fun m a => le_max_left m _) _ _
    · exact foldl_max_ge_mem (fun d => dt * umax d / cfg.dx d) _ _ d
        (List.mem_range'_1.mpr (by omega))

/-! ## The time-step estimate -/

theorem estimate_of_pos (dt cfl change_max m : ℚ) (hm : 0 < m) :
    XReal.scale dt (stdMin change_max (XReal.div cfl m)) =
      .fin (dt * min change_max (cfl / m)) := by
  have hne : m ≠ 0 := ne_of_gt hm
  by_cases h : cfl / m < change_max
  · simp [XReal.div, hne, stdMin, XReal.ltFin, h, XReal.scale, min_eq_right (le_of_lt h)]
  · simp [XReal.div, hne, stdMin, XReal.ltFin, h, XReal.scale, min_eq_left (not_lt.mp h)]

theorem estimate_bound (cfl change_max m v : ℚ) (hcfl : 0 ≤ cfl)
    (hm : 0 < m) (hv0 : 0 ≤ v) (hvm : v ≤ m) :
    min change_max (cfl / m) * v ≤ cfl := by
  have h1 : min change_max (cfl / m) * v ≤ cfl / m * v :=
    mul_le_mul_of_nonneg_right (min_le_right _ _) hv0
  have h2 : cfl / m * v ≤ cfl / m * m :=
    mul_le_mul_of_nonneg_left hvm (div_nonneg hcfl (le_of_lt hm))
  have h3 : cfl / m * m = cfl := div_mul_cancel₀ cfl (ne_of_gt hm)
  linarith

/-- C1 (amended): for `dt > 0`, `cfl ≥ 0`, any `change_max`, cell sizes
`dx d > 0` and a floored old-time velocity whose largest absolute value
`umax d` is positive in some direction, `predict_velocity` returns a finite
`dt_next` with `dt_next * umax d / dx d ≤ cfl` in every direction, and every
value `advance` returns is that `dt_next`. -/
theorem cfl_bounded_timestep {σ : Type} (ops : LevelOps σ) (cfg : Config)
    (time dt : ℚ) (iteration ncycle : ℤ) (s : σ)
    (hdt : 0 < dt) (hcfl : 0 ≤ cfg.cfl)
    (hdx : ∀ d, d < cfg.BL_SPACEDIM → 0 < cfg.dx d)
    (hpos : ∃ d, d < cfg.BL_SPACEDIM ∧
      0 < VectorMaxAbs (predict_velocity_Umf ops cfg
        (ops.advance_setup time dt iteration ncycle s)) d) :
    ∃ dt_next : ℚ,
      (predict_velocity ops cfg dt (ops.advance_setup time dt iteration ncycle s)).2
        = .fin dt_next ∧
      (∀ d, d < cfg.BL_SPACEDIM →
        dt_next * VectorMaxAbs (predict_velocity_Umf ops cfg
          (ops.advance_setup time dt iteration ncycle s)) d / cfg.dx d ≤ cfg.cfl) ∧
      ∀ s' r, advance ops cfg time dt iteration ncycle s = some (s', r) →
        r = .fin dt_next := by
  obtain ⟨d0, hd0, hu0⟩ := hpos
  set s0 := ops.advance_setup time dt iteration ncycle s with hs0
  set U := predict_velocity_Umf ops cfg s0 with hU
  have hD : 0 < cfg.BL_SPACEDIM := lt_of_le_of_lt (Nat.zero_le _) hd0
  have hG := gridCfl_isGridCfl cfg dt (fun d => VectorMaxAbs U d) hD
  have hv0 : ∀ d, d < cfg.BL_SPACEDIM → 0 ≤ dt * VectorMaxAbs U d / cfg.dx d := fun d hd =>
    div_nonneg (mul_nonneg (le_of_lt hdt) (VectorMaxAbs_nonneg U d)) (le_of_lt (hdx d hd))
  have hm : 0 < gridCfl cfg dt (fun d => VectorMaxAbs U d) :=
    lt_of_lt_of_le (div_pos (mul_pos hdt hu0) (hdx d0 hd0)) (hG.2 d0 hd0)
  have hval : (predict_velocity ops cfg dt s0).2 =
      .fin (dt * min cfg.change_max (cfg.cfl / gridCfl cfg dt (fun d => VectorMaxAbs U d))) := by
    simp only [predict_velocity]
    exact estimate_of_pos dt cfg.cfl cfg.change_max _ hm
  refine ⟨_, hval, ?_, ?_⟩
  · intro d hd
    have := estimate_bound cfg.cfl cfg.change_max _ _ hcfl hm (hv0 d hd) (hG.2 d hd)
    calc dt * min cfg.change_max (cfg.cfl / gridCfl cfg dt (fun d => VectorMaxAbs U d))
          * VectorMaxAbs U d / cfg.dx d
        = min cfg.change_max (cfg.cfl / gridCfl cfg dt (fun d => VectorMaxAbs U d))
          * (dt * VectorMaxAbs U d / cfg.dx d) := by ring
      _ ≤ cfg.cfl := this
  · intro s' r h
    simp only [advance, Option.bind_eq_some] at h
    obtain ⟨_, _, _, _, h⟩ := h
    have := congrArg Prod.snd (Option.some.inj h)
    simp only at this
    rw [← this, ← hval]

theorem mem_rangeZ (lo hi x : ℤ) : x ∈ rangeZ lo hi ↔ lo ≤ x ∧ x ≤ hi := by
  simp only [rangeZ, List.mem_map, List.mem_range]
  constructor
  · rintro ⟨k, hk, rfl⟩
    have h1 : (k : ℤ) < hi + 1 - lo := Int.lt_toNat.mp hk
    have h2 : (0 : ℤ) ≤ (k : ℤ) := Int.ofNat_nonneg k
    constructor <;> linarith
  · rintro ⟨h1, h2⟩
    refine ⟨(x - lo).toNat, ?_, ?_⟩
    · rw [Int.lt_toNat, Int.toNat_of_nonneg (by linarith)]
      linarith
    · rw [Int.toNat_of_nonneg (by linarith)]
      ring

theorem mem_cellsOf : ∀ (lo hi c : List ℤ), c ∈ cellsOf lo hi ↔ inRange lo hi c = true
  | [], [], [] => by simp [cellsOf, inRange]
  | [], [], _ :: _ => by simp [cellsOf, inRange]
  | [], _ :: _, c => by simp [cellsOf, inRange]
  | _ :: _, [], c => by simp [cellsOf, inRange]
  | l :: ls, h :: hs, [] => by simp [cellsOf, inRange]
  | l :: ls, h :: hs, c :: cs => by
    simp only [cellsOf, inRange, List.mem_flatMap, List.mem_map, mem_rangeZ,
      Bool.and_eq_true, decide_eq_true_eq, ← mem_cellsOf ls hs cs]
    constructor
    · rintro ⟨x, hx, t, ht, heq⟩
      obtain ⟨rfl, rfl⟩ := List.cons.inj heq
      exact ⟨hx, ht⟩
    · rintro ⟨hx, ht⟩
      exact ⟨c, hx, cs, ht, rfl⟩

theorem mem_cells_iff (b : Box) (c : IntVect) : c ∈ b.cells ↔ b.contains c = true :=
  mem_cellsOf b.lo b.hi c

theorem VectorMaxAbs_congr (mf mf' : MultiFab) (n : ℕ) (hg : mf'.grids = mf.grids)
    (hn : mf'.nGrow = mf.nGrow)
    (h : ∀ i c, mf.inGrown mf.nGrow i c = true → mf'.data i c n = mf.data i c n) :
    VectorMaxAbs mf' n = VectorMaxAbs mf n := by
  unfold VectorMaxAbs
  rw [hg]
  apply List.foldl_ext
  intro m i hi
  have hb : mf'.fabbox i = mf.fabbox i := by simp [MultiFab.fabbox, hg, hn]
  rw [hb]
  apply List.foldl_ext
  intro m c hc
  have hin : mf.inGrown mf.nGrow i c = true := by
    simp only [MultiFab.inGrown, Bool.and_eq_true, decide_eq_true_eq]
    exact ⟨List.mem_range.mp hi, (mem_cells_iff _ c).mp hc⟩
  rw [h i c hin]

theorem sample_cells (data : ℕ → IntVect → ℕ → ℚ) :
    (MultiFab.fabbox ⟨[unitBox], 1, data⟩ 0).cells =
      [[-1, -1], [-1, 0], [-1, 1], [0, -1], [0, 0], [0, 1], [1, -1], [1, 0], [1, 1]] := by
  rfl

theorem sample_umax (u v dy : ℚ) (n : ℕ) :
    VectorMaxAbs (predict_velocity_Ufill (sampleOps u v) (sampleCfg dy) ()) n
      = if n = 0 then |u| else |v| := by
  simp only [VectorMaxAbs, predict_velocity_Ufill, sampleCfg, sampleOps, List.length_singleton]
  rw [show List.range 1 = [0] from rfl]
  simp only [List.foldl_cons, List.foldl_nil, sample_cells]
  split_ifs <;> simp [abs_nonneg]

theorem sample_umax_floored (u v dy : ℚ) (n : ℕ) (hn : n < 2) :
    VectorMaxAbs (predict_velocity_Umf (sampleOps u v) (sampleCfg dy) ()) n
      = if n = 0 then |floorSmall u| else |floorSmall v| := by
  rw [← sample_umax (floorSmall u) (floorSmall v) dy n]
  refine VectorMaxAbs_congr
    (predict_velocity_Ufill (sampleOps (floorSmall u) (floorSmall v)) (sampleCfg dy) ())
    (predict_velocity_Umf (sampleOps u v) (sampleCfg dy) ()) n rfl rfl ?_
  intro i c hin
  have hin' : MultiFab.inGrown ⟨(sampleCfg dy).grids, (sampleCfg dy).hypgrow,
      (sampleOps u v).FillPatchIterator () (sampleCfg dy).hypgrow 0 (sampleCfg dy).BL_SPACEDIM⟩
      (sampleCfg dy).hypgrow i c = true := hin
  have h2 : n < (sampleCfg dy).BL_SPACEDIM := hn
  simp only [predict_velocity_Umf, floorStates, hin', predict_velocity_Ufill, h2,
    decide_True, Bool.and_self, if_true]
  simp only [sampleOps]
  split_ifs <;> rfl

theorem floorSmall_one : floorSmall 1 = 1 := by
  norm_num [floorSmall, floorThreshold]

theorem floorSmall_tiny : floorSmall (1 / 10 ^ 21) = 0 := by
  have h : |(1 / 10 ^ 21 : ℚ)| = 1 / 10 ^ 21 := abs_of_pos (by norm_num)
  rw [floorSmall, h]
  norm_num [floorThreshold]

theorem sample_gridCfl (u v dy dt : ℚ) :
    gridCfl (sampleCfg dy) dt
      (fun d => VectorMaxAbs (predict_velocity_Umf (sampleOps u v) (sampleCfg dy) ()) d)
      = max (dt * |floorSmall u| / 1) (dt * |floorSmall v| / dy) := by
  have h : List.range' 1 ((sampleCfg dy).BL_SPACEDIM - 1) = [1] := rfl
  simp only [gridCfl, h, List.foldl_cons, List.foldl_nil]
  rw [sample_umax_floored u v dy 0 (by norm_num), sample_umax_floored u v dy 1 (by norm_num)]
  simp [sampleCfg]

theorem sample_predict (dy : ℚ) :
    (predict_velocity (sampleOps 1 (1 / 10 ^ 21)) (sampleCfg dy) 1 ()).2 = .fin (1 / 2) := by
  simp only [predict_velocity]
  rw [sample_gridCfl, floorSmall_one, floorSmall_tiny]
  have hm : max ((1 : ℚ) * |1| / 1) (1 * |0| / dy) = 1 := by simp
  rw [hm, estimate_of_pos 1 _ _ 1 (by norm_num)]
  norm_num [sampleCfg]

/-- C1 (as stated, refuted): on a level with cell sizes `1` and `1e-22` and
an old-time velocity `(1, 1e-21)` in every cell, with `dt = 1`, `cfl = 1/2`
and `change_max = 11/10`, `predict_velocity` returns `1/2`, and in the second
direction `dt_next * umax / dx = 5` exceeds `cfl`. -/
theorem cfl_bound_fails_below_floor :
    (0 : ℚ) < 1 ∧ 0 ≤ (sampleCfg (1 / 10 ^ 22)).cfl ∧
    (∀ d, d < (sampleCfg (1 / 10 ^ 22)).BL_SPACEDIM → 0 < (sampleCfg (1 / 10 ^ 22)).dx d) ∧
    0 < VectorMaxAbs (predict_velocity_Ufill (sampleOps 1 (1 / 10 ^ 21))
      (sampleCfg (1 / 10 ^ 22)) ()) 1 ∧
    (predict_velocity (sampleOps 1 (1 / 10 ^ 21)) (sampleCfg (1 / 10 ^ 22)) 1 ()).2
      = .fin (1 / 2) ∧
    ¬ ((1 / 2 : ℚ) * VectorMaxAbs (predict_velocity_Ufill (sampleOps 1 (1 / 10 ^ 21))
        (sampleCfg (1 / 10 ^ 22)) ()) 1 / (sampleCfg (1 / 10 ^ 22)).dx 1
        ≤ (sampleCfg (1 / 10 ^ 22)).cfl) := by
  have habs : |(1 / 10 ^ 21 : ℚ)| = 1 / 10 ^ 21 := abs_of_pos (by norm_num)
  refine ⟨by norm_num, by norm_num [sampleCfg], ?_, ?_, sample_predict _, ?_⟩
  · intro d _
    simp only [sampleCfg]
    split_ifs <;> norm_num
  · rw [sample_umax, if_neg (by norm_num), habs]
    norm_num
  · rw [sample_umax, if_neg (by norm_num), habs]
    norm_num [sampleCfg]

/-- Witness of C1: the sample level with cell sizes `1`, `1` and old-time
velocity `(1, 1e-21)`. -/
theorem cfl_bounded_timestep_witness :
    ∃ dt_next : ℚ,
      (predict_velocity (sampleOps 1 (1 / 10 ^ 21)) (sampleCfg 1) 1
        ((sampleOps 1 (1 / 10 ^ 21)).advance_setup 0 1 1 1 ())).2 = .fin dt_next ∧
      (∀ d, d < (sampleCfg 1).BL_SPACEDIM →
        dt_next * VectorMaxAbs (predict_velocity_Umf (sampleOps 1 (1 / 10 ^ 21)) (sampleCfg 1)
          ((sampleOps 1 (1 / 10 ^ 21)).advance_setup 0 1 1 1 ())) d / (sampleCfg 1).dx d
          ≤ (sampleCfg 1).cfl) ∧
      ∀ s' r, advance (sampleOps 1 (1 / 10 ^ 21)) (sampleCfg 1) 0 1 1 1 () = some (s', r) →
        r = .fin dt_next :=
  cfl_bounded_timestep (sampleOps 1 (1 / 10 ^ 21)) (sampleCfg 1) 0 1 1 1 ()
    (by norm_num) (by norm_num [sampleCfg])
    (fun d _ => by simp only [sampleCfg]; split_ifs <;> norm_num)
    ⟨0, by norm_num [sampleCfg], by
      have h := sample_umax_floored 1 (1 / 10 ^ 21) 1 0 (by norm_num)
      have h' : VectorMaxAbs (predict_velocity_Umf (sampleOps 1 (1 / 10 ^ 21)) (sampleCfg 1)
          ((sampleOps 1 (1 / 10 ^ 21)).advance_setup 0 1 1 1 ())) 0 = 1 := by
        rw [show (sampleOps 1 (1 / 10 ^ 21)).advance_setup 0 1 1 1 () = () from rfl, h,
          floorSmall_one]
        simp
      rw [h']
      norm_num⟩

/-! ## The value `advance` returns -/

theorem advance_snd {σ : Type} (ops : LevelOps σ) (cfg : Config) (time dt : ℚ)
    (iteration ncycle : ℤ) (s s' : σ) (r : XReal)
    (h : advance ops cfg time dt iteration ncycle s = some (s', r)) :
    r = (predict_velocity ops cfg dt (ops.advance_setup time dt iteration ncycle s)).2 := by
  simp only [advance, Option.bind_eq_some] at h
  obtain ⟨_, _, _, _, h⟩ := h
  have := congrArg Prod.snd (Option.some.inj h)
  exact this.symm

theorem scalar_update_isSome {σ : Type} (ops : LevelOps σ) (cfg : Config)
    (hnan : ∀ t n, ops.contains_nan t n = false) (dt : ℚ) (a b : ℕ) (s : σ) :
    ∃ s', scalar_update ops cfg dt a b s = some s' := by
  simp [scalar_update, hnan]

theorem scalar_update_in_order_isSome {σ : Type} (ops : LevelOps σ) (cfg : Config)
    (hnan : ∀ t n, ops.contains_nan t n = false) (dt : ℚ) (a : ℕ) (l : List ℕ) (s : σ) :
    ∃ s', scalar_update_in_order ops cfg dt a l s = some s' := by
  induction l generalizing s with
  | nil => exact ⟨s, rfl⟩
  | cons i l ih =>
    obtain ⟨s1, h1⟩ := scalar_update_isSome ops cfg hnan dt
      (a + cfg.scalarUpdateOrder i) (a + cfg.scalarUpdateOrder i) s
    obtain ⟨s2, h2⟩ := ih s1
    exact ⟨s2, by simp [scalar_update_in_order, h1, h2]⟩

theorem advance_isSome {σ : Type} (ops : LevelOps σ) (cfg : Config) (time dt : ℚ)
    (iteration ncycle : ℤ) (s : σ) (hnan : ∀ t n, ops.contains_nan t n = false) :
    ∃ s', advance ops cfg time dt iteration ncycle s = some
      (s', (predict_velocity ops cfg dt (ops.advance_setup time dt iteration ncycle s)).2) := by
  have key : ∃ p, advance ops cfg time dt iteration ncycle s = some p := by
    simp only [advance]
    obtain ⟨s1, h1⟩ := scalar_update_isSome ops cfg hnan dt cfg.Density cfg.Density
      (scalar_advection ops cfg dt cfg.Density (cfg.Density + cfg.NUM_SCALARS - 1)
        (if cfg.do_mom_diff = 0 then ops.velocity_advection dt
            (if cfg.do_mac_proj = true then ops.mac_project time dt (ops.create_mac_rhs time dt
              (predict_velocity ops cfg dt (ops.advance_setup time dt iteration ncycle s)).1)
            else (predict_velocity ops cfg dt (ops.advance_setup time dt iteration ncycle s)).1)
          else (if cfg.do_mac_proj = true then ops.mac_project time dt (ops.create_mac_rhs time dt
              (predict_velocity ops cfg dt (ops.advance_setup time dt iteration ncycle s)).1)
            else (predict_velocity ops cfg dt (ops.advance_setup time dt iteration ncycle s)).1)))
    rw [h1]
    simp only [Option.some_bind]
    by_cases ho : cfg.do_scalar_update_in_order = true
    · obtain ⟨s2, h2⟩ := scalar_update_in_order_isSome ops cfg hnan dt cfg.Density
        (List.range (cfg.NUM_SCALARS - 1))
        (if cfg.do_mom_diff = 1 then ops.velocity_advection dt (ops.make_rho_curr_time s1)
          else ops.make_rho_curr_time s1)
      simp [ho, h2]
    · obtain ⟨s2, h2⟩ := scalar_update_isSome ops cfg hnan dt (cfg.Density + 1)
        (cfg.Density + cfg.NUM_SCALARS - 1)
        (if cfg.do_mom_diff = 1 then ops.velocity_advection dt (ops.make_rho_curr_time s1)
          else ops.make_rho_curr_time s1)
      simp [ho, h2]
  obtain ⟨⟨s', r⟩, hp⟩ := key
  exact ⟨s', by rw [hp, advance_snd ops cfg time dt iteration ncycle s s' r hp]⟩

theorem isGridCfl_unique (cfg : Config) (dt : ℚ) (umax : ℕ → ℚ) (m m' : ℚ)
    (h : IsGridCfl cfg dt umax m) (h' : IsGridCfl cfg dt umax m') : m = m' := by
  obtain ⟨⟨d, hd, hm⟩, hle⟩ := h
  obtain ⟨⟨d', hd', hm'⟩, hle'⟩ := h'
  apply le_antisymm
  · rw [hm]; exact hle' d hd
  · rw [hm']; exact hle d' hd'

/-- C2 (amended): `advance` returns exactly the estimate of
`predict_velocity`, `dt * min(change_max, cfl / cflmax)` with `cflmax` the
largest of `dt * umax d / dx d`, where `umax d` is the largest absolute value
of component `d` of the old-time velocity after the underflow floor; it
returns it whenever no new scalar contains a NaN, and the value is the same
for any other operations that share `advance_setup` and the fill of the
old-time data, whatever the projections and updates of the step do. -/
theorem advance_returns_estimate {σ : Type} (ops : LevelOps σ) (cfg : Config)
    (time dt : ℚ) (iteration ncycle : ℤ) (s : σ) (cflmax : ℚ)
    (hmax : IsGridCfl cfg dt (fun d => VectorMaxAbs (predict_velocity_Umf ops cfg
      (ops.advance_setup time dt iteration ncycle s)) d) cflmax) :
    (predict_velocity ops cfg dt (ops.advance_setup time dt iteration ncycle s)).2
      = XReal.scale dt (stdMin cfg.change_max (XReal.div cfg.cfl cflmax)) ∧
    (∀ ops' : LevelOps σ, ops'.advance_setup = ops.advance_setup →
      ops'.FillPatchIterator = ops.FillPatchIterator →
      (∀ s' r, advance ops' cfg time dt iteration ncycle s = some (s', r) →
        r = XReal.scale dt (stdMin cfg.change_max (XReal.div cfg.cfl cflmax))) ∧
      ((∀ t n, ops'.contains_nan t n = false) →
        ∃ s', advance ops' cfg time dt iteration ncycle s = some
          (s', XReal.scale dt (stdMin cfg.change_max (XReal.div cfg.cfl cflmax))))) := by
  have hD : 0 < cfg.BL_SPACEDIM := by
    obtain ⟨⟨d, hd, _⟩, _⟩ := hmax
    exact lt_of_le_of_lt (Nat.zero_le d) hd
  have hm := isGridCfl_unique cfg dt _ _ _ hmax (gridCfl_isGridCfl cfg dt _ hD)
  have hval : ∀ ops' : LevelOps σ, ops'.advance_setup = ops.advance_setup →
      ops'.FillPatchIterator = ops.FillPatchIterator →
      (predict_velocity ops' cfg dt (ops'.advance_setup time dt iteration ncycle s)).2
        = XReal.scale dt (stdMin cfg.change_max (XReal.div cfg.cfl cflmax)) := by
    intro ops' h1 h2
    simp only [predict_velocity, predict_velocity_Umf, h1, h2]
    rw [hm]
    rfl
  refine ⟨hval ops rfl rfl, fun ops' h1 h2 => ⟨?_, ?_⟩⟩
  · intro s' r h
    rw [advance_snd ops' cfg time dt iteration ncycle s s' r h]
    exact hval ops' h1 h2
  · intro hnan
    obtain ⟨s', h⟩ := advance_isSome ops' cfg time dt iteration ncycle s hnan
    exact ⟨s', by rw [h, hval ops' h1 h2]⟩

/-- C2 (as stated, refuted): on the sample level with cell sizes `1` and
`1e-22` and old-time velocity `(1, 1e-21)`, the largest of `dt * umax d / dx d`
over the old-time velocity is `10`, so the stated formula gives `1/20`, while
`advance` returns `1/2`. -/
theorem advance_estimate_uses_floored_velocity :
    IsGridCfl (sampleCfg (1 / 10 ^ 22)) 1
      (fun d => VectorMaxAbs (predict_velocity_Ufill (sampleOps 1 (1 / 10 ^ 21))
        (sampleCfg (1 / 10 ^ 22)) ((sampleOps 1 (1 / 10 ^ 21)).advance_setup 0 1 1 1 ())) d) 10 ∧
    advance (sampleOps 1 (1 / 10 ^ 21)) (sampleCfg (1 / 10 ^ 22)) 0 1 1 1 ()
      = some ((), .fin (1 / 2)) ∧
    XReal.scale 1 (stdMin (sampleCfg (1 / 10 ^ 22)).change_max
      (XReal.div (sampleCfg (1 / 10 ^ 22)).cfl 10)) = .fin (1 / 20) ∧
    XReal.fin (1 / 20) ≠ .fin (1 / 2) := by
  have habs : |(1 / 10 ^ 21 : ℚ)| = 1 / 10 ^ 21 := abs_of_pos (by norm_num)
  refine ⟨⟨⟨1, by norm_num [sampleCfg], ?_⟩, ?_⟩, ?_, ?_, ?_⟩
  · show (10 : ℚ) = 1 * VectorMaxAbs (predict_velocity_Ufill (sampleOps 1 (1 / 10 ^ 21))
      (sampleCfg (1 / 10 ^ 22)) ()) 1 / (sampleCfg (1 / 10 ^ 22)).dx 1
    rw [sample_umax, if_neg (by norm_num), habs]
    norm_num [sampleCfg]
  · intro d hd
    show 1 * VectorMaxAbs (predict_velocity_Ufill (sampleOps 1 (1 / 10 ^ 21))
      (sampleCfg (1 / 10 ^ 22)) ()) d / (sampleCfg (1 / 10 ^ 22)).dx d ≤ (10 : ℚ)
    rw [sample_umax]
    have hd2 : d < 2 := hd
    interval_cases d
    · norm_num [sampleCfg]
    · rw [if_neg (by norm_num), habs]
      norm_num [sampleCfg]
  · obtain ⟨s', h⟩ := advance_isSome (sampleOps 1 (1 / 10 ^ 21)) (sampleCfg (1 / 10 ^ 22))
      0 1 1 1 () (fun _ _ => rfl)
    rw [h]
    have hp := sample_predict (1 / 10 ^ 22)
    rw [show (sampleOps 1 (1 / 10 ^ 21)).advance_setup 0 1 1 1 () = () from rfl, hp]
  · rw [estimate_of_pos 1 _ _ 10 (by norm_num)]
    norm_num [sampleCfg]
  · intro h
    have := XReal.fin.inj h
    norm_num at this

/-- Witness of C2: the sample level with cell sizes `1`, `1`, old-time velocity
`(1, 1e-21)` and `cflmax = 1`. -/
theorem advance_returns_estimate_witness :
    (predict_velocity (sampleOps 1 (1 / 10 ^ 21)) (sampleCfg 1) 1
      ((sampleOps 1 (1 / 10 ^ 21)).advance_setup 0 1 1 1 ())).2
      = XReal.scale 1 (stdMin (sampleCfg 1).change_max (XReal.div (sampleCfg 1).cfl 1)) ∧
    (∀ ops' : LevelOps Unit, ops'.advance_setup = (sampleOps 1 (1 / 10 ^ 21)).advance_setup →
      ops'.FillPatchIterator = (sampleOps 1 (1 / 10 ^ 21)).FillPatchIterator →
      (∀ s' r, advance ops' (sampleCfg 1) 0 1 1 1 () = some (s', r) →
        r = XReal.scale 1 (stdMin (sampleCfg 1).change_max (XReal.div (sampleCfg 1).cfl 1))) ∧
      ((∀ t n, ops'.contains_nan t n = false) →
        ∃ s', advance ops' (sampleCfg 1) 0 1 1 1 () = some
          (s', XReal.scale 1 (stdMin (sampleCfg 1).change_max
            (XReal.div (sampleCfg 1).cfl 1))))) :=
  advance_returns_estimate (sampleOps 1 (1 / 10 ^ 21)) (sampleCfg 1) 0 1 1 1 () 1 (by
    have h := gridCfl_isGridCfl (sampleCfg 1) 1
      (fun d => VectorMaxAbs (predict_velocity_Umf (sampleOps 1 (1 / 10 ^ 21)) (sampleCfg 1)
        ((sampleOps 1 (1 / 10 ^ 21)).advance_setup 0 1 1 1 ())) d) (by norm_num [sampleCfg])
    have hg := sample_gridCfl 1 (1 / 10 ^ 21) 1 1
    rw [floorSmall_one, floorSmall_tiny] at hg
    have hm : max ((1 : ℚ) * |1| / 1) (1 * |0| / 1) = 1 := by simp
    rw [hm] at hg
    rw [show (sampleOps 1 (1 / 10 ^ 21)).advance_setup 0 1 1 1 () = () from rfl] at h ⊢
    rw [hg] at h
    exact h)

/-! ## Reflux -/

theorem inRange_coarsen : ∀ (lo hi f ratio : List ℤ), (∀ r ∈ ratio, 0 < r) →
    inRange lo hi f = true →
    inRange (coarsenIV lo ratio) (coarsenIV hi ratio) (coarsenIV f ratio) = true
  | [], [], [], ratio, _, _ => by simp [coarsenIV, inRange]
  | [], [], _ :: _, _, _, h => by simp [inRange] at h
  | [], _ :: _, _, _, _, h => by simp [inRange] at h
  | _ :: _, [], _, _, _, h => by simp [inRange] at h
  | _ :: _, _ :: _, [], _, _, h => by simp [inRange] at h
  | l :: ls, h :: hs, c :: cs, [], _, _ => by simp [coarsenIV, inRange]
  | l :: ls, h :: hs, c :: cs, r :: rs, hr, hin => by
    simp only [inRange, Bool.and_eq_true, decide_eq_true_eq] at hin
    have hrpos : 0 < r := hr r (List.mem_cons_self r rs)
    have ih := inRange_coarsen ls hs cs rs
      (fun x hx => hr x (List.mem_cons_of_mem r hx)) hin.2
    simp only [coarsenIV, List.zipWith_cons_cons, inRange, Bool.and_eq_true,
      decide_eq_true_eq]
    rw [Int.fdiv_eq_ediv _ (le_of_lt hrpos), Int.fdiv_eq_ediv _ (le_of_lt hrpos),
      Int.fdiv_eq_ediv _ (le_of_lt hrpos)]
    exact ⟨⟨Int.ediv_le_ediv hrpos hin.1.1, Int.ediv_le_ediv hrpos hin.1.2⟩, ih⟩

theorem coveredBy_of_fine_cell (fine_boxes : List Box) (fine_ratio : IntVect)
    (hr : ∀ r ∈ fine_ratio, 0 < r) (fb : Box) (hfb : fb ∈ fine_boxes) (f : IntVect)
    (hf : fb.contains f = true) :
    coveredBy (fine_boxes.map (fun b => b.coarsen fine_ratio)) (coarsenIV f fine_ratio)
      = true := by
  simp only [coveredBy, List.any_map, List.any_eq_true, Function.comp]
  exact ⟨fb, hfb, inRange_coarsen fb.lo fb.hi f fine_ratio hr hf⟩

theorem foldl_divide_grids (Rh : MultiFab) (p : ℕ → Prop) [DecidablePred p] (g : ℕ → ℕ)
    (l : List ℕ) (V : MultiFab) :
    (l.foldl (fun S k => if p k then S.divide Rh 0 (g k) else S) V).grids = V.grids := by
  induction l generalizing V with
  | nil => rfl
  | cons a t ih =>
    simp only [List.foldl_cons]
    rw [ih]
    split_ifs <;> rfl

theorem foldl_divide_data (Rh : MultiFab) (p : ℕ → Prop) [DecidablePred p] (g : ℕ → ℕ)
    (l : List ℕ) (hl : l.Nodup) (hinj : ∀ a ∈ l, ∀ b ∈ l, g a = g b → a = b)
    (V : MultiFab) (i : ℕ) (c : IntVect) (n : ℕ) :
    (l.foldl (fun S k => if p k then S.divide Rh 0 (g k) else S) V).data i c n =
      if V.inValid i c = true ∧ ∃ k, k ∈ l ∧ p k ∧ g k = n
      then V.data i c n / Rh.data i c 0 else V.data i c n := by
  induction l generalizing V with
  | nil => simp
  | cons a t ih =>
    simp only [List.foldl_cons]
    have hnd := List.nodup_cons.mp hl
    rw [ih hnd.2 (fun x hx y hy => hinj x (List.mem_cons_of_mem a hx) y
      (List.mem_cons_of_mem a hy))]
    by_cases hpa : p a ∧ g a = n
    · have hnone : ¬ ∃ k, k ∈ t ∧ p k ∧ g k = n := by
        rintro ⟨k, hk, _, hgk⟩
        have : k = a := hinj k (List.mem_cons_of_mem a hk) a (List.mem_cons_self a t)
          (hgk.trans hpa.2.symm)
        exact hnd.1 (this ▸ hk)
      have hsome : ∃ k, k ∈ a :: t ∧ p k ∧ g k = n :=
        ⟨a, List.mem_cons_self a t, hpa.1, hpa.2⟩
      simp only [hnone, and_false, if_false, hsome, and_true, hpa.1, if_true]
      simp only [MultiFab.divide, hpa.2, decide_True, Bool.and_true]
    · have hiff : (∃ k, k ∈ a :: t ∧ p k ∧ g k = n) ↔ ∃ k, k ∈ t ∧ p k ∧ g k = n := by
        constructor
        · rintro ⟨k, hk, hpk, hgk⟩
          rcases List.mem_cons.mp hk with h | h
          · exact absurd ⟨h ▸ hpk, h ▸ hgk⟩ hpa
          · exact ⟨k, h, hpk, hgk⟩
        · rintro ⟨k, hk, hpk, hgk⟩
          exact ⟨k, List.mem_cons_of_mem a hk, hpk, hgk⟩
      have hdata : (if p a then V.divide Rh 0 (g a) else V).data i c n = V.data i c n := by
        by_cases h1 : p a
        · have h2 : ¬ n = g a := fun h => hpa ⟨h1, h.symm⟩
          simp [h1, MultiFab.divide, h2]
        · simp [h1]
      have hval : (if p a then V.divide Rh 0 (g a) else V).inValid i c = V.inValid i c := by
        by_cases h1 : p a
        · simp [h1, MultiFab.divide, MultiFab.inValid, MultiFab.inGrown]
        · simp [h1]
      rw [hdata, hval]
      simp only [hiff]

theorem inValid_of_grids (mf mf' : MultiFab) (h : mf.grids = mf'.grids) (i : ℕ)
    (c : IntVect) : mf.inValid i c = mf'.inValid i c := by
  simp [MultiFab.inValid, MultiFab.inGrown, h]

theorem reflux_Vsync_grids (cfg : Config) (incr : FluxRegister → ℚ → ℕ → IntVect → ℕ → ℚ)
    (Rh : MultiFab) (st : SyncFields) (scale : ℚ) :
    (st.fr_adv.Reflux incr
      (if cfg.do_mom_diff = 0 then
        (List.range cfg.BL_SPACEDIM).foldl (fun V d => V.divide Rh 0 d)
          (st.fr_visc.Reflux incr st.Vsync scale 0 0 cfg.BL_SPACEDIM)
      else st.fr_visc.Reflux incr st.Vsync scale 0 0 cfg.BL_SPACEDIM)
      scale 0 0 cfg.BL_SPACEDIM).grids = st.Vsync.grids := by
  have h := foldl_divide_grids Rh (fun _ => True) (fun d => d) (List.range cfg.BL_SPACEDIM)
    (st.fr_visc.Reflux incr st.Vsync scale 0 0 cfg.BL_SPACEDIM)
  simp only [if_true] at h
  by_cases hmd : cfg.do_mom_diff = 0
  · simp only [hmd, if_true, FluxRegister.Reflux] at h ⊢
    exact h
  · simp only [hmd, if_false, FluxRegister.Reflux]

/-- C3: after `reflux` at a level that has a finer level, at every valid cell
`c` of the level for which some cell `f` of a box of the finer level has
`floor(f / fine_ratio) = c`, every component `0..BL_SPACEDIM-1` of `Vsync` and
every component `0..NUM_STATE-BL_SPACEDIM-1` of `Ssync` is exactly `0`. -/
theorem reflux_zeroes_covered_cells (cfg : Config)
    (incr : FluxRegister → ℚ → ℕ → IntVect → ℕ → ℚ) (dt_crse : ℚ) (Rh : MultiFab)
    (fine_boxes : List Box) (fine_ratio : IntVect) (st : SyncFields)
    (hlev : cfg.level < cfg.finestLevel) (hr : ∀ r ∈ fine_ratio, 0 < r)
    (i : ℕ) (c : IntVect) (hval : st.Vsync.inValid i c = true)
    (fb : Box) (hfb : fb ∈ fine_boxes) (f : IntVect) (hf : fb.contains f = true)
    (hc : coarsenIV f fine_ratio = c) :
    (∀ n, n < cfg.BL_SPACEDIM →
      (reflux cfg incr dt_crse Rh fine_boxes fine_ratio st).Vsync.data i c n = 0) ∧
    (∀ n, n < cfg.NUM_STATE - cfg.BL_SPACEDIM →
      (reflux cfg incr dt_crse Rh fine_boxes fine_ratio st).Ssync.data i c n = 0) := by
  have hcov := coveredBy_of_fine_cell fine_boxes fine_ratio hr fb hfb f hf
  rw [hc] at hcov
  have hne : ¬ cfg.level = cfg.finestLevel := ne_of_lt hlev
  have hv := inValid_of_grids _ _ (reflux_Vsync_grids cfg incr Rh st (1 / dt_crse)) i c
  rw [hval] at hv
  constructor
  · intro n hn
    simp only [reflux, hne, if_false, zeroCovered, hv, hcov, hn, decide_True, Bool.and_self,
      if_true]
  · intro n hn
    simp only [reflux, hne, if_false, zeroCovered, hv, hcov, hn, decide_True, Bool.and_self,
      if_true]

theorem foldl_divide_range_data (Rh V : MultiFab) (D i : ℕ) (c : IntVect) (n : ℕ) :
    ((List.range D).foldl (fun V d => V.divide Rh 0 d) V).data i c n =
      if V.inValid i c = true ∧ n < D then V.data i c n / Rh.data i c 0
      else V.data i c n := by
  have h := foldl_divide_data Rh (fun _ => True) (fun d => d) (List.range D)
    (List.nodup_range D) (fun a _ b _ hab => hab) V i c n
  simp only [if_true, true_and, exists_eq_right, List.mem_range] at h
  exact h

theorem foldl_divide_scalars_data (cfg : Config) (Rh S : MultiFab) (i : ℕ) (c : IntVect)
    (n : ℕ) (hn : n < cfg.NUM_STATE - cfg.BL_SPACEDIM) :
    ((List.range' cfg.BL_SPACEDIM (cfg.NUM_STATE - cfg.BL_SPACEDIM)).foldl
      (fun S istate =>
        if cfg.advectionType istate = .NonConservative
        then S.divide Rh 0 (istate - cfg.BL_SPACEDIM) else S) S).data i c n =
      if S.inValid i c = true ∧ cfg.advectionType (cfg.BL_SPACEDIM + n) = .NonConservative
      then S.data i c n / Rh.data i c 0 else S.data i c n := by
  have h := foldl_divide_data Rh (fun k => cfg.advectionType k = .NonConservative)
    (fun k => k - cfg.BL_SPACEDIM)
    (List.range' cfg.BL_SPACEDIM (cfg.NUM_STATE - cfg.BL_SPACEDIM))
    (List.nodup_range' _ _)
    (fun a ha b hb hab => by
      have h1 := List.mem_range'_1.mp ha
      have h2 := List.mem_range'_1.mp hb
      have h3 : a - cfg.BL_SPACEDIM = b - cfg.BL_SPACEDIM := hab
      omega) S i c n
  rw [h]
  have hiff : (∃ k, k ∈ List.range' cfg.BL_SPACEDIM (cfg.NUM_STATE - cfg.BL_SPACEDIM) ∧
      cfg.advectionType k = .NonConservative ∧ k - cfg.BL_SPACEDIM = n) ↔
      cfg.advectionType (cfg.BL_SPACEDIM + n) = .NonConservative := by
    constructor
    · rintro ⟨k, hk, hp, hg⟩
      have h1 := List.mem_range'_1.mp hk
      have : k = cfg.BL_SPACEDIM + n := by omega
      rw [← this]
      exact hp
    · intro hp
      exact ⟨cfg.BL_SPACEDIM + n, List.mem_range'_1.mpr (by omega), hp, by omega⟩
  simp only [hiff]

theorem reflux_Vsync_data (cfg : Config) (incr : FluxRegister → ℚ → ℕ → IntVect → ℕ → ℚ)
    (dt_crse : ℚ) (Rh : MultiFab) (fine_boxes : List Box) (fine_ratio : IntVect)
    (st : SyncFields) (hlev : cfg.level < cfg.finestLevel) (i : ℕ) (c : IntVect) (n : ℕ)
    (hn : n < cfg.BL_SPACEDIM) (hval : st.Vsync.inValid i c = true)
    (hnc : coveredBy (fine_boxes.map (fun b => b.coarsen fine_ratio)) c = false) :
    (reflux cfg incr dt_crse Rh fine_boxes fine_ratio st).Vsync.data i c n =
      (if cfg.do_mom_diff = 0
        then (st.Vsync.data i c n + incr st.fr_visc (1 / dt_crse) i c n) / Rh.data i c 0
        else st.Vsync.data i c n + incr st.fr_visc (1 / dt_crse) i c n)
      + incr st.fr_adv (1 / dt_crse) i c n := by
  have hne : ¬ cfg.level = cfg.finestLevel := ne_of_lt hlev
  have hv : (st.fr_visc.Reflux incr st.Vsync (1 / dt_crse) 0 0 cfg.BL_SPACEDIM).inValid i c
      = true := hval
  simp only [reflux, hne, if_false, zeroCovered, hnc, Bool.and_false, Bool.false_and,
    Bool.false_eq_true]
  by_cases hmd : cfg.do_mom_diff = 0
  · simp only [hmd, if_true]
    rw [FluxRegister.Reflux]
    simp only [Nat.zero_le, decide_True, Bool.true_and, zero_add, hn, if_true, Nat.sub_zero,
      foldl_divide_range_data, hv, and_self]
    simp only [FluxRegister.Reflux, Nat.zero_le, decide_True, Bool.true_and, zero_add, hn,
      if_true, Nat.sub_zero]
  · simp only [hmd, if_false]
    simp only [FluxRegister.Reflux, Nat.zero_le, decide_True, Bool.true_and, zero_add, hn,
      if_true, Nat.sub_zero]

theorem reflux_Ssync_data (cfg : Config) (incr : FluxRegister → ℚ → ℕ → IntVect → ℕ → ℚ)
    (dt_crse : ℚ) (Rh : MultiFab) (fine_boxes : List Box) (fine_ratio : IntVect)
    (st : SyncFields) (hlev : cfg.level < cfg.finestLevel) (i : ℕ) (c : IntVect) (n : ℕ)
    (hn : n < cfg.NUM_STATE - cfg.BL_SPACEDIM) (hval : st.Ssync.inValid i c = true)
    (hnc : coveredBy (fine_boxes.map (fun b => b.coarsen fine_ratio)) c = false) :
    (reflux cfg incr dt_crse Rh fine_boxes fine_ratio st).Ssync.data i c n =
      (if cfg.advectionType (cfg.BL_SPACEDIM + n) = .NonConservative
        then (st.Ssync.data i c n + incr st.fr_visc (1 / dt_crse) i c (cfg.BL_SPACEDIM + n))
          / Rh.data i c 0
        else st.Ssync.data i c n + incr st.fr_visc (1 / dt_crse) i c (cfg.BL_SPACEDIM + n))
      + incr st.fr_adv (1 / dt_crse) i c (cfg.BL_SPACEDIM + n) := by
  have hne : ¬ cfg.level = cfg.finestLevel := ne_of_lt hlev
  have hv : (st.fr_visc.Reflux incr st.Ssync (1 / dt_crse) cfg.BL_SPACEDIM 0
      (cfg.NUM_STATE - cfg.BL_SPACEDIM)).inValid i c = true := hval
  simp only [reflux, hne, if_false, zeroCovered, hnc, Bool.and_false, Bool.false_and,
    Bool.false_eq_true]
  rw [FluxRegister.Reflux]
  simp only [Nat.zero_le, decide_True, Bool.true_and, zero_add, hn, if_true, Nat.sub_zero]
  rw [foldl_divide_scalars_data cfg Rh _ i c n hn]
  simp only [hv, true_and]
  simp only [FluxRegister.Reflux, Nat.zero_le, decide_True, Bool.true_and, zero_add, hn,
    if_true, Nat.sub_zero]

/-- C7: in `reflux` with `do_mom_diff == 0`, each `Reflux` call adding its
increment, for every velocity component and every valid cell of the level that
lies in no coarsened box of the finer level, `Vsync` afterwards is
`(Vsync_before + viscous_increment) / rho_half + advective_increment`. -/
theorem reflux_velocity_ordering (cfg : Config)
    (incr : FluxRegister → ℚ → ℕ → IntVect → ℕ → ℚ) (dt_crse : ℚ) (Rh : MultiFab)
    (fine_boxes : List Box) (fine_ratio : IntVect) (st : SyncFields)
    (hlev : cfg.level < cfg.finestLevel) (hmd : cfg.do_mom_diff = 0)
    (i : ℕ) (c : IntVect) (n : ℕ) (hn : n < cfg.BL_SPACEDIM)
    (hval : st.Vsync.inValid i c = true)
    (hnc : coveredBy (fine_boxes.map (fun b => b.coarsen fine_ratio)) c = false) :
    (reflux cfg incr dt_crse Rh fine_boxes fine_ratio st).Vsync.data i c n =
      (st.Vsync.data i c n + incr st.fr_visc (1 / dt_crse) i c n) / Rh.data i c 0
        + incr st.fr_adv (1 / dt_crse) i c n := by
  have h := reflux_Vsync_data cfg incr dt_crse Rh fine_boxes fine_ratio st hlev i c n hn hval hnc
  rw [h, if_pos hmd]

/-- C8: in `reflux` with `do_mom_diff == 1` no density division is applied to
`Vsync`: for every velocity component and every valid cell of the level that
lies in no coarsened box of the finer level, `Vsync` afterwards is
`Vsync_before + viscous_increment + advective_increment`. -/
theorem reflux_velocity_mom_diff (cfg : Config)
    (incr : FluxRegister → ℚ → ℕ → IntVect → ℕ → ℚ) (dt_crse : ℚ) (Rh : MultiFab)
    (fine_boxes : List Box) (fine_ratio : IntVect) (st : SyncFields)
    (hlev : cfg.level < cfg.finestLevel) (hmd : cfg.do_mom_diff = 1)
    (i : ℕ) (c : IntVect) (n : ℕ) (hn : n < cfg.BL_SPACEDIM)
    (hval : st.Vsync.inValid i c = true)
    (hnc : coveredBy (fine_boxes.map (fun b => b.coarsen fine_ratio)) c = false) :
    (reflux cfg incr dt_crse Rh fine_boxes fine_ratio st).Vsync.data i c n =
      st.Vsync.data i c n + incr st.fr_visc (1 / dt_crse) i c n
        + incr st.fr_adv (1 / dt_crse) i c n := by
  have h := reflux_Vsync_data cfg incr dt_crse Rh fine_boxes fine_ratio st hlev i c n hn hval hnc
  have hne : ¬ cfg.do_mom_diff = 0 := by rw [hmd]; norm_num
  rw [h, if_neg hne]

/-- C9: in `reflux`, whatever `do_mom_diff` is, for every scalar component
`istate = BL_SPACEDIM + n` and every valid cell of the level that lies in no
coarsened box of the finer level, `Ssync` afterwards is
`(Ssync_before + viscous_increment) / rho_half + advective_increment` when
`advectionType[istate]` is `NonConservative`, and
`Ssync_before + viscous_increment + advective_increment` when it is
`Conservative`. -/
theorem reflux_scalar_ordering (cfg : Config)
    (incr : FluxRegister → ℚ → ℕ → IntVect → ℕ → ℚ) (dt_crse : ℚ) (Rh : MultiFab)
    (fine_boxes : List Box) (fine_ratio : IntVect) (st : SyncFields)
    (hlev : cfg.level < cfg.finestLevel)
    (i : ℕ) (c : IntVect) (n : ℕ) (hn : n < cfg.NUM_STATE - cfg.BL_SPACEDIM)
    (hval : st.Ssync.inValid i c = true)
    (hnc : coveredBy (fine_boxes.map (fun b => b.coarsen fine_ratio)) c = false) :
    (cfg.advectionType (cfg.BL_SPACEDIM + n) = .NonConservative →
      (reflux cfg incr dt_crse Rh fine_boxes fine_ratio st).Ssync.data i c n =
        (st.Ssync.data i c n + incr st.fr_visc (1 / dt_crse) i c (cfg.BL_SPACEDIM + n))
            / Rh.data i c 0
          + incr st.fr_adv (1 / dt_crse) i c (cfg.BL_SPACEDIM + n)) ∧
    (cfg.advectionType (cfg.BL_SPACEDIM + n) = .Conservative →
      (reflux cfg incr dt_crse Rh fine_boxes fine_ratio st).Ssync.data i c n =
        st.Ssync.data i c n + incr st.fr_visc (1 / dt_crse) i c (cfg.BL_SPACEDIM + n)
          + incr st.fr_adv (1 / dt_crse) i c (cfg.BL_SPACEDIM + n)) := by
  have h := reflux_Ssync_data cfg incr dt_crse Rh fine_boxes fine_ratio st hlev i c n hn hval hnc
  constructor
  · intro hnon
    rw [h, if_pos hnon]
  · intro hcons
    have hne : ¬ cfg.advectionType (cfg.BL_SPACEDIM + n) = .NonConservative := by
      rw [hcons]; exact fun h => AdvectionForm.noConfusion h
    rw [h, if_neg hne]

/-- Witness of C3: the coarse cell `(2,3)` under the fine cell `(4,6)`. -/
theorem reflux_zeroes_covered_cells_witness :
    (∀ n, n < 2 →
      (reflux (coarseCfg 0 (fun _ => .Conservative)) sampleIncr 1 (constMF 2)
        sampleFineBoxes [2, 2] sampleSync).Vsync.data 0 [2, 3] n = 0) ∧
    (∀ n, n < 4 - 2 →
      (reflux (coarseCfg 0 (fun _ => .Conservative)) sampleIncr 1 (constMF 2)
        sampleFineBoxes [2, 2] sampleSync).Ssync.data 0 [2, 3] n = 0) :=
  reflux_zeroes_covered_cells (coarseCfg 0 (fun _ => .Conservative)) sampleIncr 1 (constMF 2)
    sampleFineBoxes [2, 2] sampleSync (by decide) (by decide) 0 [2, 3] (by decide)
    ⟨[4, 4], [7, 7]⟩ (by decide) [4, 6] (by decide) (by decide)

/-- Witness of C7: at the uncovered cell `(0,0)`, `(6 + 2) / 2 + 1 = 5`. -/
theorem reflux_velocity_ordering_witness :
    (reflux (coarseCfg 0 (fun _ => .Conservative)) sampleIncr 1 (constMF 2)
      sampleFineBoxes [2, 2] sampleSync).Vsync.data 0 [0, 0] 1 = 5 :=
  (reflux_velocity_ordering (coarseCfg 0 (fun _ => .Conservative)) sampleIncr 1 (constMF 2)
    sampleFineBoxes [2, 2] sampleSync (by decide) rfl 0 [0, 0] 1 (by decide) (by decide)
    (by decide)).trans (by norm_num [sampleSync, sampleIncr, constMF])

/-- Witness of C8: at the uncovered cell `(0,0)`, `6 + 2 + 1 = 9`. -/
theorem reflux_velocity_mom_diff_witness :
    (reflux (coarseCfg 1 (fun _ => .Conservative)) sampleIncr 1 (constMF 2)
      sampleFineBoxes [2, 2] sampleSync).Vsync.data 0 [0, 0] 1 = 9 :=
  (reflux_velocity_mom_diff (coarseCfg 1 (fun _ => .Conservative)) sampleIncr 1 (constMF 2)
    sampleFineBoxes [2, 2] sampleSync (by decide) rfl 0 [0, 0] 1 (by decide) (by decide)
    (by decide)).trans (by norm_num [sampleSync, sampleIncr, constMF])

/-- Witness of C9: density conservative and the tracer non-conservative, at the
uncovered cell `(0,0)`: the tracer ends at `(8 + 2) / 2 + 1 = 6`. -/
theorem reflux_scalar_ordering_witness :
    (reflux (coarseCfg 1 (fun k => if k = 3 then .NonConservative else .Conservative))
      sampleIncr 1 (constMF 2) sampleFineBoxes [2, 2] sampleSync).Ssync.data 0 [0, 0] 1 = 6 :=
  ((reflux_scalar_ordering
    (coarseCfg 1 (fun k => if k = 3 then .NonConservative else .Conservative))
    sampleIncr 1 (constMF 2) sampleFineBoxes [2, 2] sampleSync (by decide) 0 [0, 0] 1
    (by decide) (by decide) (by decide)).1 (by decide)).trans
    (by norm_num [sampleSync, sampleIncr, constMF])

/-! ## The underflow floor -/

theorem floorSmall_of_lt (v : ℚ) (h : |v| < floorThreshold) : floorSmall v = 0 := by
  unfold floorSmall
  rw [if_neg (not_lt.mpr (le_of_lt h))]

/-- C10: the states handed to the face extrapolation are the floored ones,
and in them every velocity component of `predict_velocity` and every scalar
component of `scalar_advection`, at every valid or ghost cell within
`Godunov::hypgrow()` of a grid, whose filled value is below `1e-20` in
absolute value is exactly zero. -/
theorem underflow_floor {σ : Type} (ops : LevelOps σ) (cfg : Config) (dt : ℚ)
    (fscalar lscalar : ℕ) (s : σ) :
    ((predict_velocity ops cfg dt s).1
        = ops.ExtrapVelToFaces dt (predict_velocity_Umf ops cfg s) s ∧
      ∀ i c n, (predict_velocity_Umf ops cfg s).inGrown cfg.hypgrow i c = true →
        n < cfg.BL_SPACEDIM →
        |ops.FillPatchIterator s cfg.hypgrow 0 cfg.BL_SPACEDIM i c n| < floorThreshold →
        (predict_velocity_Umf ops cfg s).data i c n = 0) ∧
    (scalar_advection ops cfg dt fscalar lscalar s
        = scalar_advection_fluxes ops cfg dt fscalar (lscalar + 1 - fscalar)
          (ops.AdvectScalars dt fscalar (lscalar + 1 - fscalar)
            (scalar_advection_Smf ops cfg fscalar lscalar s) s) ∧
      ∀ i c n, (scalar_advection_Smf ops cfg fscalar lscalar s).inGrown cfg.hypgrow i c = true →
        n < lscalar + 1 - fscalar →
        |ops.FillPatchIterator s cfg.hypgrow fscalar (lscalar + 1 - fscalar) i c n|
          < floorThreshold →
        (scalar_advection_Smf ops cfg fscalar lscalar s).data i c n = 0) := by
  refine ⟨⟨rfl, ?_⟩, ⟨rfl, ?_⟩⟩
  · intro i c n hin hn hv
    have hin' : MultiFab.inGrown ⟨cfg.grids, cfg.hypgrow,
        ops.FillPatchIterator s cfg.hypgrow 0 cfg.BL_SPACEDIM⟩ cfg.hypgrow i c = true := hin
    simp only [predict_velocity_Umf, floorStates, hin', hn, decide_True, Bool.and_self,
      if_true]
    exact floorSmall_of_lt _ hv
  · intro i c n hin hn hv
    have hin' : MultiFab.inGrown ⟨cfg.grids, cfg.hypgrow,
        ops.FillPatchIterator s cfg.hypgrow fscalar (lscalar + 1 - fscalar)⟩
        cfg.hypgrow i c = true := hin
    simp only [scalar_advection_Smf, floorStates, hin', hn, decide_True, Bool.and_self,
      if_true]
    exact floorSmall_of_lt _ hv

/-- Witness of C10: on the sample level the second component, filled with
`1e-21`, is zero at the ghost cell `(-1,1)` in both functions. -/
theorem underflow_floor_witness :
    (predict_velocity_Umf (sampleOps 1 (1 / 10 ^ 21)) (sampleCfg 1) ()).data 0 [-1, 1] 1 = 0 ∧
    (scalar_advection_Smf (sampleOps 1 (1 / 10 ^ 21)) (sampleCfg 1) 2 3 ()).data 0 [-1, 1] 1
      = 0 :=
  have hsmall : |(1 / 10 ^ 21 : ℚ)| < floorThreshold := by
    rw [abs_of_pos (by norm_num)]
    norm_num [floorThreshold]
  have h := underflow_floor (sampleOps 1 (1 / 10 ^ 21)) (sampleCfg 1) 1 2 3 ()
  ⟨h.1.2 0 [-1, 1] 1 (by decide) (by decide) hsmall,
    h.2.2 0 [-1, 1] 1 (by decide) (by decide) hsmall⟩

/-! ## The subtraction of `DeltaSsync` -/

theorem deltaSsyncStep_of_not (cfg : Config) (S_new : MultiFab) (acc : ℤ × MultiFab × MultiFab)
    (x : ℕ) (h : isConservedScalar cfg x = false) : deltaSsyncStep cfg S_new acc x = acc := by
  simp only [isConservedScalar, Bool.and_eq_false_iff, decide_eq_false_iff_not] at h
  have : ¬ (x ≠ cfg.Density ∧ cfg.advectionType x = .Conservative) := by
    rintro ⟨h1, h2⟩
    rcases h with h | h
    · exact h h1
    · exact h h2
  simp only [deltaSsyncStep, this, if_false]

theorem deltaSsyncStep_of_conserved (cfg : Config) (S_new : MultiFab)
    (acc : ℤ × MultiFab × MultiFab) (x : ℕ) (h : isConservedScalar cfg x = true) :
    deltaSsyncStep cfg S_new acc x =
      (acc.1 + 1,
        { acc.2.1 with data := fun i c n =>
            if S_new.inValid i c && decide (n = x - cfg.BL_SPACEDIM)
            then acc.2.1.data i c n - S_new.data i c x / S_new.data i c cfg.Density
              * acc.2.1.data i c (cfg.Density - cfg.BL_SPACEDIM)
            else acc.2.1.data i c n },
        { acc.2.2 with data := fun i c n =>
            if S_new.inValid i c && decide (n = (acc.1 + 1).toNat)
            then S_new.data i c x / S_new.data i c cfg.Density
              * acc.2.1.data i c (cfg.Density - cfg.BL_SPACEDIM)
            else acc.2.2.data i c n }) := by
  simp only [isConservedScalar, Bool.and_eq_true, decide_eq_true_eq] at h
  have h' : x ≠ cfg.Density ∧ cfg.advectionType x = .Conservative := h
  simp only [deltaSsyncStep, if_pos h']

theorem foldl_deltaSsync_counter (cfg : Config) (S_new : MultiFab) (l : List ℕ)
    (acc : ℤ × MultiFab × MultiFab) :
    (l.foldl (deltaSsyncStep cfg S_new) acc).1 = acc.1 + (l.countP (isConservedScalar cfg)) := by
  induction l generalizing acc with
  | nil => simp
  | cons x t ih =>
    simp only [List.foldl_cons]
    rw [ih]
    by_cases h : isConservedScalar cfg x = true
    · rw [deltaSsyncStep_of_conserved cfg S_new acc x h, List.countP_cons_of_pos _ _ h]
      push_cast
      ring
    · have h' : isConservedScalar cfg x = false := by simpa using h
      rw [deltaSsyncStep_of_not cfg S_new acc x h', List.countP_cons_of_neg _ _ h]

theorem foldl_deltaSsync_delta_below (cfg : Config) (S_new : MultiFab) (l : List ℕ)
    (acc : ℤ × MultiFab × MultiFab) (i : ℕ) (c : IntVect) (m : ℕ) (hm : (m : ℤ) ≤ acc.1) :
    (l.foldl (deltaSsyncStep cfg S_new) acc).2.2.data i c m = acc.2.2.data i c m := by
  induction l generalizing acc with
  | nil => rfl
  | cons x t ih =>
    simp only [List.foldl_cons]
    by_cases h : isConservedScalar cfg x = true
    · rw [ih _ (by rw [deltaSsyncStep_of_conserved cfg S_new acc x h]; simp only; linarith)]
      rw [deltaSsyncStep_of_conserved cfg S_new acc x h]
      have hne : ¬ m = (acc.1 + 1).toNat := by
        intro heq
        have h0 : (0 : ℤ) ≤ acc.1 + 1 := by
          have : (0 : ℤ) ≤ (m : ℤ) := Int.ofNat_nonneg m
          linarith
        have : (m : ℤ) = acc.1 + 1 := by rw [heq, Int.toNat_of_nonneg h0]
        linarith
      simp only [hne, decide_False, Bool.and_false, Bool.false_eq_true, if_false]
    · have h' : isConservedScalar cfg x = false := by simpa using h
      rw [deltaSsyncStep_of_not cfg S_new acc x h']
      exact ih acc hm

theorem foldl_deltaSsync_Ssync_other (cfg : Config) (S_new : MultiFab) (l : List ℕ)
    (acc : ℤ × MultiFab × MultiFab) (i : ℕ) (c : IntVect) (n : ℕ)
    (hl : ∀ x, x ∈ l → isConservedScalar cfg x = true → x - cfg.BL_SPACEDIM ≠ n) :
    (l.foldl (deltaSsyncStep cfg S_new) acc).2.1.data i c n = acc.2.1.data i c n := by
  induction l generalizing acc with
  | nil => rfl
  | cons x t ih =>
    simp only [List.foldl_cons]
    rw [ih _ (fun y hy => hl y (List.mem_cons_of_mem x hy))]
    by_cases h : isConservedScalar cfg x = true
    · rw [deltaSsyncStep_of_conserved cfg S_new acc x h]
      have hne : ¬ n = x - cfg.BL_SPACEDIM := fun heq =>
        hl x (List.mem_cons_self x t) h heq.symm
      simp only [hne, decide_False, Bool.and_false, Bool.false_eq_true, if_false]
    · have h' : isConservedScalar cfg x = false := by simpa using h
      rw [deltaSsyncStep_of_not cfg S_new acc x h']

theorem foldl_deltaSsync_at (cfg : Config) (S_new : MultiFab) (pre post : List ℕ) (x : ℕ)
    (acc : ℤ × MultiFab × MultiFab) (i : ℕ) (c : IntVect)
    (hx : isConservedScalar cfg x = true)
    (hD : cfg.BL_SPACEDIM ≤ cfg.Density) (hxD : cfg.BL_SPACEDIM ≤ x)
    (hpre : ∀ y, y ∈ pre → cfg.BL_SPACEDIM ≤ y ∧ y ≠ x)
    (hpost : ∀ y, y ∈ post → cfg.BL_SPACEDIM ≤ y ∧ y ≠ x)
    (hic : -1 ≤ acc.1) (hval : S_new.inValid i c = true) :
    ((pre ++ x :: post).foldl (deltaSsyncStep cfg S_new) acc).2.2.data i c
        (acc.1 + 1 + (pre.countP (isConservedScalar cfg) : ℤ)).toNat
      = S_new.data i c x / S_new.data i c cfg.Density
          * acc.2.1.data i c (cfg.Density - cfg.BL_SPACEDIM) ∧
    ((pre ++ x :: post).foldl (deltaSsyncStep cfg S_new) acc).2.1.data i c
        (x - cfg.BL_SPACEDIM)
      = acc.2.1.data i c (x - cfg.BL_SPACEDIM)
          - S_new.data i c x / S_new.data i c cfg.Density
            * acc.2.1.data i c (cfg.Density - cfg.BL_SPACEDIM) := by
  have hcons : ∀ y, isConservedScalar cfg y = true → y ≠ cfg.Density := by
    intro y hy
    simp only [isConservedScalar, Bool.and_eq_true, decide_eq_true_eq] at hy
    exact hy.1
  rw [List.foldl_append, List.foldl_cons]
  have h1 := foldl_deltaSsync_counter cfg S_new pre acc
  have h2 := foldl_deltaSsync_Ssync_other cfg S_new pre acc i c
    (cfg.Density - cfg.BL_SPACEDIM) (fun y hy hq => by
      have := (hpre y hy).1
      have := hcons y hq
      omega)
  have h3 := foldl_deltaSsync_Ssync_other cfg S_new pre acc i c (x - cfg.BL_SPACEDIM)
    (fun y hy _ => by
      have := hpre y hy
      omega)
  have hnn : (0 : ℤ) ≤ (pre.countP (isConservedScalar cfg) : ℤ) := Int.ofNat_nonneg _
  have hstep := deltaSsyncStep_of_conserved cfg S_new
    (pre.foldl (deltaSsyncStep cfg S_new) acc) x hx
  have hidx : acc.1 + 1 + (pre.countP (isConservedScalar cfg) : ℤ)
      = acc.1 + (pre.countP (isConservedScalar cfg) : ℤ) + 1 := by ring
  constructor
  · rw [hidx, foldl_deltaSsync_delta_below cfg S_new post _ i c _ (by
      rw [hstep]
      simp only
      rw [h1, Int.toNat_of_nonneg (by linarith)])]
    rw [hstep]
    simp only [h1, hval, decide_True, Bool.and_self, if_true, h2]
  · rw [foldl_deltaSsync_Ssync_other cfg S_new post _ i c (x - cfg.BL_SPACEDIM)
      (fun y hy _ => by
        have := hpost y hy
        omega)]
    rw [hstep]
    simp only [hval, decide_True, Bool.and_self, if_true, h2, h3]

theorem range'_split (D N x : ℕ) (hlo : D ≤ x) (hhi : x < N) :
    List.range' D (N - D) = List.range' D (x - D) ++ x :: List.range' (x + 1) (N - x - 1) := by
  have h1 : N - D = ((N - x - 1) + 1) + (x - D) := by omega
  have h2 : D + (x - D) = x := by omega
  have h3 : List.range' D (((N - x - 1) + 1) + (x - D))
      = List.range' D (x - D) ++ x :: List.range' (x + 1) (N - x - 1) := by
    rw [← List.range'_append_1, h2, List.range'_succ]
  exact (congrArg (List.range' D) h1).trans h3

/-- C5: in `mac_sync` with `do_reflux` set, for every conservative state
component `istate` in `[BL_SPACEDIM, NUM_STATE)` other than the density and
every valid cell, after the first loop over `istate` the component
`k = conservedBelow istate` of `DeltaSsync` is
`S_new[istate] / S_new[Density] * (dt * Ssync_rho)`, with `Ssync_rho` the
density component of the `Ssync` that `mac_sync_compute` returns and `S_new`
the new-time state before the sync; that amount has been subtracted from
`Ssync[istate - BL_SPACEDIM]`; the density component of `Ssync` is the one
the loop started from; and the loop runs before the viscous syncs. -/
theorem deltaSsync_formed {ρ : Type} (ops : SyncOps ρ) (cfg : Config) (dt : ℚ)
    (st : SyncLevel ρ) (istate : ℕ) (hlo : cfg.BL_SPACEDIM ≤ istate)
    (hhi : istate < cfg.NUM_STATE) (hne : istate ≠ cfg.Density)
    (hcons : cfg.advectionType istate = .Conservative)
    (hD : cfg.BL_SPACEDIM ≤ cfg.Density) (i : ℕ) (c : IntVect)
    (hval : st.S_new.inValid i c = true) :
    (mac_sync_subtract cfg (mac_sync_scale ops dt st)).DeltaSsync.data i c
        (conservedBelow cfg istate)
      = st.S_new.data i c istate / st.S_new.data i c cfg.Density
          * (dt * (ops.mac_sync_compute dt st).2.1 i c (cfg.Density - cfg.BL_SPACEDIM)) ∧
    (mac_sync_subtract cfg (mac_sync_scale ops dt st)).Ssync.data i c
        (istate - cfg.BL_SPACEDIM)
      = dt * (ops.mac_sync_compute dt st).2.1 i c (istate - cfg.BL_SPACEDIM)
          - st.S_new.data i c istate / st.S_new.data i c cfg.Density
            * (dt * (ops.mac_sync_compute dt st).2.1 i c (cfg.Density - cfg.BL_SPACEDIM)) ∧
    (∀ j b, (mac_sync_subtract cfg (mac_sync_scale ops dt st)).Ssync.data j b
        (cfg.Density - cfg.BL_SPACEDIM)
      = dt * (ops.mac_sync_compute dt st).2.1 j b (cfg.Density - cfg.BL_SPACEDIM)) ∧
    (cfg.do_reflux = true →
      mac_sync ops cfg dt st =
        (fun s : SyncLevel ρ => { s with rest := ops.sync_cleanup s })
          (mac_sync_interp ops cfg (mac_sync_add ops cfg (mac_sync_readd cfg
            (mac_sync_viscous ops cfg dt (mac_sync_velocity ops cfg dt
              (mac_sync_subtract cfg (mac_sync_scale ops dt
                (mac_sync_entry ops cfg dt st))))))))) := by
  have hx : isConservedScalar cfg istate = true := by
    simp [isConservedScalar, hne, hcons]
  have hsplit := range'_split cfg.BL_SPACEDIM cfg.NUM_STATE istate hlo hhi
  have hmain := foldl_deltaSsync_at cfg st.S_new
    (List.range' cfg.BL_SPACEDIM (istate - cfg.BL_SPACEDIM))
    (List.range' (istate + 1) (cfg.NUM_STATE - istate - 1)) istate
    (-1, (mac_sync_scale ops dt st).Ssync, (mac_sync_scale ops dt st).DeltaSsync) i c hx hD hlo
    (fun y hy => by have := List.mem_range'_1.mp hy; omega)
    (fun y hy => by have := List.mem_range'_1.mp hy; omega)
    (le_refl _) hval
  rw [← hsplit] at hmain
  have hk : ((-1 : ℤ) + 1 + ((List.range' cfg.BL_SPACEDIM (istate - cfg.BL_SPACEDIM)).countP
      (isConservedScalar cfg) : ℤ)).toNat = conservedBelow cfg istate := by
    simp [conservedBelow]
  simp only [hk] at hmain
  have hscale : ∀ j b n, (mac_sync_scale ops dt st).Ssync.data j b n
      = dt * (ops.mac_sync_compute dt st).2.1 j b n := by
    intro j b n
    simp only [mac_sync_scale, MultiFab.mult]
    ring
  refine ⟨?_, ?_, ?_, ?_⟩
  · rw [← hscale]
    exact hmain.1
  · rw [← hscale, ← hscale]
    exact hmain.2
  · intro j b
    rw [← hscale]
    exact foldl_deltaSsync_Ssync_other cfg st.S_new _ _ j b _ (fun y hy hq => by
      have := List.mem_range'_1.mp hy
      simp only [isConservedScalar, Bool.and_eq_true, decide_eq_true_eq] at hq
      have := hq.1
      omega)
  · intro hr
    simp only [mac_sync, mac_sync_reflux, hr, if_true]

/-! ## The viscous sync and the re-addition of `DeltaSsync` -/

theorem mac_sync_velocity_frame {ρ : Type} (ops : SyncOps ρ) (cfg : Config) (dt : ℚ)
    (st : SyncLevel ρ) :
    (mac_sync_velocity ops cfg dt st).S_new = st.S_new ∧
    (mac_sync_velocity ops cfg dt st).Ssync = st.Ssync ∧
    (mac_sync_velocity ops cfg dt st).DeltaSsync = st.DeltaSsync := by
  unfold mac_sync_velocity
  by_cases h1 : cfg.do_mom_diff = 1 <;> by_cases h2 : cfg.is_diffusive 0 = true <;>
    simp [h1, h2]

theorem viscousSyncStep_frame {ρ : Type} (ops : SyncOps ρ) (cfg : Config) (dt : ℚ)
    (st : SyncLevel ρ) (a : ℕ) :
    (viscousSyncStep ops cfg dt st a).S_new = st.S_new ∧
    (viscousSyncStep ops cfg dt st a).DeltaSsync = st.DeltaSsync ∧
    (viscousSyncStep ops cfg dt st a).Ssync.grids = st.Ssync.grids ∧
    ∀ i c n, (viscousSyncStep ops cfg dt st a).Ssync.data i c n =
      if n = a ∧ cfg.is_diffusive (cfg.BL_SPACEDIM + n) = true
      then ops.diffuse_Ssync st.S_new n dt (ops.rho_flag (cfg.BL_SPACEDIM + n))
        (fun j b => st.Ssync.data j b n) i c
      else st.Ssync.data i c n := by
  unfold viscousSyncStep
  by_cases h1 : cfg.is_diffusive (cfg.BL_SPACEDIM + a) = true
  · by_cases h2 : 0 < cfg.level
    · simp only [h1, h2, if_true, MultiFab.setComp, true_and]
      intro i c n
      by_cases hn : n = a
      · subst hn; simp [h1]
      · simp [hn]
    · simp only [h1, h2, if_true, if_false, MultiFab.setComp, true_and]
      intro i c n
      by_cases hn : n = a
      · subst hn; simp [h1]
      · simp [hn]
  · have h1' : cfg.is_diffusive (cfg.BL_SPACEDIM + a) = false := by simpa using h1
    simp only [h1', Bool.false_eq_true, if_false, true_and]
    intro i c n
    by_cases hn : n = a
    · subst hn; simp [h1']
    · simp [hn]

theorem foldl_viscous {ρ : Type} (ops : SyncOps ρ) (cfg : Config) (dt : ℚ) (l : List ℕ)
    (hl : l.Nodup) (st : SyncLevel ρ) :
    (l.foldl (viscousSyncStep ops cfg dt) st).S_new = st.S_new ∧
    (l.foldl (viscousSyncStep ops cfg dt) st).DeltaSsync = st.DeltaSsync ∧
    (l.foldl (viscousSyncStep ops cfg dt) st).Ssync.grids = st.Ssync.grids ∧
    ∀ i c n, (l.foldl (viscousSyncStep ops cfg dt) st).Ssync.data i c n =
      if n ∈ l ∧ cfg.is_diffusive (cfg.BL_SPACEDIM + n) = true
      then ops.diffuse_Ssync st.S_new n dt (ops.rho_flag (cfg.BL_SPACEDIM + n))
        (fun j b => st.Ssync.data j b n) i c
      else st.Ssync.data i c n := by
  induction l generalizing st with
  | nil => simp
  | cons a t ih =>
    have hnd := List.nodup_cons.mp hl
    obtain ⟨s1, s2, s3, s4⟩ := viscousSyncStep_frame ops cfg dt st a
    obtain ⟨r1, r2, r3, r4⟩ := ih hnd.2 (viscousSyncStep ops cfg dt st a)
    simp only [List.foldl_cons]
    refine ⟨r1.trans s1, r2.trans s2, r3.trans s3, ?_⟩
    intro i c n
    rw [r4 i c n, s1]
    by_cases hn : n = a
    · have hnt : n ∉ t := hn ▸ hnd.1
      have hmem : n ∈ a :: t := hn ▸ List.mem_cons_self a t
      simp only [hnt, false_and, if_false, hmem, true_and]
      rw [s4 i c n]
      simp only [hn, true_and]
    · have hfield : (fun j b => (viscousSyncStep ops cfg dt st a).Ssync.data j b n)
          = fun j b => st.Ssync.data j b n := by
        funext j b
        rw [s4 j b n]
        simp only [hn, false_and, if_false]
      have hmem : n ∈ a :: t ↔ n ∈ t := by
        simp only [List.mem_cons, hn, false_or]
      rw [hfield, s4 i c n]
      simp only [hn, false_and, if_false, hmem]

theorem readdStep_of_not (cfg : Config) (Δ : MultiFab) (acc : ℤ × MultiFab) (x : ℕ)
    (h : isConservedScalar cfg x = false) : readdStep cfg Δ acc x = acc := by
  simp only [isConservedScalar, Bool.and_eq_false_iff, decide_eq_false_iff_not] at h
  have : ¬ (x ≠ cfg.Density ∧ cfg.advectionType x = .Conservative) := by
    rintro ⟨h1, h2⟩
    rcases h with h | h
    · exact h h1
    · exact h h2
  simp only [readdStep, this, if_false]

theorem readdStep_of_conserved (cfg : Config) (Δ : MultiFab) (acc : ℤ × MultiFab) (x : ℕ)
    (h : isConservedScalar cfg x = true) :
    readdStep cfg Δ acc x =
      (acc.1 + 1, acc.2.plus Δ (acc.1 + 1).toNat (x - cfg.BL_SPACEDIM)) := by
  simp only [isConservedScalar, Bool.and_eq_true, decide_eq_true_eq] at h
  have h' : x ≠ cfg.Density ∧ cfg.advectionType x = .Conservative := h
  simp only [readdStep, if_pos h']

theorem foldl_readd_counter (cfg : Config) (Δ : MultiFab) (l : List ℕ) (acc : ℤ × MultiFab) :
    (l.foldl (readdStep cfg Δ) acc).1 = acc.1 + (l.countP (isConservedScalar cfg)) ∧
    (l.foldl (readdStep cfg Δ) acc).2.grids = acc.2.grids := by
  induction l generalizing acc with
  | nil => simp
  | cons x t ih =>
    simp only [List.foldl_cons]
    obtain ⟨ih1, ih2⟩ := ih (readdStep cfg Δ acc x)
    rw [ih1, ih2]
    by_cases h : isConservedScalar cfg x = true
    · rw [readdStep_of_conserved cfg Δ acc x h, List.countP_cons_of_pos _ _ h]
      refine ⟨?_, rfl⟩
      push_cast
      ring
    · have h' : isConservedScalar cfg x = false := by simpa using h
      rw [readdStep_of_not cfg Δ acc x h', List.countP_cons_of_neg _ _ h]
      exact ⟨rfl, rfl⟩

theorem foldl_readd_other (cfg : Config) (Δ : MultiFab) (l : List ℕ) (acc : ℤ × MultiFab)
    (i : ℕ) (c : IntVect) (n : ℕ)
    (hl : ∀ x, x ∈ l → isConservedScalar cfg x = true → x - cfg.BL_SPACEDIM ≠ n) :
    (l.foldl (readdStep cfg Δ) acc).2.data i c n = acc.2.data i c n := by
  induction l generalizing acc with
  | nil => rfl
  | cons x t ih =>
    simp only [List.foldl_cons]
    rw [ih _ (fun y hy => hl y (List.mem_cons_of_mem x hy))]
    by_cases h : isConservedScalar cfg x = true
    · rw [readdStep_of_conserved cfg Δ acc x h]
      have hne : ¬ n = x - cfg.BL_SPACEDIM := fun heq =>
        hl x (List.mem_cons_self x t) h heq.symm
      simp only [MultiFab.plus, hne, decide_False, Bool.and_false, Bool.false_eq_true,
        if_false]
    · have h' : isConservedScalar cfg x = false := by simpa using h
      rw [readdStep_of_not cfg Δ acc x h']

theorem foldl_readd_at (cfg : Config) (Δ : MultiFab) (pre post : List ℕ) (x : ℕ)
    (acc : ℤ × MultiFab) (i : ℕ) (c : IntVect)
    (hx : isConservedScalar cfg x = true) (hxD : cfg.BL_SPACEDIM ≤ x)
    (hpre : ∀ y, y ∈ pre → cfg.BL_SPACEDIM ≤ y ∧ y ≠ x)
    (hpost : ∀ y, y ∈ post → cfg.BL_SPACEDIM ≤ y ∧ y ≠ x)
    (hval : acc.2.inValid i c = true) :
    ((pre ++ x :: post).foldl (readdStep cfg Δ) acc).2.data i c (x - cfg.BL_SPACEDIM)
      = acc.2.data i c (x - cfg.BL_SPACEDIM)
        + Δ.data i c (acc.1 + 1 + (pre.countP (isConservedScalar cfg) : ℤ)).toNat := by
  rw [List.foldl_append, List.foldl_cons]
  obtain ⟨h1, h2⟩ := foldl_readd_counter cfg Δ pre acc
  have h3 := foldl_readd_other cfg Δ pre acc i c (x - cfg.BL_SPACEDIM)
    (fun y hy _ => by
      have := hpre y hy
      omega)
  rw [foldl_readd_other cfg Δ post _ i c (x - cfg.BL_SPACEDIM)
    (fun y hy _ => by
      have := hpost y hy
      omega)]
  rw [readdStep_of_conserved cfg Δ _ x hx]
  have hv : (pre.foldl (readdStep cfg Δ) acc).2.inValid i c = true := by
    rw [inValid_of_grids _ _ h2]
    exact hval
  have hidx : acc.1 + 1 + (pre.countP (isConservedScalar cfg) : ℤ)
      = acc.1 + (pre.countP (isConservedScalar cfg) : ℤ) + 1 := by ring
  simp only [MultiFab.plus, hv, decide_True, Bool.and_self, if_true, h1, h3, hidx]

theorem foldl_plus_data (Y : MultiFab) (D : ℕ) (l : List ℕ) (hl : l.Nodup) (S : MultiFab)
    (i : ℕ) (c : IntVect) (sigma : ℕ) :
    (l.foldl (fun S sigma => S.plus Y sigma (D + sigma)) S).data i c (D + sigma) =
      if S.inValid i c = true ∧ sigma ∈ l then S.data i c (D + sigma) + Y.data i c sigma
      else S.data i c (D + sigma) := by
  induction l generalizing S with
  | nil => simp
  | cons a t ih =>
    have hnd := List.nodup_cons.mp hl
    simp only [List.foldl_cons]
    rw [ih hnd.2]
    have hval : (S.plus Y a (D + a)).inValid i c = S.inValid i c :=
      inValid_of_grids _ _ rfl i c
    rw [hval]
    by_cases hs : sigma = a
    · subst hs
      simp only [hnd.1, and_false, if_false, List.mem_cons_self, and_true]
      simp only [MultiFab.plus, decide_True, Bool.and_true]
    · have hne : ¬ D + sigma = D + a := fun h => hs (Nat.add_left_cancel h)
      have hmem : sigma ∈ a :: t ↔ sigma ∈ t := by
        simp only [List.mem_cons, hs, false_or]
      simp only [MultiFab.plus, hne, decide_False, Bool.and_false, Bool.false_eq_true,
        if_false, hmem]

theorem foldl_deltaSsync_grids (cfg : Config) (S_new : MultiFab) (l : List ℕ)
    (acc : ℤ × MultiFab × MultiFab) :
    (l.foldl (deltaSsyncStep cfg S_new) acc).2.1.grids = acc.2.1.grids := by
  induction l generalizing acc with
  | nil => rfl
  | cons x t ih =>
    simp only [List.foldl_cons]
    rw [ih]
    by_cases h : isConservedScalar cfg x = true
    · rw [deltaSsyncStep_of_conserved cfg S_new acc x h]
    · have h' : isConservedScalar cfg x = false := by simpa using h
      rw [deltaSsyncStep_of_not cfg S_new acc x h']

theorem foldl_deltaSsync_invalid (cfg : Config) (S_new : MultiFab) (l : List ℕ)
    (acc : ℤ × MultiFab × MultiFab) (i : ℕ) (c : IntVect) (n : ℕ)
    (hval : S_new.inValid i c = false) :
    (l.foldl (deltaSsyncStep cfg S_new) acc).2.1.data i c n = acc.2.1.data i c n := by
  induction l generalizing acc with
  | nil => rfl
  | cons x t ih =>
    simp only [List.foldl_cons]
    rw [ih]
    by_cases h : isConservedScalar cfg x = true
    · rw [deltaSsyncStep_of_conserved cfg S_new acc x h]
      simp only [hval, Bool.false_and, Bool.false_eq_true, if_false]
    · have h' : isConservedScalar cfg x = false := by simpa using h
      rw [deltaSsyncStep_of_not cfg S_new acc x h']

theorem syncInterpStep_frame {ρ : Type} (ops : SyncOps ρ) (cfg : Config)
    (acc : IntVect × SyncLevel ρ) (lev : ℕ) :
    (syncInterpStep ops cfg acc lev).2.S_new = acc.2.S_new ∧
    (syncInterpStep ops cfg acc lev).2.Ssync = acc.2.Ssync :=
  ⟨rfl, rfl⟩

theorem mac_sync_interp_frame {ρ : Type} (ops : SyncOps ρ) (cfg : Config)
    (st : SyncLevel ρ) :
    (mac_sync_interp ops cfg st).S_new = st.S_new ∧
    (mac_sync_interp ops cfg st).Ssync = st.Ssync := by
  unfold mac_sync_interp
  generalize List.replicate cfg.BL_SPACEDIM (1 : ℤ) = ratio
  generalize List.range' (cfg.level + 1) (cfg.finestLevel - cfg.level) = l
  induction l generalizing ratio st with
  | nil => exact ⟨rfl, rfl⟩
  | cons lev t ih =>
    simp only [List.foldl_cons]
    obtain ⟨h1, h2⟩ := ih (syncInterpStep ops cfg (ratio, st) lev).2
      (syncInterpStep ops cfg (ratio, st) lev).1
    obtain ⟨f1, f2⟩ := syncInterpStep_frame ops cfg (ratio, st) lev
    exact ⟨h1.trans f1, h2.trans f2⟩

theorem mac_sync_add_frame {ρ : Type} (ops : SyncOps ρ) (cfg : Config) (st : SyncLevel ρ) :
    (mac_sync_add ops cfg st).Ssync = st.Ssync ∧
    (mac_sync_add ops cfg st).S_new =
      (List.range (cfg.NUM_STATE - cfg.BL_SPACEDIM)).foldl
        (fun S sigma => S.plus st.Ssync sigma (cfg.BL_SPACEDIM + sigma)) st.S_new := by
  unfold mac_sync_add
  by_cases h : 0 < cfg.level <;> simp [h]

/-- The new-time state after the `do_reflux` branch of `mac_sync`: one
addition of the final `Ssync`. -/
theorem mac_sync_reflux_S_new {ρ : Type} (ops : SyncOps ρ) (cfg : Config) (dt : ℚ)
    (st : SyncLevel ρ) (i : ℕ) (c : IntVect) (sigma : ℕ)
    (hs : sigma < cfg.NUM_STATE - cfg.BL_SPACEDIM) (hval : st.S_new.inValid i c = true) :
    (mac_sync_reflux ops cfg dt st).S_new.data i c (cfg.BL_SPACEDIM + sigma) =
      st.S_new.data i c (cfg.BL_SPACEDIM + sigma)
        + (mac_sync_reflux ops cfg dt st).Ssync.data i c sigma := by
  unfold mac_sync_reflux
  obtain ⟨i1, i2⟩ := mac_sync_interp_frame ops cfg (mac_sync_add ops cfg (mac_sync_readd cfg
    (mac_sync_viscous ops cfg dt (mac_sync_velocity ops cfg dt
      (mac_sync_subtract cfg (mac_sync_scale ops dt st))))))
  obtain ⟨a1, a2⟩ := mac_sync_add_frame ops cfg (mac_sync_readd cfg
    (mac_sync_viscous ops cfg dt (mac_sync_velocity ops cfg dt
      (mac_sync_subtract cfg (mac_sync_scale ops dt st)))))
  obtain ⟨v1, _, _, _⟩ := foldl_viscous ops cfg dt
    (List.range (cfg.NUM_STATE - cfg.BL_SPACEDIM)) (List.nodup_range _)
    (mac_sync_velocity ops cfg dt (mac_sync_subtract cfg (mac_sync_scale ops dt st)))
  obtain ⟨w1, _, _⟩ := mac_sync_velocity_frame ops cfg dt
    (mac_sync_subtract cfg (mac_sync_scale ops dt st))
  have hS : (mac_sync_readd cfg (mac_sync_viscous ops cfg dt (mac_sync_velocity ops cfg dt
      (mac_sync_subtract cfg (mac_sync_scale ops dt st))))).S_new = st.S_new := by
    show (mac_sync_viscous ops cfg dt _).S_new = st.S_new
    unfold mac_sync_viscous
    rw [v1, w1]
    rfl
  rw [i1, i2, a1, a2, foldl_plus_data _ _ _ (List.nodup_range _), hS]
  simp only [hval, List.mem_range, hs, and_self, if_true]

theorem mac_sync_subtract_field {ρ : Type} (ops : SyncOps ρ) (cfg : Config) (dt : ℚ)
    (st : SyncLevel ρ) (sigma : ℕ) (hs : sigma < cfg.NUM_STATE - cfg.BL_SPACEDIM)
    (hq : isConservedScalar cfg (cfg.BL_SPACEDIM + sigma) = true)
    (hD : cfg.BL_SPACEDIM ≤ cfg.Density) :
    (fun j b => (mac_sync_subtract cfg (mac_sync_scale ops dt st)).Ssync.data j b sigma) =
      fun j b => dt * (ops.mac_sync_compute dt st).2.1 j b sigma
        - (if st.S_new.inValid j b = true
            then deltaRhoQ cfg dt st.S_new (ops.mac_sync_compute dt st).2.1
              (cfg.BL_SPACEDIM + sigma) j b
            else 0) := by
  have hscale : ∀ j b n, (mac_sync_scale ops dt st).Ssync.data j b n
      = dt * (ops.mac_sync_compute dt st).2.1 j b n := by
    intro j b n
    simp only [mac_sync_scale, MultiFab.mult]
    ring
  funext j b
  by_cases hval : st.S_new.inValid j b = true
  · have hsplit := range'_split cfg.BL_SPACEDIM cfg.NUM_STATE (cfg.BL_SPACEDIM + sigma)
      (Nat.le_add_right _ _) (by omega)
    have hmain := foldl_deltaSsync_at cfg st.S_new
      (List.range' cfg.BL_SPACEDIM (cfg.BL_SPACEDIM + sigma - cfg.BL_SPACEDIM))
      (List.range' (cfg.BL_SPACEDIM + sigma + 1)
        (cfg.NUM_STATE - (cfg.BL_SPACEDIM + sigma) - 1)) (cfg.BL_SPACEDIM + sigma)
      (-1, (mac_sync_scale ops dt st).Ssync, (mac_sync_scale ops dt st).DeltaSsync) j b hq hD
      (Nat.le_add_right _ _)
      (fun y hy => by have := List.mem_range'_1.mp hy; omega)
      (fun y hy => by have := List.mem_range'_1.mp hy; omega)
      (le_refl _) hval
    rw [← hsplit, Nat.add_sub_cancel_left] at hmain
    have h2 := hmain.2
    simp only [hscale] at h2
    simp only [hval, if_true, deltaRhoQ]
    exact h2
  · have hval' : st.S_new.inValid j b = false := by simpa using hval
    have h := foldl_deltaSsync_invalid cfg st.S_new
      (List.range' cfg.BL_SPACEDIM (cfg.NUM_STATE - cfg.BL_SPACEDIM))
      (-1, (mac_sync_scale ops dt st).Ssync, (mac_sync_scale ops dt st).DeltaSsync) j b sigma
      hval'
    simp only [hscale] at h
    simp only [hval', Bool.false_eq_true, if_false, sub_zero]
    exact h

theorem mac_sync_reflux_Ssync_conserved {ρ : Type} (ops : SyncOps ρ) (cfg : Config) (dt : ℚ)
    (st : SyncLevel ρ) (i : ℕ) (c : IntVect) (sigma : ℕ)
    (hs : sigma < cfg.NUM_STATE - cfg.BL_SPACEDIM)
    (hq : isConservedScalar cfg (cfg.BL_SPACEDIM + sigma) = true)
    (hD : cfg.BL_SPACEDIM ≤ cfg.Density)
    (hval : st.S_new.inValid i c = true) (hvalS : st.Ssync.inValid i c = true) :
    (mac_sync_reflux ops cfg dt st).Ssync.data i c sigma =
      viscousSync ops cfg dt st.S_new sigma
        (fun j b => (mac_sync_subtract cfg (mac_sync_scale ops dt st)).Ssync.data j b sigma) i c
      + deltaRhoQ cfg dt st.S_new (ops.mac_sync_compute dt st).2.1
          (cfg.BL_SPACEDIM + sigma) i c := by
  unfold mac_sync_reflux
  obtain ⟨_, i2⟩ := mac_sync_interp_frame ops cfg (mac_sync_add ops cfg (mac_sync_readd cfg
    (mac_sync_viscous ops cfg dt (mac_sync_velocity ops cfg dt
      (mac_sync_subtract cfg (mac_sync_scale ops dt st))))))
  obtain ⟨a1, _⟩ := mac_sync_add_frame ops cfg (mac_sync_readd cfg
    (mac_sync_viscous ops cfg dt (mac_sync_velocity ops cfg dt
      (mac_sync_subtract cfg (mac_sync_scale ops dt st)))))
  obtain ⟨v1, v2, v3, v4⟩ := foldl_viscous ops cfg dt
    (List.range (cfg.NUM_STATE - cfg.BL_SPACEDIM)) (List.nodup_range _)
    (mac_sync_velocity ops cfg dt (mac_sync_subtract cfg (mac_sync_scale ops dt st)))
  obtain ⟨w1, w2, w3⟩ := mac_sync_velocity_frame ops cfg dt
    (mac_sync_subtract cfg (mac_sync_scale ops dt st))
  rw [i2, a1]
  have hscale : ∀ j b n, (mac_sync_scale ops dt st).Ssync.data j b n
      = dt * (ops.mac_sync_compute dt st).2.1 j b n := by
    intro j b n
    simp only [mac_sync_scale, MultiFab.mult]
    ring
  have hsplit := range'_split cfg.BL_SPACEDIM cfg.NUM_STATE (cfg.BL_SPACEDIM + sigma)
    (Nat.le_add_right _ _) (by omega)
  have hgrids : (mac_sync_viscous ops cfg dt (mac_sync_velocity ops cfg dt
      (mac_sync_subtract cfg (mac_sync_scale ops dt st)))).Ssync.grids = st.Ssync.grids := by
    unfold mac_sync_viscous
    rw [v3, w2]
    exact foldl_deltaSsync_grids cfg _ _ _
  have hre := foldl_readd_at cfg
    (mac_sync_viscous ops cfg dt (mac_sync_velocity ops cfg dt
      (mac_sync_subtract cfg (mac_sync_scale ops dt st)))).DeltaSsync
    (List.range' cfg.BL_SPACEDIM (cfg.BL_SPACEDIM + sigma - cfg.BL_SPACEDIM))
    (List.range' (cfg.BL_SPACEDIM + sigma + 1)
      (cfg.NUM_STATE - (cfg.BL_SPACEDIM + sigma) - 1)) (cfg.BL_SPACEDIM + sigma)
    (-1, (mac_sync_viscous ops cfg dt (mac_sync_velocity ops cfg dt
      (mac_sync_subtract cfg (mac_sync_scale ops dt st)))).Ssync) i c hq
    (Nat.le_add_right _ _)
    (fun y hy => by have := List.mem_range'_1.mp hy; omega)
    (fun y hy => by have := List.mem_range'_1.mp hy; omega)
    (by rw [inValid_of_grids _ _ hgrids]; exact hvalS)
  rw [← hsplit, Nat.add_sub_cancel_left] at hre
  have hdel := (foldl_deltaSsync_at cfg st.S_new
    (List.range' cfg.BL_SPACEDIM (cfg.BL_SPACEDIM + sigma - cfg.BL_SPACEDIM))
    (List.range' (cfg.BL_SPACEDIM + sigma + 1)
      (cfg.NUM_STATE - (cfg.BL_SPACEDIM + sigma) - 1)) (cfg.BL_SPACEDIM + sigma)
    (-1, (mac_sync_scale ops dt st).Ssync, (mac_sync_scale ops dt st).DeltaSsync) i c hq hD
    (Nat.le_add_right _ _)
    (fun y hy => by have := List.mem_range'_1.mp hy; omega)
    (fun y hy => by have := List.mem_range'_1.mp hy; omega)
    (le_refl _) hval).1
  rw [← hsplit] at hdel
  simp only [hscale, Nat.add_sub_cancel_left] at hdel
  have hΔ : (mac_sync_viscous ops cfg dt (mac_sync_velocity ops cfg dt
      (mac_sync_subtract cfg (mac_sync_scale ops dt st)))).DeltaSsync
      = (mac_sync_subtract cfg (mac_sync_scale ops dt st)).DeltaSsync := by
    unfold mac_sync_viscous
    rw [v2, w3]
  have hV : (mac_sync_viscous ops cfg dt (mac_sync_velocity ops cfg dt
      (mac_sync_subtract cfg (mac_sync_scale ops dt st)))).Ssync.data i c sigma
      = viscousSync ops cfg dt st.S_new sigma
        (fun j b => (mac_sync_subtract cfg (mac_sync_scale ops dt st)).Ssync.data j b sigma)
        i c := by
    unfold mac_sync_viscous
    rw [v4 i c sigma, w1, w2]
    simp only [List.mem_range, hs, true_and, viscousSync]
    split_ifs <;> rfl
  have hfinal : (mac_sync_readd cfg (mac_sync_viscous ops cfg dt (mac_sync_velocity ops cfg dt
      (mac_sync_subtract cfg (mac_sync_scale ops dt st))))).Ssync.data i c sigma
      = (mac_sync_viscous ops cfg dt (mac_sync_velocity ops cfg dt
          (mac_sync_subtract cfg (mac_sync_scale ops dt st)))).Ssync.data i c sigma
        + (mac_sync_subtract cfg (mac_sync_scale ops dt st)).DeltaSsync.data i c
          ((-1 : ℤ) + 1 + ((List.range' cfg.BL_SPACEDIM sigma).countP
              (isConservedScalar cfg) : ℤ)).toNat := by
    rw [← hΔ]
    exact hre
  have hdel' : (mac_sync_subtract cfg (mac_sync_scale ops dt st)).DeltaSsync.data i c
      ((-1 : ℤ) + 1 + ((List.range' cfg.BL_SPACEDIM sigma).countP
        (isConservedScalar cfg) : ℤ)).toNat
      = deltaRhoQ cfg dt st.S_new (ops.mac_sync_compute dt st).2.1
          (cfg.BL_SPACEDIM + sigma) i c := hdel
  rw [hfinal, hV, hdel']

/-- C6: in `mac_sync` with `do_reflux` set, at every valid cell the new-time
state of a conservative scalar other than the density ends as
`S_new_before + D(dt * Ssync_computed - DeltaSsync) + DeltaSsync`, `D` being
the viscous sync of that component (`viscousSync`) and `DeltaSsync` the amount
`deltaRhoQ`, subtracted on the valid cells; and every scalar component `sigma`
in `[0, NUM_STATE - BL_SPACEDIM)` receives one addition of its final
`Ssync[sigma]` into `S_new[BL_SPACEDIM + sigma]`. -/
theorem mac_sync_strict_ordering {ρ : Type} (ops : SyncOps ρ) (cfg : Config) (dt : ℚ)
    (st : SyncLevel ρ) (hr : cfg.do_reflux = true) (hD : cfg.BL_SPACEDIM ≤ cfg.Density)
    (i : ℕ) (c : IntVect) (hval : st.S_new.inValid i c = true)
    (hvalS : st.Ssync.inValid i c = true) :
    (∀ sigma, sigma < cfg.NUM_STATE - cfg.BL_SPACEDIM →
      cfg.BL_SPACEDIM + sigma ≠ cfg.Density →
      cfg.advectionType (cfg.BL_SPACEDIM + sigma) = .Conservative →
      (mac_sync ops cfg dt st).S_new.data i c (cfg.BL_SPACEDIM + sigma) =
        st.S_new.data i c (cfg.BL_SPACEDIM + sigma)
        + viscousSync ops cfg dt st.S_new sigma
            (fun j b =>
              dt * (ops.mac_sync_compute dt (mac_sync_entry ops cfg dt st)).2.1 j b sigma
              - (if st.S_new.inValid j b = true
                  then deltaRhoQ cfg dt st.S_new
                    (ops.mac_sync_compute dt (mac_sync_entry ops cfg dt st)).2.1
                    (cfg.BL_SPACEDIM + sigma) j b
                  else 0)) i c
        + deltaRhoQ cfg dt st.S_new
            (ops.mac_sync_compute dt (mac_sync_entry ops cfg dt st)).2.1
            (cfg.BL_SPACEDIM + sigma) i c) ∧
    (∀ sigma, sigma < cfg.NUM_STATE - cfg.BL_SPACEDIM →
      (mac_sync ops cfg dt st).S_new.data i c (cfg.BL_SPACEDIM + sigma) =
        st.S_new.data i c (cfg.BL_SPACEDIM + sigma)
          + (mac_sync ops cfg dt st).Ssync.data i c sigma) := by
  have hS : ∀ sigma, sigma < cfg.NUM_STATE - cfg.BL_SPACEDIM →
      (mac_sync ops cfg dt st).S_new.data i c (cfg.BL_SPACEDIM + sigma) =
        st.S_new.data i c (cfg.BL_SPACEDIM + sigma)
          + (mac_sync ops cfg dt st).Ssync.data i c sigma := by
    intro sigma hs
    have h := mac_sync_reflux_S_new ops cfg dt (mac_sync_entry ops cfg dt st) i c sigma hs hval
    simp only [mac_sync, hr, if_true]
    exact h
  refine ⟨?_, hS⟩
  intro sigma hs hne hcons
  have hq : isConservedScalar cfg (cfg.BL_SPACEDIM + sigma) = true := by
    simp [isConservedScalar, hne, hcons]
  rw [hS sigma hs, add_assoc]
  congr 1
  have h := mac_sync_reflux_Ssync_conserved ops cfg dt (mac_sync_entry ops cfg dt st) i c
    sigma hs hq hD hval hvalS
  rw [mac_sync_subtract_field ops cfg dt (mac_sync_entry ops cfg dt st) sigma hs hq hD] at h
  simp only [mac_sync, hr, if_true]
  exact h

/-- Witness of C5: on the sample level with `dt = 1/2` the tracer (state
component `3`) has `DeltaSsync = 4 / 2 * (1/2 * 3) = 3`, and its `Ssync`
becomes `1/2 * 5 - 3`. -/
theorem deltaSsync_formed_witness :
    (mac_sync_subtract syncCfg (mac_sync_scale sampleSyncOps (1 / 2) sampleSyncLevel)).DeltaSsync.data
        0 [1, 1] 0 = 3 ∧
    (mac_sync_subtract syncCfg (mac_sync_scale sampleSyncOps (1 / 2) sampleSyncLevel)).Ssync.data
        0 [1, 1] 1 = -1 / 2 :=
  have h := deltaSsync_formed sampleSyncOps syncCfg (1 / 2) sampleSyncLevel 3
    (by decide) (by decide) (by decide) rfl (by decide) 0 [1, 1] (by decide)
  ⟨h.1.trans (by norm_num [sampleSyncLevel, sampleSyncOps, syncCfg, coarseCfg, sampleCfg]),
    h.2.1.trans (by norm_num [sampleSyncLevel, sampleSyncOps, syncCfg, coarseCfg, sampleCfg])⟩

/-- Witness of C6: on the sample level with `dt = 1/2` and a viscous sync that
doubles, the tracer ends at `4 + 2 * (1/2 * 5 - 3) + 3 = 6`. -/
theorem mac_sync_strict_ordering_witness :
    (mac_sync sampleSyncOps syncCfg (1 / 2) sampleSyncLevel).S_new.data 0 [1, 1] 3 = 6 :=
  ((mac_sync_strict_ordering sampleSyncOps syncCfg (1 / 2) sampleSyncLevel rfl (by decide)
    0 [1, 1] (by decide) (by decide)).1 1 (by decide) (by decide) rfl).trans (by
      have hv : MultiFab.inValid ⟨[⟨[0, 0], [3, 3]⟩], 1, fun _ _ n => if n = 2 then (2 : ℚ) else 4⟩
          0 [1, 1] = true := by decide
      simp only [viscousSync, deltaRhoQ]
      norm_num [sampleSyncLevel, sampleSyncOps, syncCfg, coarseCfg, sampleCfg,
        mac_sync_entry, hv])

/-! ## `SyncRegister::InitRHS` -/

theorem recordOutflow_foldlM_isSome (D : ℕ) (phys_bc : BCRec) (l : List ℕ)
    (acc : List ℤ × ℕ) (h : acc.2 + l.countP (isOutflowDir phys_bc) ≤ D - 1) :
    ∃ r, l.foldlM
      (fun (acc : List ℤ × ℕ) dir =>
        if phys_bc.lo dir = Outflow ∨ phys_bc.hi dir = Outflow then
          if acc.2 < D - 1 then some (acc.1.set acc.2 (dir : ℤ), acc.2 + 1) else none
        else some acc) acc = some r := by
  induction l generalizing acc with
  | nil => exact ⟨acc, rfl⟩
  | cons d t ih =>
    simp only [List.foldlM_cons]
    by_cases hd : phys_bc.lo d = Outflow ∨ phys_bc.hi d = Outflow
    · have hq : isOutflowDir phys_bc d = true := by simp [isOutflowDir, hd]
      rw [List.countP_cons_of_pos _ _ hq] at h
      have hlt : acc.2 < D - 1 := by omega
      simp only [hd, if_true, hlt, Option.some_bind, Option.bind_eq_bind]
      exact ih (acc.1.set acc.2 (d : ℤ), acc.2 + 1) (by simp only; omega)
    · have hq : ¬ isOutflowDir phys_bc d = true := by simp [isOutflowDir, hd]
      rw [List.countP_cons_of_neg _ _ hq] at h
      simp only [hd, if_false, Option.some_bind, Option.bind_eq_bind]
      exact ih acc h

theorem recordOutflow_isSome (D : ℕ) (phys_bc : BCRec)
    (h : (List.range D).countP (isOutflowDir phys_bc) ≤ D - 1) :
    ∃ r, recordOutflow D phys_bc = some r :=
  recordOutflow_foldlM_isSome D phys_bc (List.range D) _ (by simpa using h)

theorem copyTo_fold_shape (ops : SyncRegOps) (geom : Geometry) (bndry : ℕ → FabSet)
    (ngrow : ℕ) (l : List ℕ) (rhs : MultiFab) :
    (l.foldl (fun rhs face =>
        { rhs with data := ops.copyTo (bndry face) rhs ngrow (some geom) }) rhs).grids
      = rhs.grids ∧
    (l.foldl (fun rhs face =>
        { rhs with data := ops.copyTo (bndry face) rhs ngrow (some geom) }) rhs).nGrow
      = rhs.nGrow := by
  induction l generalizing rhs with
  | nil => exact ⟨rfl, rfl⟩
  | cons f t ih =>
    simp only [List.foldl_cons]
    obtain ⟨h1, h2⟩ := ih { rhs with data := ops.copyTo (bndry f) rhs ngrow (some geom) }
    exact ⟨h1, h2⟩

theorem multiplyByMasks_shape (ops : SyncRegOps) (D : ℕ) (mask : ℕ → FabSet)
    (rhs : MultiFab) :
    (multiplyByMasks ops D mask rhs).grids = rhs.grids ∧
    (multiplyByMasks ops D mask rhs).nGrow = rhs.nGrow := by
  unfold multiplyByMasks
  generalize List.range (2 * D) = l
  induction l generalizing rhs with
  | nil => exact ⟨rfl, rfl⟩
  | cons f t ih =>
    simp only [List.foldl_cons]
    obtain ⟨h1, h2⟩ := ih _
    exact ⟨h1, h2⟩

/-- The result of `InitRHS` is a function of the grids and boundary registers
of the register, of the boxes of its masks and of the boxes and ghost width of
`rhs`. -/
theorem InitRHS_congr (ops : SyncRegOps) (D : ℕ) (reg reg2 : SyncRegister)
    (rhs rhs2 : MultiFab) (geom : Geometry) (phys_bc : BCRec)
    (hg : reg2.grids = reg.grids) (hb : reg2.bndry = reg.bndry)
    (hm : ∀ f, (reg2.bndry_mask f).boxes = (reg.bndry_mask f).boxes)
    (hrg : rhs2.grids = rhs.grids) (hrn : rhs2.nGrow = rhs.nGrow) :
    InitRHS ops D reg2 rhs2 geom phys_bc =
      (InitRHS ops D reg rhs geom phys_bc).map
        (fun p => ({ reg2 with bndry_mask := p.1.bndry_mask }, p.2)) := by
  obtain ⟨g, n, d⟩ := rhs
  obtain ⟨g2, n2, d2⟩ := rhs2
  obtain ⟨rg, rr, rb, rm⟩ := reg
  obtain ⟨rg2, rr2, rb2, rm2⟩ := reg2
  simp only at hg hb hm hrg hrn
  subst hg hb hrg hrn
  unfold InitRHS
  simp only [hm]
  cases recordOutflow D phys_bc with
  | none => rfl
  | some r => rfl

/-- Mask idempotence where the outflow directions fit `outflow_dirs`: with an
outflow boundary in at most `BL_SPACEDIM-1` directions, `InitRHS` returns, a
second run on its results returns the same register and the same `rhs`, and
the `rhs` and masks it leaves are the same for any other incoming contents of
`rhs` and of `bndry_mask`. -/
theorem InitRHS_idempotent (ops : SyncRegOps) (D : ℕ) (reg : SyncRegister) (rhs : MultiFab)
    (geom : Geometry) (phys_bc : BCRec)
    (hout : (List.range D).countP (isOutflowDir phys_bc) ≤ D - 1) :
    ∃ reg' rhs', InitRHS ops D reg rhs geom phys_bc = some (reg', rhs') ∧
      InitRHS ops D reg' rhs' geom phys_bc = some (reg', rhs') ∧
      ∀ (reg2 : SyncRegister) (rhs2 : MultiFab), reg2.grids = reg.grids →
        reg2.bndry = reg.bndry →
        (∀ f, (reg2.bndry_mask f).boxes = (reg.bndry_mask f).boxes) →
        rhs2.grids = rhs.grids → rhs2.nGrow = rhs.nGrow →
        ∃ reg2', InitRHS ops D reg2 rhs2 geom phys_bc = some (reg2', rhs') ∧
          reg2'.bndry_mask = reg'.bndry_mask := by
  obtain ⟨r, hr⟩ := recordOutflow_isSome D phys_bc hout
  have hsome : ∃ p, InitRHS ops D reg rhs geom phys_bc = some p := by
    unfold InitRHS
    rw [hr]
    exact ⟨_, rfl⟩
  obtain ⟨⟨reg', rhs'⟩, hp⟩ := hsome
  have hshape : reg'.grids = reg.grids ∧ reg'.bndry = reg.bndry ∧
      (∀ f, (reg'.bndry_mask f).boxes = (reg.bndry_mask f).boxes) ∧
      rhs'.grids = rhs.grids ∧ rhs'.nGrow = rhs.nGrow := by
    have hp' := hp
    unfold InitRHS at hp'
    rw [hr] at hp'
    simp only [Option.some_bind, Option.some.injEq, Prod.mk.injEq] at hp'
    obtain ⟨h1, h2⟩ := hp'
    subst h1 h2
    refine ⟨rfl, rfl, fun f => rfl, ?_, ?_⟩
    · rw [(multiplyByMasks_shape ops D _ _).1]
      by_cases h0 : 0 < r.2
      · simp only [h0, if_true]
        exact (copyTo_fold_shape ops geom reg.bndry rhs.nGrow _ _).1
      · simp only [h0, if_false]
        exact (copyTo_fold_shape ops geom reg.bndry rhs.nGrow _ _).1
    · rw [(multiplyByMasks_shape ops D _ _).2]
      by_cases h0 : 0 < r.2
      · simp only [h0, if_true]
        exact (copyTo_fold_shape ops geom reg.bndry rhs.nGrow _ _).2
      · simp only [h0, if_false]
        exact (copyTo_fold_shape ops geom reg.bndry rhs.nGrow _ _).2
  refine ⟨reg', rhs', hp, ?_, ?_⟩
  · rw [InitRHS_congr ops D reg reg' rhs rhs' geom phys_bc hshape.1 hshape.2.1 hshape.2.2.1
      hshape.2.2.2.1 hshape.2.2.2.2, hp]
    simp only [Option.map_some']
  · intro reg2 rhs2 hg hb hm hrg hrn
    refine ⟨{ reg2 with bndry_mask := reg'.bndry_mask }, ?_, rfl⟩
    rw [InitRHS_congr ops D reg reg2 rhs rhs2 geom phys_bc hg hb hm hrg hrn, hp]
    rfl

/-- C4 (the code at the failing input): in two dimensions with an `Outflow`
boundary in both directions the loop of `InitRHS` writes `outflow_dirs[1]`,
past the one entry of the array, so `InitRHS` has no defined result, whatever
the register, `rhs` and geometry are. -/
theorem InitRHS_all_outflow (ops : SyncRegOps) (reg : SyncRegister) (rhs : MultiFab)
    (geom : Geometry) :
    recordOutflow 2 (sampleBC 1 Outflow) = none ∧
    InitRHS ops 2 reg rhs geom (sampleBC 1 Outflow) = none := by
  have h : recordOutflow 2 (sampleBC 1 Outflow) = none := by decide
  refine ⟨h, ?_⟩
  unfold InitRHS
  rw [h]
  rfl

/-- The sample register with one outflow direction: `InitRHS` returns, and a
second run returns the same. -/
theorem InitRHS_idempotent_sample :
    ∃ reg' rhs',
      InitRHS sampleRegOps 2 sampleReg (constMF 5) sampleGeom
        ⟨fun d => if d = 0 then 1 else 5, fun d => if d = 0 then Outflow else 5⟩
        = some (reg', rhs') ∧
      InitRHS sampleRegOps 2 reg' rhs' sampleGeom
        ⟨fun d => if d = 0 then 1 else 5, fun d => if d = 0 then Outflow else 5⟩
        = some (reg', rhs') := by
  obtain ⟨reg', rhs', h1, h2, _⟩ := InitRHS_idempotent sampleRegOps 2 sampleReg (constMF 5)
    sampleGeom ⟨fun d => if d = 0 then 1 else 5, fun d => if d = 0 then Outflow else 5⟩
    (by decide)
  exact ⟨reg', rhs', h1, h2⟩

/-! ## The frame of the underflow floor -/

theorem floorSmall_of_gt (v : ℚ) (h : |v| > floorThreshold) : floorSmall v = v := by
  unfold floorSmall
  rw [if_pos h]

theorem floorStates_of_gt (mf : MultiFab) (ng ncomp i : ℕ) (c : IntVect) (n : ℕ)
    (h : |mf.data i c n| > floorThreshold) :
    (floorStates mf ng ncomp).data i c n = mf.data i c n := by
  simp only [floorStates]
  split_ifs
  · exact floorSmall_of_gt _ h
  · rfl

/-- The underflow floor alters no value above the threshold: every velocity
value of `predict_velocity` and every scalar value of `scalar_advection` whose
filled value `v` has `|v| > 1e-20` is in the floored state unchanged. -/
theorem underflow_floor_frame {σ : Type} (ops : LevelOps σ) (cfg : Config)
    (fscalar lscalar : ℕ) (s : σ) :
    (∀ i c n, |ops.FillPatchIterator s cfg.hypgrow 0 cfg.BL_SPACEDIM i c n| > floorThreshold →
      (predict_velocity_Umf ops cfg s).data i c n
        = ops.FillPatchIterator s cfg.hypgrow 0 cfg.BL_SPACEDIM i c n) ∧
    (∀ i c n,
      |ops.FillPatchIterator s cfg.hypgrow fscalar (lscalar + 1 - fscalar) i c n|
        > floorThreshold →
      (scalar_advection_Smf ops cfg fscalar lscalar s).data i c n
        = ops.FillPatchIterator s cfg.hypgrow fscalar (lscalar + 1 - fscalar) i c n) := by
  constructor
  · intro i c n h
    exact floorStates_of_gt ⟨cfg.grids, cfg.hypgrow,
      ops.FillPatchIterator s cfg.hypgrow 0 cfg.BL_SPACEDIM⟩ cfg.hypgrow cfg.BL_SPACEDIM i c n h
  · intro i c n h
    exact floorStates_of_gt ⟨cfg.grids, cfg.hypgrow,
      ops.FillPatchIterator s cfg.hypgrow fscalar (lscalar + 1 - fscalar)⟩ cfg.hypgrow
      (lscalar + 1 - fscalar) i c n h

/-- The rational `1e-20`, which is the value of no double, is at the threshold
and is replaced by zero: a statement about the values of magnitude at least
`1e-20` needs them to be doubles. -/
theorem underflow_floor_zeroes_threshold :
    |(sampleOps (1 / 10 ^ 20) 1).FillPatchIterator () 1 0 2 0 [0, 0] 0| ≥ floorThreshold ∧
    (predict_velocity_Umf (sampleOps (1 / 10 ^ 20) 1) (sampleCfg 1) ()).data 0 [0, 0] 0 = 0 ∧
    (sampleOps (1 / 10 ^ 20) 1).FillPatchIterator () 1 0 2 0 [0, 0] 0 ≠ 0 := by
  have hin : MultiFab.inGrown ⟨(sampleCfg 1).grids, (sampleCfg 1).hypgrow,
      (sampleOps (1 / 10 ^ 20) 1).FillPatchIterator () (sampleCfg 1).hypgrow 0
        (sampleCfg 1).BL_SPACEDIM⟩ (sampleCfg 1).hypgrow 0 [0, 0] = true := by decide
  have habs : |(1 / 10 ^ 20 : ℚ)| = 1 / 10 ^ 20 := abs_of_pos (by norm_num)
  refine ⟨?_, ?_, ?_⟩
  · simp only [sampleOps, if_true, habs, floorThreshold]
    exact le_refl _
  · simp only [predict_velocity_Umf, floorStates, hin, Bool.true_and]
    simp only [sampleOps, sampleCfg, if_true, floorSmall, habs, floorThreshold]
    norm_num
  · simp only [sampleOps, if_true]
    norm_num

/-- On the sample level the first velocity component, filled with `1`, is in
the floored state as `1`, and so is a scalar filled with `1`. -/
theorem underflow_floor_frame_sample :
    (predict_velocity_Umf (sampleOps 1 (1 / 10 ^ 21)) (sampleCfg 1) ()).data 0 [0, 0] 0 = 1 ∧
    (scalar_advection_Smf (sampleOps 1 (1 / 10 ^ 21)) (sampleCfg 1) 2 3 ()).data 0 [0, 0] 0
      = 1 :=
  have hbig : |(1 : ℚ)| > floorThreshold := by
    rw [abs_one]
    norm_num [floorThreshold]
  have h := underflow_floor_frame (sampleOps 1 (1 / 10 ^ 21)) (sampleCfg 1) 2 3 ()
  ⟨h.1 0 [0, 0] 0 hbig, h.2 0 [0, 0] 0 hbig⟩

theorem scalar_update_eq {σ : Type} (ops : LevelOps σ) (cfg : Config) (dt : ℚ)
    (first_scalar last_scalar : ℕ) (s : σ) :
    scalar_update ops cfg dt first_scalar last_scalar s =
      if (List.range' first_scalar (last_scalar + 1 - first_scalar)).any
        (ops.contains_nan (scalar_update_state ops cfg dt first_scalar last_scalar s))
      then none else some (scalar_update_state ops cfg dt first_scalar last_scalar s) := by
  simp only [scalar_update, scalar_update_state]

theorem advance_eq_bind {σ : Type} (ops : LevelOps σ) (cfg : Config) (time dt : ℚ)
    (iteration ncycle : ℤ) (s0 : σ) :
    ∃ fin : σ → Option (σ × XReal), (∀ s, ∃ p, fin s = some p) ∧
      advance ops cfg time dt iteration ncycle s0 =
        (scalar_update ops cfg dt cfg.Density cfg.Density
          (advance_before_density ops cfg time dt iteration ncycle s0)).bind (fun s1 =>
          (if cfg.do_scalar_update_in_order = true then
              scalar_update_in_order ops cfg dt cfg.Density (List.range (cfg.NUM_SCALARS - 1))
                (advance_before_updates ops cfg dt s1)
            else scalar_update ops cfg dt (cfg.Density + 1) (cfg.Density + cfg.NUM_SCALARS - 1)
              (advance_before_updates ops cfg dt s1)).bind fin) :=
  ⟨_, fun _ => ⟨_, rfl⟩, rfl⟩

theorem scalar_update_in_order_append {σ : Type} (ops : LevelOps σ) (cfg : Config) (dt : ℚ)
    (first : ℕ) (pre post : List ℕ) (s : σ) :
    scalar_update_in_order ops cfg dt first (pre ++ post) s =
      (scalar_update_in_order ops cfg dt first pre s).bind
        (scalar_update_in_order ops cfg dt first post) := by
  induction pre generalizing s with
  | nil => rfl
  | cons a t ih =>
    simp only [List.cons_append, scalar_update_in_order]
    cases h : scalar_update ops cfg dt (first + cfg.scalarUpdateOrder a)
        (first + cfg.scalarUpdateOrder a) s with
    | none => rfl
    | some s1 => exact ih s1

/-- C12 (amended): whenever, after the advective and diffusive update in
`scalar_update`, some new-time scalar component in `[first_scalar,
last_scalar]` contains a NaN in a valid cell, `scalar_update` ends the run
instead of returning; when no component contains a NaN it returns the updated
state.  An `advance` one of whose calls of `scalar_update` ends the run, the
one for the density, the one for the other scalars, or any of the ordered
ones, ends there and makes none of its later calls; and it ends nowhere
else. -/
theorem scalar_update_nan_fatal {σ : Type} (ops : LevelOps σ) (cfg : Config) (dt : ℚ)
    (first_scalar last_scalar : ℕ) (s : σ) :
    ((∃ sigma, first_scalar ≤ sigma ∧ sigma ≤ last_scalar ∧
        ops.contains_nan (scalar_update_state ops cfg dt first_scalar last_scalar s) sigma
          = true) →
      scalar_update ops cfg dt first_scalar last_scalar s = none) ∧
    ((∀ sigma, first_scalar ≤ sigma → sigma ≤ last_scalar →
        ops.contains_nan (scalar_update_state ops cfg dt first_scalar last_scalar s) sigma
          = false) →
      scalar_update ops cfg dt first_scalar last_scalar s
        = some (scalar_update_state ops cfg dt first_scalar last_scalar s)) ∧
    (∀ time iteration ncycle s0,
      (scalar_update ops cfg dt cfg.Density cfg.Density
          (advance_before_density ops cfg time dt iteration ncycle s0) = none →
        advance ops cfg time dt iteration ncycle s0 = none) ∧
      (∀ s1, scalar_update ops cfg dt cfg.Density cfg.Density
          (advance_before_density ops cfg time dt iteration ncycle s0) = some s1 →
        (cfg.do_scalar_update_in_order = false →
          scalar_update ops cfg dt (cfg.Density + 1) (cfg.Density + cfg.NUM_SCALARS - 1)
            (advance_before_updates ops cfg dt s1) = none →
          advance ops cfg time dt iteration ncycle s0 = none) ∧
        (cfg.do_scalar_update_in_order = true → ∀ pre iComp post sk,
          List.range (cfg.NUM_SCALARS - 1) = pre ++ iComp :: post →
          scalar_update_in_order ops cfg dt cfg.Density pre
            (advance_before_updates ops cfg dt s1) = some sk →
          scalar_update ops cfg dt (cfg.Density + cfg.scalarUpdateOrder iComp)
            (cfg.Density + cfg.scalarUpdateOrder iComp) sk = none →
          advance ops cfg time dt iteration ncycle s0 = none)) ∧
      (advance ops cfg time dt iteration ncycle s0 = none →
        scalar_update ops cfg dt cfg.Density cfg.Density
          (advance_before_density ops cfg time dt iteration ncycle s0) = none ∨
        ∃ s1, scalar_update ops cfg dt cfg.Density cfg.Density
            (advance_before_density ops cfg time dt iteration ncycle s0) = some s1 ∧
          (if cfg.do_scalar_update_in_order = true then
              scalar_update_in_order ops cfg dt cfg.Density (List.range (cfg.NUM_SCALARS - 1))
                (advance_before_updates ops cfg dt s1)
            else scalar_update ops cfg dt (cfg.Density + 1) (cfg.Density + cfg.NUM_SCALARS - 1)
              (advance_before_updates ops cfg dt s1)) = none)) := by
  refine ⟨?_, ?_, ?_⟩
  · rintro ⟨sigma, h1, h2, h3⟩
    rw [scalar_update_eq]
    have hany : (List.range' first_scalar (last_scalar + 1 - first_scalar)).any
        (ops.contains_nan (scalar_update_state ops cfg dt first_scalar last_scalar s))
        = true := by
      rw [List.any_eq_true]
      exact ⟨sigma, List.mem_range'_1.mpr (by omega), h3⟩
    rw [if_pos hany]
  · intro h
    rw [scalar_update_eq]
    have hany : ¬ (List.range' first_scalar (last_scalar + 1 - first_scalar)).any
        (ops.contains_nan (scalar_update_state ops cfg dt first_scalar last_scalar s))
        = true := by
      rw [List.any_eq_true]
      rintro ⟨sigma, hm, h3⟩
      have hr := List.mem_range'_1.mp hm
      rw [h sigma hr.1 (by omega)] at h3
      exact Bool.false_ne_true h3
    rw [if_neg hany]
  · intro time iteration ncycle s0
    obtain ⟨fin, hfin, hadv⟩ := advance_eq_bind ops cfg time dt iteration ncycle s0
    refine ⟨?_, ?_, ?_⟩
    · intro h
      rw [hadv, h]
      rfl
    · intro s1 h1
      constructor
      · intro hord h2
        rw [hadv, h1, Option.some_bind, if_neg (by rw [hord]; exact Bool.false_ne_true), h2]
        rfl
      · intro hord pre iComp post sk hsplit hpre hk
        rw [hadv, h1, Option.some_bind, if_pos hord, hsplit, scalar_update_in_order_append, hpre,
          Option.some_bind]
        simp only [scalar_update_in_order, hk, Option.none_bind]
    · intro hnone
      rw [hadv] at hnone
      cases h1 : scalar_update ops cfg dt cfg.Density cfg.Density
          (advance_before_density ops cfg time dt iteration ncycle s0) with
      | none => exact Or.inl rfl
      | some s1 =>
        right
        refine ⟨s1, rfl, ?_⟩
        rw [h1, Option.some_bind] at hnone
        cases h2 : (if cfg.do_scalar_update_in_order = true then
              scalar_update_in_order ops cfg dt cfg.Density (List.range (cfg.NUM_SCALARS - 1))
                (advance_before_updates ops cfg dt s1)
            else scalar_update ops cfg dt (cfg.Density + 1) (cfg.Density + cfg.NUM_SCALARS - 1)
              (advance_before_updates ops cfg dt s1)) with
        | none => rfl
        | some s3 =>
          rw [h2, Option.some_bind] at hnone
          obtain ⟨p, hp⟩ := hfin s3
          rw [hp] at hnone
          exact Option.noConfusion hnone

/-- C12 (as stated, refuted): a new-time density that is `+infinity`, a
non-finite value, passes the test of `scalar_update`, which returns. -/
theorem scalar_update_returns_on_infinity :
    XReal.isFinite (scalar_update_state cellOps (sampleCfg 1) 1 2 2 .pinf) = false ∧
    scalar_update cellOps (sampleCfg 1) 1 2 2 .pinf = some .pinf := by
  constructor
  · rfl
  · rfl

/-- Witness of C12: a new-time density that is a NaN ends the run, and so does
a NaN that the update of the second scalar of the sample level leaves: the
density update returns and `advance` ends at the update after it. -/
theorem scalar_update_nan_fatal_witness :
    scalar_update cellOps (sampleCfg 1) 1 2 2 .nan = none ∧
    scalar_update lateNanOps (sampleCfg 1) 1 2 2
      (advance_before_density lateNanOps (sampleCfg 1) 0 1 1 1 (.fin 1)) = some (.fin 1) ∧
    advance lateNanOps (sampleCfg 1) 0 1 1 1 (.fin 1) = none :=
  ⟨(scalar_update_nan_fatal cellOps (sampleCfg 1) 1 2 2 .nan).1 ⟨2, le_refl _, le_refl _, rfl⟩,
    rfl,
    ((scalar_update_nan_fatal lateNanOps (sampleCfg 1) 1 2 2 (.fin 1)).2.2 0 1 1
      (.fin 1)).2.1 (.fin 1) rfl |>.1 rfl rfl⟩

/-! ## The calls of `advance`, in order -/

theorem foldl_append_singleton {α β : Type} (g : β → α) (l : List β) (s : List α) :
    l.foldl (fun s d => s ++ [g d]) s = s ++ l.map g := by
  induction l generalizing s with
  | nil => simp
  | cons a t ih =>
    simp only [List.foldl_cons, List.map_cons]
    rw [ih]
    simp

theorem scalar_advection_fluxes_trace (nan : List Call → ℕ → Bool) (cfg : Config) (dt : ℚ)
    (fscalar num_scalars : ℕ) (s : List Call) :
    scalar_advection_fluxes (traceOps nan) cfg dt fscalar num_scalars s
      = s ++ fluxCalls cfg dt fscalar num_scalars := by
  unfold scalar_advection_fluxes fluxCalls
  by_cases hr : cfg.do_reflux = true
  · simp only [hr, if_true, traceOps]
    by_cases h1 : 0 < cfg.level <;> by_cases h2 : cfg.level < cfg.finestLevel <;>
      simp [h1, h2, foldl_append_singleton]
  · simp [hr]

theorem scalar_advection_trace (nan : List Call → ℕ → Bool) (cfg : Config) (dt : ℚ)
    (fscalar lscalar : ℕ) (s : List Call) :
    scalar_advection (traceOps nan) cfg dt fscalar lscalar s
      = s ++ (.AdvectScalars dt fscalar (lscalar + 1 - fscalar) ::
          fluxCalls cfg dt fscalar (lscalar + 1 - fscalar)) := by
  unfold scalar_advection
  simp only [scalar_advection_fluxes_trace]
  simp [traceOps]

theorem scalar_update_trace (nan : List Call → ℕ → Bool) (cfg : Config) (dt : ℚ)
    (a b : ℕ) (s s' : List Call)
    (h : scalar_update (traceOps nan) cfg dt a b s = some s') :
    s' = s ++ updateCalls cfg dt a b := by
  rw [scalar_update_eq] at h
  split_ifs at h
  have h' := (Option.some.inj h).symm
  rw [h']
  unfold scalar_update_state updateCalls
  by_cases hd : (List.range' a (b + 1 - a)).any cfg.is_diffusive = true
  · simp [hd, traceOps]
  · simp [hd, traceOps]

theorem scalar_update_in_order_trace (nan : List Call → ℕ → Bool) (cfg : Config) (dt : ℚ)
    (first : ℕ) (l : List ℕ) (s s' : List Call)
    (h : scalar_update_in_order (traceOps nan) cfg dt first l s = some s') :
    s' = s ++ l.flatMap (fun iComp =>
      updateCalls cfg dt (first + cfg.scalarUpdateOrder iComp)
        (first + cfg.scalarUpdateOrder iComp)) := by
  induction l generalizing s with
  | nil =>
    simp only [scalar_update_in_order] at h
    simp [(Option.some.inj h).symm]
  | cons i t ih =>
    simp only [scalar_update_in_order, Option.bind_eq_some] at h
    obtain ⟨s1, h1, h2⟩ := h
    rw [ih s1 h2, scalar_update_trace nan cfg dt _ _ s s1 h1]
    simp

theorem ite_append_self {α : Type} (c : Prop) [Decidable c] (s a : List α) :
    (if c then s ++ a else s) = s ++ if c then a else [] := by
  split_ifs <;> simp

theorem ite_append_both {α : Type} (c : Prop) [Decidable c] (s a b : List α) :
    (if c then s ++ a else s ++ b) = s ++ if c then a else b := by
  split_ifs <;> rfl

/-- The calls a returning `advance` has made are `advanceCalls`, in order. -/
theorem advance_trace (nan : List Call → ℕ → Bool) (cfg : Config) (time dt : ℚ)
    (iteration ncycle : ℤ) (tr0 tr : List Call) (r : XReal)
    (h : advance (traceOps nan) cfg time dt iteration ncycle tr0 = some (tr, r)) :
    tr = tr0 ++ advanceCalls cfg time dt iteration ncycle := by
  simp only [advance, Option.bind_eq_some] at h
  obtain ⟨s1, h1, s2, h2, h3⟩ := h
  have e1 := scalar_update_trace nan cfg dt _ _ _ s1 h1
  rw [scalar_advection_trace] at e1
  have e2 : s2 = (if cfg.do_mom_diff = 1 then s1 ++ [Call.make_rho_curr_time]
        ++ [Call.velocity_advection dt] else s1 ++ [Call.make_rho_curr_time]) ++
      (if cfg.do_scalar_update_in_order then
        (List.range (cfg.NUM_SCALARS - 1)).flatMap (fun iComp =>
          updateCalls cfg dt (cfg.Density + cfg.scalarUpdateOrder iComp)
            (cfg.Density + cfg.scalarUpdateOrder iComp))
      else updateCalls cfg dt (cfg.Density + 1) (cfg.Density + cfg.NUM_SCALARS - 1)) := by
    by_cases ho : cfg.do_scalar_update_in_order = true
    · simp only [ho, if_true] at h2 ⊢
      have := scalar_update_in_order_trace nan cfg dt _ _ _ s2 h2
      rw [this]
      by_cases hm : cfg.do_mom_diff = 1 <;> simp [hm, traceOps]
    · simp only [ho, if_false] at h2 ⊢
      have := scalar_update_trace nan cfg dt _ _ _ s2 h2
      rw [this]
      by_cases hm : cfg.do_mom_diff = 1 <;> simp [hm, traceOps]
  have h3' := (congrArg Prod.fst (Option.some.inj h3)).symm
  simp only at h3'
  rw [h3']
  simp only [traceOps, ite_append_self, ite_append_both, List.append_assoc]
  rw [e2, e1]
  simp only [traceOps, predict_velocity, ite_append_self, ite_append_both, List.append_assoc,
    advanceCalls, advanceCallsStart, advanceCallsEnd, List.cons_append, List.nil_append,
    List.singleton_append]
  by_cases hmac : cfg.do_mac_proj = true <;> by_cases hm1 : cfg.do_mom_diff = 1 <;>
    simp only [hmac, hm1, if_true, if_false, List.cons_append, List.nil_append,
      List.append_assoc, List.singleton_append, Bool.false_eq_true]

theorem fluxCalls_stage (cfg : Config) (dt : ℚ) (fscalar num_scalars : ℕ) (e : Call)
    (he : e ∈ fluxCalls cfg dt fscalar num_scalars) : e.stage = 3 := by
  unfold fluxCalls at he
  split_ifs at he <;>
    simp only [List.mem_append, List.mem_map, List.not_mem_nil, or_false, false_or] at he
  · rcases he with ⟨d, _, rfl⟩ | ⟨d, _, rfl⟩ <;> rfl
  · rcases he with ⟨d, _, rfl⟩
    rfl
  · rcases he with ⟨d, _, rfl⟩
    rfl

theorem updateCalls_stage (cfg : Config) (dt : ℚ) (a b : ℕ) (e : Call)
    (he : e ∈ updateCalls cfg dt a b) : e.stage = 4 := by
  unfold updateCalls at he
  split_ifs at he <;> simp only [List.mem_cons, List.not_mem_nil, or_false] at he
  · rcases he with rfl | rfl <;> rfl
  · rw [he]
    rfl

theorem advanceCallsEnd_stage (cfg : Config) (time dt : ℚ) (iteration ncycle : ℤ) (e : Call)
    (he : e ∈ advanceCallsEnd cfg time dt iteration ncycle) :
    e.stage = 4 ∨ 6 ≤ e.stage := by
  unfold advanceCallsEnd at he
  simp only [List.mem_append] at he
  rcases he with (((he | he) | he) | he) | he
  · left
    split_ifs at he
    · obtain ⟨i, _, hi⟩ := List.mem_flatMap.mp he
      exact updateCalls_stage cfg dt _ _ e hi
    · exact updateCalls_stage cfg dt _ _ e he
  · right
    split_ifs at he <;> simp only [List.mem_cons, List.not_mem_nil, or_false] at he
    · rcases he with rfl | rfl | rfl <;> simp [Call.stage]
    · rcases he with rfl | rfl <;> simp [Call.stage]
    · rw [he]
      simp [Call.stage]
  · right
    simp only [List.mem_singleton] at he
    rw [he]
    simp [Call.stage]
  · right
    split_ifs at he <;>
      simp only [List.mem_append, List.mem_cons, List.not_mem_nil, or_false, false_or,
        or_self] at he
    all_goals (rcases he with (rfl | rfl) | rfl <;> simp [Call.stage])
  · right
    simp only [List.mem_singleton] at he
    rw [he]
    simp [Call.stage]

theorem advanceCallsStart_stage (cfg : Config) (time dt : ℚ) (iteration ncycle : ℤ)
    (e : Call) (he : e ∈ advanceCallsStart cfg time dt iteration ncycle) : e.stage ≤ 4 := by
  unfold advanceCallsStart at he
  simp only [List.mem_append, List.mem_cons, List.not_mem_nil, or_false] at he
  rcases he with (((he | he) | he) | he) | he
  · rcases he with rfl | rfl <;> simp [Call.stage]
  · split_ifs at he <;> simp only [List.mem_cons, List.not_mem_nil, or_false] at he
    rcases he with rfl | rfl <;> simp [Call.stage]
  · split_ifs at he <;> simp only [List.mem_cons, List.not_mem_nil, or_false] at he
    rw [he]
    simp [Call.stage]
  · rcases he with rfl | he
    · simp [Call.stage]
    · rw [fluxCalls_stage cfg dt _ _ e he]
      norm_num
  · rw [updateCalls_stage cfg dt _ _ e he]

theorem stage_of_isVelocityAdvection (e : Call) :
    e.isVelocityAdvection = true ↔ e.stage = 2 := by
  cases e <;> simp [Call.isVelocityAdvection, Call.stage]

theorem stage_of_isMacProjection (e : Call) : e.isMacProjection = true ↔ e.stage = 1 := by
  cases e <;> simp [Call.isMacProjection, Call.stage]

theorem stage_of_isScalarAdvection (e : Call) : e.isScalarAdvection = true ↔ e.stage = 3 := by
  cases e <;> simp [Call.isScalarAdvection, Call.stage]

theorem stage_of_isScalarUpdate (e : Call) : e.isScalarUpdate = true ↔ e.stage = 4 := by
  cases e <;> simp [Call.isScalarUpdate, Call.stage]

theorem bool_false_of_stage {f : Call → Bool} {k : ℕ} (hf : ∀ e, f e = true ↔ e.stage = k)
    (e : Call) (h : e.stage ≠ k) : f e = false := by
  cases hfe : f e
  · rfl
  · exact absurd ((hf e).mp hfe) h

/-- C13: a returning `advance` calls `velocity_advection` exactly once; for
`do_mom_diff == 0` after the MAC projection and before the scalar advection
and every scalar update; for `do_mom_diff == 1` after the update of the
density, the only scalar update before it, and `make_rho_curr_time`, and
before the remaining scalar updates and `velocity_update`. -/
theorem velocity_advection_placement (nan : List Call → ℕ → Bool) (cfg : Config)
    (time dt : ℚ) (iteration ncycle : ℤ) (tr : List Call) (r : XReal)
    (h : advance (traceOps nan) cfg time dt iteration ncycle [] = some (tr, r)) :
    (cfg.do_mom_diff = 0 →
      ∃ pre post, tr = pre ++ Call.velocity_advection dt :: post ∧
        (∀ e, e ∈ pre ++ post → e.isVelocityAdvection = false) ∧
        (cfg.do_mac_proj = true → Call.mac_project time dt ∈ pre) ∧
        (∀ e, e ∈ post → e.isMacProjection = false) ∧
        (∀ e, e ∈ pre → e.isScalarAdvection = false ∧ e.isScalarUpdate = false) ∧
        Call.AdvectScalars dt cfg.Density
          (cfg.Density + cfg.NUM_SCALARS - 1 + 1 - cfg.Density) ∈ post ∧
        Call.scalar_advection_update dt cfg.Density cfg.Density ∈ post) ∧
    (cfg.do_mom_diff = 1 →
      ∃ pre post, tr = pre ++ Call.velocity_advection dt :: post ∧
        (∀ e, e ∈ pre ++ post → e.isVelocityAdvection = false) ∧
        pre.filter Call.isScalarUpdate = updateCalls cfg dt cfg.Density cfg.Density ∧
        Call.scalar_advection_update dt cfg.Density cfg.Density ∈ pre ∧
        Call.make_rho_curr_time ∈ pre ∧
        (∀ e, e ∈ post → e ≠ Call.make_rho_curr_time) ∧
        (∀ e, e ∈ pre → e ≠ Call.velocity_update dt) ∧
        Call.velocity_update dt ∈ post) := by
  have htr := advance_trace nan cfg time dt iteration ncycle [] tr r h
  rw [List.nil_append] at htr
  have hEnd := advanceCallsEnd_stage cfg time dt iteration ncycle
  have hStart := advanceCallsStart_stage cfg time dt iteration ncycle
  have hvu : Call.velocity_update dt ∈ advanceCallsEnd cfg time dt iteration ncycle := by
    unfold advanceCallsEnd
    simp
  constructor
  · intro hmd
    have hne : ¬ cfg.do_mom_diff = 1 := by rw [hmd]; norm_num
    refine ⟨[.advance_setup time dt iteration ncycle, .ExtrapVelToFaces dt] ++
        (if cfg.do_mac_proj then [.create_mac_rhs time dt, .mac_project time dt] else []),
      (.AdvectScalars dt cfg.Density (cfg.Density + cfg.NUM_SCALARS - 1 + 1 - cfg.Density) ::
        fluxCalls cfg dt cfg.Density (cfg.Density + cfg.NUM_SCALARS - 1 + 1 - cfg.Density)) ++
        updateCalls cfg dt cfg.Density cfg.Density ++ [.make_rho_curr_time] ++
        advanceCallsEnd cfg time dt iteration ncycle, ?_, ?_, ?_, ?_, ?_, ?_, ?_⟩
    · rw [htr]
      unfold advanceCalls advanceCallsStart
      simp [hmd]
    · intro e he
      apply bool_false_of_stage stage_of_isVelocityAdvection
      simp only [List.mem_append, List.mem_cons, List.not_mem_nil, or_false] at he
      rcases he with (he | he) | (((he | he) | he) | he)
      · rcases he with rfl | rfl <;> simp [Call.stage]
      · split_ifs at he <;> simp only [List.mem_cons, List.not_mem_nil, or_false] at he
        rcases he with rfl | rfl <;> simp [Call.stage]
      · rcases he with rfl | he
        · simp [Call.stage]
        · rw [fluxCalls_stage cfg dt _ _ e he]
          norm_num
      · rw [updateCalls_stage cfg dt _ _ e he]
        norm_num
      · rw [he]
        simp [Call.stage]
      · rcases hEnd e he with h4 | h6 <;> omega
    · intro hmac
      simp [hmac]
    · intro e he
      apply bool_false_of_stage stage_of_isMacProjection
      simp only [List.mem_append, List.mem_cons, List.not_mem_nil, or_false] at he
      rcases he with ((he | he) | he) | he
      · rcases he with rfl | he
        · simp [Call.stage]
        · rw [fluxCalls_stage cfg dt _ _ e he]
          norm_num
      · rw [updateCalls_stage cfg dt _ _ e he]
        norm_num
      · rw [he]
        simp [Call.stage]
      · rcases hEnd e he with h4 | h6 <;> omega
    · intro e he
      have hst : e.stage ≤ 1 := by
        simp only [List.mem_append, List.mem_cons, List.not_mem_nil, or_false] at he
        rcases he with he | he
        · rcases he with rfl | rfl <;> simp [Call.stage]
        · split_ifs at he <;> simp only [List.mem_cons, List.not_mem_nil, or_false] at he
          rcases he with rfl | rfl <;> simp [Call.stage]
      exact ⟨bool_false_of_stage stage_of_isScalarAdvection e (by omega),
        bool_false_of_stage stage_of_isScalarUpdate e (by omega)⟩
    · simp
    · simp [updateCalls]
  · intro hmd
    have hne : ¬ cfg.do_mom_diff = 0 := by rw [hmd]; norm_num
    refine ⟨advanceCallsStart cfg time dt iteration ncycle ++ [.make_rho_curr_time],
      advanceCallsEnd cfg time dt iteration ncycle, ?_, ?_, ?_, ?_, ?_, ?_, ?_, ?_⟩
    · rw [htr]
      unfold advanceCalls
      simp [hmd]
    · intro e he
      apply bool_false_of_stage stage_of_isVelocityAdvection
      simp only [List.mem_append, List.mem_cons, List.not_mem_nil, or_false] at he
      rcases he with (he | he) | he
      · unfold advanceCallsStart at he
        simp only [hne, if_false, List.append_nil, List.mem_append, List.mem_cons,
          List.not_mem_nil, or_false] at he
        rcases he with ((he | he) | he) | he
        · rcases he with rfl | rfl <;> simp [Call.stage]
        · split_ifs at he <;> simp only [List.mem_cons, List.not_mem_nil, or_false] at he
          rcases he with rfl | rfl <;> simp [Call.stage]
        · rcases he with rfl | he
          · simp [Call.stage]
          · rw [fluxCalls_stage cfg dt _ _ e he]
            norm_num
        · rw [updateCalls_stage cfg dt _ _ e he]
          norm_num
      · rw [he]
        simp [Call.stage]
      · rcases hEnd e he with h4 | h6 <;> omega
    · unfold advanceCallsStart
      simp only [hne, if_false, List.append_nil, List.filter_append]
      have hA : ∀ l : List Call, (∀ e, e ∈ l → e.stage ≠ 4) →
          l.filter Call.isScalarUpdate = [] := by
        intro l hl
        rw [List.filter_eq_nil_iff]
        intro e he hs
        exact hl e he ((stage_of_isScalarUpdate e).mp hs)
      have hB : (updateCalls cfg dt cfg.Density cfg.Density).filter Call.isScalarUpdate
          = updateCalls cfg dt cfg.Density cfg.Density := by
        rw [List.filter_eq_self]
        intro e he
        exact (stage_of_isScalarUpdate e).mpr (updateCalls_stage cfg dt _ _ e he)
      rw [hB, hA [Call.advance_setup time dt iteration ncycle, Call.ExtrapVelToFaces dt]
          (by intro e he
              simp only [List.mem_cons, List.not_mem_nil, or_false] at he
              rcases he with rfl | rfl <;> simp [Call.stage]),
        hA (if cfg.do_mac_proj = true then
            [Call.create_mac_rhs time dt, Call.mac_project time dt] else [])
          (by intro e he
              split_ifs at he <;> simp only [List.mem_cons, List.not_mem_nil, or_false] at he
              rcases he with rfl | rfl <;> simp [Call.stage]),
        hA (Call.AdvectScalars dt cfg.Density
            (cfg.Density + cfg.NUM_SCALARS - 1 + 1 - cfg.Density) ::
            fluxCalls cfg dt cfg.Density (cfg.Density + cfg.NUM_SCALARS - 1 + 1 - cfg.Density))
          (by intro e he
              rcases List.mem_cons.mp he with rfl | he
              · simp [Call.stage]
              · rw [fluxCalls_stage cfg dt _ _ e he]
                norm_num),
        hA [Call.make_rho_curr_time]
          (by intro e he
              simp only [List.mem_cons, List.not_mem_nil, or_false] at he
              rw [he]
              simp [Call.stage])]
      simp
    · unfold advanceCallsStart
      simp [updateCalls]
    · simp
    · intro e he heq
      rcases hEnd e he with h4 | h6 <;> rw [heq] at * <;> simp [Call.stage] at *
    · intro e he heq
      simp only [List.mem_append, List.mem_cons, List.not_mem_nil, or_false] at he
      rcases he with he | he
      · have := hStart e he
        rw [heq] at this
        simp [Call.stage] at this
      · rw [heq] at he
        cases he
    · exact hvu

/-- Witness of C13: the sample level (`do_mom_diff == 0`, MAC projection on)
with no NaN in any state. -/
theorem velocity_advection_placement_witness :
    ∃ tr r, advance (traceOps (fun _ _ => false)) (sampleCfg 1) 0 1 1 1 [] = some (tr, r) ∧
    (((sampleCfg 1).do_mom_diff = 0 →
      ∃ pre post, tr = pre ++ Call.velocity_advection 1 :: post ∧
        (∀ e, e ∈ pre ++ post → e.isVelocityAdvection = false) ∧
        ((sampleCfg 1).do_mac_proj = true → Call.mac_project 0 1 ∈ pre) ∧
        (∀ e, e ∈ post → e.isMacProjection = false) ∧
        (∀ e, e ∈ pre → e.isScalarAdvection = false ∧ e.isScalarUpdate = false) ∧
        Call.AdvectScalars 1 (sampleCfg 1).Density
          ((sampleCfg 1).Density + (sampleCfg 1).NUM_SCALARS - 1 + 1 - (sampleCfg 1).Density) ∈ post ∧
        Call.scalar_advection_update 1 (sampleCfg 1).Density (sampleCfg 1).Density ∈ post) ∧
    ((sampleCfg 1).do_mom_diff = 1 →
      ∃ pre post, tr = pre ++ Call.velocity_advection 1 :: post ∧
        (∀ e, e ∈ pre ++ post → e.isVelocityAdvection = false) ∧
        pre.filter Call.isScalarUpdate = updateCalls (sampleCfg 1) 1 (sampleCfg 1).Density (sampleCfg 1).Density ∧
        Call.scalar_advection_update 1 (sampleCfg 1).Density (sampleCfg 1).Density ∈ pre ∧
        Call.make_rho_curr_time ∈ pre ∧
        (∀ e, e ∈ post → e ≠ Call.make_rho_curr_time) ∧
        (∀ e, e ∈ pre → e ≠ Call.velocity_update 1) ∧
        Call.velocity_update 1 ∈ post)) := by
  obtain ⟨tr, h⟩ := advance_isSome (traceOps (fun _ _ => false)) (sampleCfg 1) 0 1 1 1 []
    (fun _ _ => rfl)
  exact ⟨tr, _, h, velocity_advection_placement (fun _ _ => false) (sampleCfg 1) 0 1 1 1 tr _ h⟩

theorem stage_of_tail_call (e : Call)
    (h : e.isLevelProjector = true ∨ e.isIncrRhoAvg = true ∨ e.isPAvgReset = true) :
    e.stage = 8 := by
  cases e <;> simp [Call.isLevelProjector, Call.isIncrRhoAvg, Call.isPAvgReset, Call.stage] at h ⊢

theorem advanceCalls_split (cfg : Config) (time dt : ℚ) (iteration ncycle : ℤ) :
    ∃ pre post, advanceCalls cfg time dt iteration ncycle =
      pre ++ (if !cfg.initial_step then
          (if 0 < cfg.level then
              [Call.incrRhoAvg ((if iteration = ncycle then 1 / 2 else 1) / (ncycle : ℚ))]
            else []) ++
          (if cfg.projector then [Call.level_projector dt time iteration] else []) ++
          (if 0 < cfg.level ∧ iteration = 1 then [Call.p_avg_setVal] else [])
        else []) ++ post ∧
      (∀ e, e ∈ pre → e.stage ≠ 8) ∧ (∀ e, e ∈ post → e.stage ≠ 8) := by
  refine ⟨advanceCallsStart cfg time dt iteration ncycle ++ [.make_rho_curr_time] ++
      (if cfg.do_mom_diff = 1 then [.velocity_advection dt] else []) ++
      ((if cfg.do_scalar_update_in_order then
        (List.range (cfg.NUM_SCALARS - 1)).flatMap (fun iComp =>
          updateCalls cfg dt (cfg.Density + cfg.scalarUpdateOrder iComp)
            (cfg.Density + cfg.scalarUpdateOrder iComp))
        else updateCalls cfg dt (cfg.Density + 1) (cfg.Density + cfg.NUM_SCALARS - 1)) ++
      (if cfg.have_divu then
        .calc_divu (time + dt) dt ::
          (if cfg.have_dsdt then
              .calc_dsdt time dt :: (if cfg.initial_step then [.copy_dsdt] else [])
            else [])
      else []) ++
      [.velocity_update dt]), [.advance_cleanup iteration ncycle], ?_, ?_, ?_⟩
  · unfold advanceCalls advanceCallsEnd
    simp only [List.append_assoc]
  · intro e he
    simp only [List.mem_append] at he
    rcases he with ((he | he) | he) | ((he | he) | he)
    · have := advanceCallsStart_stage cfg time dt iteration ncycle e he
      omega
    · simp only [List.mem_singleton] at he
      rw [he]
      simp [Call.stage]
    · split_ifs at he <;> simp only [List.mem_cons, List.not_mem_nil, or_false] at he
      rw [he]
      simp [Call.stage]
    · have h4 : e.stage = 4 := by
        split_ifs at he
        · obtain ⟨i, _, hi⟩ := List.mem_flatMap.mp he
          exact updateCalls_stage cfg dt _ _ e hi
        · exact updateCalls_stage cfg dt _ _ e he
      omega
    · split_ifs at he <;> simp only [List.mem_cons, List.not_mem_nil, or_false] at he
      · rcases he with rfl | rfl | rfl <;> simp [Call.stage]
      · rcases he with rfl | rfl <;> simp [Call.stage]
      · rw [he]
        simp [Call.stage]
    · simp only [List.mem_singleton] at he
      rw [he]
      simp [Call.stage]
  · intro e he
    simp only [List.mem_singleton] at he
    rw [he]
    simp [Call.stage]

/-- C14: in a returning `advance` the level projection is called if and only
if `initial_step` is false and a projector exists, and then once, as
`level_projector(dt,time,iteration)`; when `initial_step` is true the run calls
none of `level_projector`, `incrRhoAvg` and `p_avg.setVal`. -/
theorem level_projection_gating (nan : List Call → ℕ → Bool) (cfg : Config)
    (time dt : ℚ) (iteration ncycle : ℤ) (tr : List Call) (r : XReal)
    (h : advance (traceOps nan) cfg time dt iteration ncycle [] = some (tr, r)) :
    ((∃ e, e ∈ tr ∧ e.isLevelProjector = true) ↔
      (cfg.initial_step = false ∧ cfg.projector = true)) ∧
    tr.filter Call.isLevelProjector =
      (if cfg.initial_step = false ∧ cfg.projector = true then
        [Call.level_projector dt time iteration] else []) ∧
    (cfg.initial_step = true → ∀ e, e ∈ tr →
      e.isLevelProjector = false ∧ e.isIncrRhoAvg = false ∧ e.isPAvgReset = false) := by
  have htr := advance_trace nan cfg time dt iteration ncycle [] tr r h
  rw [List.nil_append] at htr
  obtain ⟨pre, post, hsplit, hpre, hpost⟩ := advanceCalls_split cfg time dt iteration ncycle
  rw [hsplit] at htr
  have hA : ∀ l : List Call, (∀ e, e ∈ l → e.stage ≠ 8) →
      l.filter Call.isLevelProjector = [] := by
    intro l hl
    rw [List.filter_eq_nil_iff]
    intro e he hs
    exact hl e he (stage_of_tail_call e (Or.inl hs))
  have hfilter : tr.filter Call.isLevelProjector =
      (if cfg.initial_step = false ∧ cfg.projector = true then
        [Call.level_projector dt time iteration] else []) := by
    rw [htr, List.filter_append, List.filter_append, hA pre hpre, hA post hpost]
    cases hi : cfg.initial_step <;> cases hp : cfg.projector <;>
      by_cases hl : 0 < cfg.level <;> by_cases h1 : iteration = 1 <;>
      simp [hl, h1, Call.isLevelProjector, List.filter]
  refine ⟨?_, hfilter, ?_⟩
  · constructor
    · rintro ⟨e, he, hp⟩
      by_contra hcon
      have hmem : e ∈ tr.filter Call.isLevelProjector := List.mem_filter.mpr ⟨he, hp⟩
      rw [hfilter, if_neg hcon] at hmem
      exact List.not_mem_nil _ hmem
    · intro hc
      refine ⟨Call.level_projector dt time iteration, ?_, rfl⟩
      have hmem : Call.level_projector dt time iteration ∈ tr.filter Call.isLevelProjector := by
        rw [hfilter, if_pos hc]
        exact List.mem_singleton.mpr rfl
      exact (List.mem_filter.mp hmem).1
  · intro hi e he
    rw [htr] at he
    simp only [hi, Bool.not_true, Bool.false_eq_true, if_false, List.append_nil,
      List.mem_append] at he
    have h8 : e.stage ≠ 8 := by
      rcases he with he | he
      · exact hpre e he
      · exact hpost e he
    refine ⟨?_, ?_, ?_⟩
    · cases hb : e.isLevelProjector
      · rfl
      · exact absurd (stage_of_tail_call e (Or.inl hb)) h8
    · cases hb : e.isIncrRhoAvg
      · rfl
      · exact absurd (stage_of_tail_call e (Or.inr (Or.inl hb))) h8
    · cases hb : e.isPAvgReset
      · rfl
      · exact absurd (stage_of_tail_call e (Or.inr (Or.inr hb))) h8

/-- Witness of C14: the sample level, where `initial_step` is false and a
projector exists, with no NaN in any state. -/
theorem level_projection_gating_witness :
    ∃ tr r, advance (traceOps (fun _ _ => false)) (sampleCfg 1) 0 1 1 1 [] = some (tr, r) ∧
    (((∃ e, e ∈ tr ∧ e.isLevelProjector = true) ↔
      ((sampleCfg 1).initial_step = false ∧ (sampleCfg 1).projector = true)) ∧
    tr.filter Call.isLevelProjector =
      (if (sampleCfg 1).initial_step = false ∧ (sampleCfg 1).projector = true then
        [Call.level_projector 1 0 1] else []) ∧
    ((sampleCfg 1).initial_step = true → ∀ e, e ∈ tr →
      e.isLevelProjector = false ∧ e.isIncrRhoAvg = false ∧ e.isPAvgReset = false)) := by
  obtain ⟨tr, h⟩ := advance_isSome (traceOps (fun _ _ => false)) (sampleCfg 1) 0 1 1 1 []
    (fun _ _ => rfl)
  exact ⟨tr, _, h, level_projection_gating (fun _ _ => false) (sampleCfg 1) 0 1 1 1 tr _ h⟩

theorem scalar_diffusion_fluxes_trace (cfg : Config) (dt : ℚ) (sigma : ℕ)
    (s : List DiffusionCall) :
    scalar_diffusion_fluxes traceDiffusionOps cfg dt sigma s = s ++
      (List.range cfg.BL_SPACEDIM).flatMap (fun d =>
        (if cfg.do_reflux = true ∧ 0 < cfg.level then
          [DiffusionCall.viscflux_FineAdd d 0 sigma 1 dt] else []) ++
        (if cfg.do_reflux = true ∧ cfg.level < cfg.finestLevel then
          [DiffusionCall.viscflux_CrseInit (cfg.level + 1) d 0 sigma 1 (-dt)] else [])) := by
  unfold scalar_diffusion_fluxes
  by_cases hr : cfg.do_reflux = true
  · simp only [hr, if_true, true_and, traceDiffusionOps]
    generalize List.range cfg.BL_SPACEDIM = l
    induction l generalizing s with
    | nil => simp
    | cons a t ih =>
      simp only [List.foldl_cons, List.flatMap_cons]
      rw [ih]
      by_cases h1 : 0 < cfg.level <;> by_cases h2 : cfg.level < cfg.finestLevel <;>
        simp [h1, h2]
  · simp [hr]

theorem scalar_diffusion_step_trace (cfg : Config) (v : Bool) (dt : ℚ) (sigma : ℕ)
    (s : List DiffusionCall) :
    ∃ l, (∀ e, e ∈ l → e.isFluxRegister = false) ∧
      scalar_diffusion_step traceDiffusionOps cfg v dt s sigma = s ++
        (if cfg.is_diffusive sigma = true then
          l ++ (List.range cfg.BL_SPACEDIM).flatMap (fun d =>
            (if cfg.do_reflux = true ∧ 0 < cfg.level then
              [DiffusionCall.viscflux_FineAdd d 0 sigma 1 dt] else []) ++
            (if cfg.do_reflux = true ∧ cfg.level < cfg.finestLevel then
              [DiffusionCall.viscflux_CrseInit (cfg.level + 1) d 0 sigma 1 (-dt)] else []))
        else []) := by
  refine ⟨(if v = true then [DiffusionCall.getDiffusivity false sigma 0 1,
      DiffusionCall.getDiffusivity true sigma 0 1] else []) ++
      [DiffusionCall.diffuse_scalar_setup sigma 0, DiffusionCall.diffuse_scalar dt sigma 0 v],
    ?_, ?_⟩
  · intro e he
    cases v
    · simp only [Bool.false_eq_true, if_false, List.nil_append, List.mem_cons,
        List.not_mem_nil, or_false] at he
      rcases he with rfl | rfl <;> rfl
    · simp only [if_true, List.cons_append, List.nil_append, List.mem_cons,
        List.not_mem_nil, or_false] at he
      rcases he with rfl | rfl | rfl | rfl <;> rfl
  · unfold scalar_diffusion_step
    by_cases hd : cfg.is_diffusive sigma = true
    · simp only [hd, if_true, scalar_diffusion_fluxes_trace]
      cases v <;> simp [traceDiffusionOps]
    · simp [hd]

theorem viscFluxCalls_filter (cfg : Config) (dt : ℚ) (sigma : ℕ) :
    ((List.range cfg.BL_SPACEDIM).flatMap (fun d =>
        (if cfg.do_reflux = true ∧ 0 < cfg.level then
          [DiffusionCall.viscflux_FineAdd d 0 sigma 1 dt] else []) ++
        (if cfg.do_reflux = true ∧ cfg.level < cfg.finestLevel then
          [DiffusionCall.viscflux_CrseInit (cfg.level + 1) d 0 sigma 1 (-dt)]
          else []))).filter DiffusionCall.isFluxRegister =
      (List.range cfg.BL_SPACEDIM).flatMap (fun d =>
        (if cfg.do_reflux = true ∧ 0 < cfg.level then
          [DiffusionCall.viscflux_FineAdd d 0 sigma 1 dt] else []) ++
        (if cfg.do_reflux = true ∧ cfg.level < cfg.finestLevel then
          [DiffusionCall.viscflux_CrseInit (cfg.level + 1) d 0 sigma 1 (-dt)] else [])) := by
  rw [List.filter_eq_self]
  intro e he
  obtain ⟨d, _, hd⟩ := List.mem_flatMap.mp he
  rcases List.mem_append.mp hd with h | h <;> split_ifs at h <;>
    simp only [List.mem_singleton, List.not_mem_nil] at h <;> rw [h] <;> rfl

theorem scalar_diffusion_update_fluxes (cfg : Config) (v : Bool) (dt : ℚ)
    (l : List ℕ) (s : List DiffusionCall) :
    (l.foldl (scalar_diffusion_step traceDiffusionOps cfg v dt) s).filter
        DiffusionCall.isFluxRegister =
      s.filter DiffusionCall.isFluxRegister ++
      (l.filter cfg.is_diffusive).flatMap (fun sigma =>
        (List.range cfg.BL_SPACEDIM).flatMap (fun d =>
          (if cfg.do_reflux = true ∧ 0 < cfg.level then
            [DiffusionCall.viscflux_FineAdd d 0 sigma 1 dt] else []) ++
          (if cfg.do_reflux = true ∧ cfg.level < cfg.finestLevel then
            [DiffusionCall.viscflux_CrseInit (cfg.level + 1) d 0 sigma 1 (-dt)]
            else []))) := by
  induction l generalizing s with
  | nil => simp
  | cons a t ih =>
    rw [List.foldl_cons, ih]
    obtain ⟨pre, hpre, hstep⟩ := scalar_diffusion_step_trace cfg v dt a s
    rw [hstep]
    have hnil : pre.filter DiffusionCall.isFluxRegister = [] := by
      rw [List.filter_eq_nil_iff]
      intro e he hs
      rw [hpre e he] at hs
      exact Bool.false_ne_true hs
    by_cases hd : cfg.is_diffusive a = true
    · rw [if_pos hd, List.filter_cons_of_pos hd, List.flatMap_cons, List.filter_append,
        List.filter_append, hnil, viscFluxCalls_filter, List.nil_append, List.append_assoc]
    · rw [if_neg hd, List.filter_cons_of_neg hd, List.append_nil]

/-- C15: the flux-register calls of `scalar_advection` and of
`scalar_diffusion_update`.  Without `do_reflux` there is none.  With it, for
every direction the fluxes of this level go to its own register by `FineAdd`
with multiplier `dt` exactly when `level > 0`, and to the register of
`level+1` by `CrseInit` with multiplier `-dt` exactly when
`level < finestLevel`, with the same components in both: all the advected
scalars in `scalar_advection`, the diffused scalar `sigma` for each diffusive
`sigma` in `scalar_diffusion_update`. -/
theorem flux_register_gating (nan : List Call → ℕ → Bool) (cfg : Config)
    (variable_scal_diff : Bool) (dt : ℚ) (fscalar lscalar : ℕ) :
    (scalar_advection (traceOps nan) cfg dt fscalar lscalar []).filter Call.isFluxRegister =
      (if cfg.do_reflux = true ∧ 0 < cfg.level then
        (List.range cfg.BL_SPACEDIM).map
          (fun d => Call.advflux_FineAdd d 0 fscalar (lscalar + 1 - fscalar) dt)
        else []) ++
      (if cfg.do_reflux = true ∧ cfg.level < cfg.finestLevel then
        (List.range cfg.BL_SPACEDIM).map
          (fun d => Call.advflux_CrseInit (cfg.level + 1) d 0 fscalar
            (lscalar + 1 - fscalar) (-dt))
        else []) ∧
    (scalar_diffusion_update traceDiffusionOps cfg variable_scal_diff dt fscalar lscalar
        []).filter DiffusionCall.isFluxRegister =
      ((List.range' fscalar (lscalar + 1 - fscalar)).filter cfg.is_diffusive).flatMap
        (fun sigma => (List.range cfg.BL_SPACEDIM).flatMap (fun d =>
          (if cfg.do_reflux = true ∧ 0 < cfg.level then
            [DiffusionCall.viscflux_FineAdd d 0 sigma 1 dt] else []) ++
          (if cfg.do_reflux = true ∧ cfg.level < cfg.finestLevel then
            [DiffusionCall.viscflux_CrseInit (cfg.level + 1) d 0 sigma 1 (-dt)]
            else []))) := by
  constructor
  · rw [scalar_advection_trace, List.nil_append,
      List.filter_cons_of_neg (by simp [Call.isFluxRegister])]
    have hself : (fluxCalls cfg dt fscalar (lscalar + 1 - fscalar)).filter Call.isFluxRegister
        = fluxCalls cfg dt fscalar (lscalar + 1 - fscalar) := by
      rw [List.filter_eq_self]
      intro e he
      unfold fluxCalls at he
      split_ifs at he
      all_goals simp only [List.mem_append, List.mem_map, List.not_mem_nil, or_false,
        false_or, or_self] at he
      · rcases he with ⟨d, _, rfl⟩ | ⟨d, _, rfl⟩ <;> rfl
      · obtain ⟨d, _, rfl⟩ := he
        rfl
      · obtain ⟨d, _, rfl⟩ := he
        rfl
    rw [hself]
    unfold fluxCalls
    by_cases hr : cfg.do_reflux = true <;> by_cases h1 : 0 < cfg.level <;>
      by_cases h2 : cfg.level < cfg.finestLevel <;> simp [hr, h1, h2]
  · unfold scalar_diffusion_update
    rw [scalar_diffusion_update_fluxes]
    simp

/-- C16 (amended): `reflux` reads the advective and the viscous flux register
of `level+1` and leaves both as they were, at a level with a finer level and at
the finest level alike. -/
theorem reflux_keeps_flux_registers (cfg : Config)
    (incr : FluxRegister → ℚ → ℕ → IntVect → ℕ → ℚ) (dt_crse : ℚ) (Rh : MultiFab)
    (fine_boxes : List Box) (fine_ratio : IntVect) (st : SyncFields) :
    (reflux cfg incr dt_crse Rh fine_boxes fine_ratio st).fr_adv = st.fr_adv ∧
    (reflux cfg incr dt_crse Rh fine_boxes fine_ratio st).fr_visc = st.fr_visc := by
  unfold reflux
  split_ifs <;> exact ⟨rfl, rfl⟩

/-- C16 (as stated, refuted): on the coarse sample level, which has a finer
level, with registers that hold `1` (advective) and `2` (viscous) in every
entry, the registers after `reflux` still hold `1` and `2`, not zero. -/
theorem reflux_registers_not_cleared :
    (coarseCfg 0 (fun _ => .Conservative)).level
      < (coarseCfg 0 (fun _ => .Conservative)).finestLevel ∧
    (reflux (coarseCfg 0 (fun _ => .Conservative)) sampleIncr 1 (constMF 2)
      sampleFineBoxes [2, 2] sampleSync).fr_adv.data 0 0 [0, 0] 0 = 1 ∧
    (reflux (coarseCfg 0 (fun _ => .Conservative)) sampleIncr 1 (constMF 2)
      sampleFineBoxes [2, 2] sampleSync).fr_visc.data 0 0 [0, 0] 0 = 2 ∧
    ¬ (∀ f i c n,
      (reflux (coarseCfg 0 (fun _ => .Conservative)) sampleIncr 1 (constMF 2)
        sampleFineBoxes [2, 2] sampleSync).fr_adv.data f i c n = 0 ∧
      (reflux (coarseCfg 0 (fun _ => .Conservative)) sampleIncr 1 (constMF 2)
        sampleFineBoxes [2, 2] sampleSync).fr_visc.data f i c n = 0) := by
  have hne : ¬ (coarseCfg 0 (fun _ => .Conservative)).level
      = (coarseCfg 0 (fun _ => .Conservative)).finestLevel := by decide
  have ha : (reflux (coarseCfg 0 (fun _ => .Conservative)) sampleIncr 1 (constMF 2)
      sampleFineBoxes [2, 2] sampleSync).fr_adv.data 0 0 [0, 0] 0 = 1 := by
    simp only [reflux, hne, if_false]
    rfl
  have hv : (reflux (coarseCfg 0 (fun _ => .Conservative)) sampleIncr 1 (constMF 2)
      sampleFineBoxes [2, 2] sampleSync).fr_visc.data 0 0 [0, 0] 0 = 2 := by
    simp only [reflux, hne, if_false]
    rfl
  refine ⟨by decide, ha, hv, ?_⟩
  intro hall
  have h0 := (hall 0 0 [0, 0] 0).1
  rw [ha] at h0
  exact one_ne_zero h0

theorem syncInterp_fold_ratio {ρ : Type} (ops : SyncOps ρ) (cfg : Config) (L : List ℕ)
    (acc : IntVect × SyncLevel ρ) :
    (L.foldl (syncInterpStep ops cfg) acc).1 =
      L.foldl (fun r lev => List.zipWith (fun a b => a * b) r (ops.refRatio (lev - 1))) acc.1 := by
  induction L generalizing acc with
  | nil => rfl
  | cons a t ih =>
    rw [List.foldl_cons, List.foldl_cons, ih]
    rfl

theorem syncInterp_fold_Ssync {ρ : Type} (ops : SyncOps ρ) (cfg : Config) (L : List ℕ)
    (acc : IntVect × SyncLevel ρ) :
    (L.foldl (syncInterpStep ops cfg) acc).2.Ssync = acc.2.Ssync := by
  induction L generalizing acc with
  | nil => rfl
  | cons a t ih =>
    rw [List.foldl_cons, ih]
    rfl

theorem syncInterp_fold_fine {ρ : Type} (ops : SyncOps ρ) (cfg : Config) (L : List ℕ)
    (lev : ℕ) (hlev : lev ∉ L) (acc : IntVect × SyncLevel ρ) :
    (L.foldl (syncInterpStep ops cfg) acc).2.fine_S_new lev = acc.2.fine_S_new lev := by
  induction L generalizing acc with
  | nil => rfl
  | cons a t ih =>
    rw [List.foldl_cons, ih (fun h => hlev (List.mem_cons_of_mem _ h))]
    have hne : ¬ lev = a := fun h => hlev (h ▸ List.mem_cons_self _ _)
    simp only [syncInterpStep, hne, if_false]

theorem ratio_fold_shift (f : ℕ → IntVect) (s n : ℕ) (r : IntVect) :
    (List.range' (s + 1) n).foldl
        (fun r lev => List.zipWith (fun a b => a * b) r (f (lev - 1))) r =
      (List.range' s n).foldl (fun r l => List.zipWith (fun a b => a * b) r (f l)) r := by
  induction n generalizing s r with
  | zero => rfl
  | succ k ih =>
    rw [List.range'_succ, List.range'_succ, List.foldl_cons, List.foldl_cons, ih]
    rfl

theorem sync_interp_loop {ρ : Type} (ops : SyncOps ρ) (cfg : Config)
    (st : SyncLevel ρ) (lev : ℕ) (h1 : cfg.level < lev) (h2 : lev ≤ cfg.finestLevel) :
    ∃ (pre : SyncLevel ρ) (sync_incr : MultiFab),
      pre = ((List.range' (cfg.level + 1) (lev - (cfg.level + 1))).foldl
        (syncInterpStep ops cfg) (List.replicate cfg.BL_SPACEDIM 1, st)).2 ∧
      pre.Ssync = st.Ssync ∧
      sync_incr = ⟨(st.fine_S_new lev).grids, 0,
        ops.SyncInterp st.Ssync cfg.level ⟨(st.fine_S_new lev).grids, 0, fun _ _ _ => 0⟩ lev
          ((List.range' cfg.level (lev - cfg.level)).foldl
            (fun r l => List.zipWith (fun a b => a * b) r (ops.refRatio l))
            (List.replicate cfg.BL_SPACEDIM 1))
          0 0 (cfg.NUM_STATE - cfg.BL_SPACEDIM) 1 1 pre⟩ ∧
      (mac_sync_interp ops cfg st).fine_S_new lev =
        (st.fine_S_new lev).plusN sync_incr 0 cfg.Density (cfg.NUM_STATE - cfg.BL_SPACEDIM) ∧
      ((List.range' (cfg.level + 1) (lev - cfg.level)).foldl
        (syncInterpStep ops cfg) (List.replicate cfg.BL_SPACEDIM 1, st)).2.rest =
        ops.fine_incrRhoAvg lev sync_incr (cfg.Density - cfg.BL_SPACEDIM) 1
          (ops.fine_make_rho_curr_time lev { pre with fine_S_new := (fun l =>
            if l = lev then
              (st.fine_S_new lev).plusN sync_incr 0 cfg.Density (cfg.NUM_STATE - cfg.BL_SPACEDIM)
            else pre.fine_S_new l) }) := by
  obtain ⟨k, hk⟩ : ∃ k, lev = cfg.level + 1 + k := ⟨lev - (cfg.level + 1), by omega⟩
  obtain ⟨m, hm⟩ : ∃ m, cfg.finestLevel = lev + m := ⟨cfg.finestLevel - lev, by omega⟩
  have hk1 : lev - (cfg.level + 1) = k := by omega
  have hk2 : lev - cfg.level = k + 1 := by omega
  have hsplit1 : List.range' (cfg.level + 1) (k + 1) = List.range' (cfg.level + 1) k ++ [lev] := by
    rw [List.range'_concat, hk]
    simp
  have hsplit2 : List.range' (cfg.level + 1) (cfg.finestLevel - cfg.level) =
      List.range' (cfg.level + 1) (k + 1) ++ List.range' (lev + 1) m := by
    have e1 : cfg.finestLevel - cfg.level = m + (k + 1) := by omega
    have e2 : lev + 1 = cfg.level + 1 + (k + 1) := by omega
    rw [e1, e2, List.range'_append_1]
  have hpreS : ((List.range' (cfg.level + 1) k).foldl (syncInterpStep ops cfg)
      (List.replicate cfg.BL_SPACEDIM 1, st)).2.Ssync = st.Ssync :=
    syncInterp_fold_Ssync ops cfg _ _
  have hpreF : ((List.range' (cfg.level + 1) k).foldl (syncInterpStep ops cfg)
      (List.replicate cfg.BL_SPACEDIM 1, st)).2.fine_S_new lev = st.fine_S_new lev :=
    syncInterp_fold_fine ops cfg _ lev (by
      intro h
      have := (List.mem_range'_1.mp h).2
      omega) _
  have hratio : List.zipWith (fun a b => a * b)
      ((List.range' (cfg.level + 1) k).foldl (syncInterpStep ops cfg)
        (List.replicate cfg.BL_SPACEDIM 1, st)).1 (ops.refRatio (lev - 1)) =
      (List.range' cfg.level (k + 1)).foldl
        (fun r l => List.zipWith (fun a b => a * b) r (ops.refRatio l))
        (List.replicate cfg.BL_SPACEDIM 1) := by
    rw [syncInterp_fold_ratio, ratio_fold_shift, List.range'_concat, List.foldl_append]
    have e : lev - 1 = cfg.level + 1 * k := by omega
    rw [e]
    rfl
  have hstep : (List.range' (cfg.level + 1) (k + 1)).foldl (syncInterpStep ops cfg)
      (List.replicate cfg.BL_SPACEDIM 1, st) =
      syncInterpStep ops cfg ((List.range' (cfg.level + 1) k).foldl (syncInterpStep ops cfg)
        (List.replicate cfg.BL_SPACEDIM 1, st)) lev := by
    rw [hsplit1, List.foldl_append]
    rfl
  have hfinal : (mac_sync_interp ops cfg st).fine_S_new lev =
      (syncInterpStep ops cfg ((List.range' (cfg.level + 1) k).foldl (syncInterpStep ops cfg)
        (List.replicate cfg.BL_SPACEDIM 1, st)) lev).2.fine_S_new lev := by
    unfold mac_sync_interp
    rw [hsplit2, List.foldl_append, syncInterp_fold_fine ops cfg _ lev (by
      intro h
      have := (List.mem_range'_1.mp h).1
      omega), hstep]
  rw [hk1, hk2]
  refine ⟨_, _, rfl, hpreS, rfl, ?_, ?_⟩
  · rw [hfinal]
    simp only [syncInterpStep, if_true, hpreS, hpreF, hratio]
  · rw [hstep]
    simp only [syncInterpStep, hpreS, hpreF, hratio]

theorem viscousSync_fold_fine {ρ : Type} (ops : SyncOps ρ) (cfg : Config) (dt : ℚ)
    (L : List ℕ) (st : SyncLevel ρ) :
    (L.foldl (viscousSyncStep ops cfg dt) st).fine_S_new = st.fine_S_new := by
  induction L generalizing st with
  | nil => rfl
  | cons a t ih =>
    rw [List.foldl_cons, ih]
    simp only [viscousSyncStep]
    split_ifs <;> rfl

theorem mac_sync_corrected_fine {ρ : Type} (ops : SyncOps ρ) (cfg : Config) (dt : ℚ)
    (st : SyncLevel ρ) :
    (mac_sync_corrected ops cfg dt st).fine_S_new = st.fine_S_new := by
  have h1 : ∀ s : SyncLevel ρ, (mac_sync_add ops cfg s).fine_S_new = s.fine_S_new := by
    intro s
    simp only [mac_sync_add]
    split_ifs <;> rfl
  have h2 : ∀ s : SyncLevel ρ, (mac_sync_velocity ops cfg dt s).fine_S_new = s.fine_S_new := by
    intro s
    simp only [mac_sync_velocity]
    split_ifs <;> rfl
  unfold mac_sync_corrected
  rw [h1]
  show (mac_sync_viscous ops cfg dt _).fine_S_new = _
  unfold mac_sync_viscous
  rw [viscousSync_fold_fine, h2]
  rfl

/-- C17: the loop of `mac_sync` (with `do_reflux` set) over the finer levels.
For `lev` with `level < lev <= finestLevel`, `pre` being the state when the
loop reaches `lev`: the coarse `Ssync` is still the corrected one the loop
started with; the increment `sync_incr` is what `SyncInterp` makes of a zero
multifab on the grids of `lev` with the ratio that is the componentwise
product of `refRatio(l)` for `l = level .. lev-1`; the new-time state of `lev`
that `mac_sync` returns is the one it was given plus `sync_incr` in the
components `Density .. Density+numscal-1`: at every valid cell the component
`n` of these holds its old value plus the component `n - Density` of
`sync_incr`, and every other value is the old one; and right after that
addition the loop calls `make_rho_curr_time` and then
`incrRhoAvg(sync_incr,Density-BL_SPACEDIM,1)` of `lev`. -/
theorem sync_interp_finer_levels {ρ : Type} (ops : SyncOps ρ) (cfg : Config) (dt : ℚ)
    (st : SyncLevel ρ) (lev : ℕ) (hr : cfg.do_reflux = true)
    (h1 : cfg.level < lev) (h2 : lev ≤ cfg.finestLevel) :
    ∃ (pre : SyncLevel ρ) (sync_incr : MultiFab),
      pre = ((List.range' (cfg.level + 1) (lev - (cfg.level + 1))).foldl
        (syncInterpStep ops cfg)
        (List.replicate cfg.BL_SPACEDIM 1, mac_sync_corrected ops cfg dt st)).2 ∧
      pre.Ssync = (mac_sync_corrected ops cfg dt st).Ssync ∧
      sync_incr = ⟨(st.fine_S_new lev).grids, 0,
        ops.SyncInterp (mac_sync_corrected ops cfg dt st).Ssync cfg.level
          ⟨(st.fine_S_new lev).grids, 0, fun _ _ _ => 0⟩ lev
          ((List.range' cfg.level (lev - cfg.level)).foldl
            (fun r l => List.zipWith (fun a b => a * b) r (ops.refRatio l))
            (List.replicate cfg.BL_SPACEDIM 1))
          0 0 (cfg.NUM_STATE - cfg.BL_SPACEDIM) 1 1 pre⟩ ∧
      (mac_sync ops cfg dt st).fine_S_new lev =
        (st.fine_S_new lev).plusN sync_incr 0 cfg.Density (cfg.NUM_STATE - cfg.BL_SPACEDIM) ∧
      (∀ i c n, (st.fine_S_new lev).inValid i c = true → cfg.Density ≤ n →
        n < cfg.Density + (cfg.NUM_STATE - cfg.BL_SPACEDIM) →
        ((mac_sync ops cfg dt st).fine_S_new lev).data i c n =
          (st.fine_S_new lev).data i c n + sync_incr.data i c (n - cfg.Density)) ∧
      (∀ i c n, ¬ ((st.fine_S_new lev).inValid i c = true ∧ cfg.Density ≤ n ∧
          n < cfg.Density + (cfg.NUM_STATE - cfg.BL_SPACEDIM)) →
        ((mac_sync ops cfg dt st).fine_S_new lev).data i c n =
          (st.fine_S_new lev).data i c n) ∧
      ((List.range' (cfg.level + 1) (lev - cfg.level)).foldl
        (syncInterpStep ops cfg)
        (List.replicate cfg.BL_SPACEDIM 1, mac_sync_corrected ops cfg dt st)).2.rest =
        ops.fine_incrRhoAvg lev sync_incr (cfg.Density - cfg.BL_SPACEDIM) 1
          (ops.fine_make_rho_curr_time lev { pre with fine_S_new := (fun l =>
            if l = lev then
              (st.fine_S_new lev).plusN sync_incr 0 cfg.Density
                (cfg.NUM_STATE - cfg.BL_SPACEDIM)
            else pre.fine_S_new l) }) := by
  obtain ⟨pre, sync_incr, hpre, hS, hincr, hfine, hrest⟩ :=
    sync_interp_loop ops cfg (mac_sync_corrected ops cfg dt st) lev h1 h2
  have hf : (mac_sync_corrected ops cfg dt st).fine_S_new lev = st.fine_S_new lev := by
    rw [mac_sync_corrected_fine]
  rw [hf] at hincr hfine hrest
  have hmac : (mac_sync ops cfg dt st).fine_S_new lev =
      (st.fine_S_new lev).plusN sync_incr 0 cfg.Density (cfg.NUM_STATE - cfg.BL_SPACEDIM) := by
    rw [← hfine]
    simp only [mac_sync, hr, if_true, mac_sync_reflux, mac_sync_corrected]
  refine ⟨pre, sync_incr, hpre, hS, hincr, hmac, ?_, ?_, hrest⟩
  · intro i c n hv hn1 hn2
    rw [hmac]
    simp only [MultiFab.plusN, hv, hn1, hn2, decide_True, Bool.and_self, if_true, zero_add]
  · intro i c n hnot
    rw [hmac]
    simp only [MultiFab.plusN]
    rw [if_neg]
    intro hcond
    simp only [Bool.and_eq_true, decide_eq_true_eq] at hcond
    exact hnot ⟨hcond.1.1, hcond.1.2, hcond.2⟩

/-- Witness of C17: the coarse sample level (level `0`, finest level `1`) and
its finer level `1`, whose new-time state holds `1`, with an interpolation
that returns `3 + n` in component `n`: the density (component `2`) of the
finer level ends as `1 + 3`, the tracer as `1 + 4`, and the first velocity
stays `1`. -/
theorem sync_interp_finer_levels_witness :
    ((mac_sync interpSyncOps syncCfg 1 sampleSyncLevel).fine_S_new 1).data 0 [4, 4] 2 = 4 ∧
    ((mac_sync interpSyncOps syncCfg 1 sampleSyncLevel).fine_S_new 1).data 0 [4, 4] 3 = 5 ∧
    ((mac_sync interpSyncOps syncCfg 1 sampleSyncLevel).fine_S_new 1).data 0 [4, 4] 0 = 1 := by
  obtain ⟨pre, sync_incr, _, _, hincr, _, hdata, hframe, _⟩ :=
    sync_interp_finer_levels interpSyncOps syncCfg 1 sampleSyncLevel 1 (by decide) (by decide)
      (by decide)
  have hv : (sampleSyncLevel.fine_S_new 1).inValid 0 [4, 4] = true := by decide
  refine ⟨?_, ?_, ?_⟩
  · rw [hdata 0 [4, 4] 2 hv (by decide) (by decide), hincr]
    norm_num [sampleSyncLevel, interpSyncOps, syncCfg, coarseCfg, sampleCfg]
  · rw [hdata 0 [4, 4] 3 hv (by decide) (by decide), hincr]
    norm_num [sampleSyncLevel, interpSyncOps, syncCfg, coarseCfg, sampleCfg]
  · rw [hframe 0 [4, 4] 0 (by decide)]
    rfl

theorem sum_map_div (l : List ℕ) (f : ℕ → ℚ) (v : ℚ) :
    (l.map f).sum / v = (l.map (fun d => f d / v)).sum := by
  induction l with
  | nil => simp
  | cons a t ih => simp only [List.map_cons, List.sum_cons, add_div, ih]

theorem sum_map_congr_mem (l : List ℕ) (f g : ℕ → ℚ) (h : ∀ d, d ∈ l → f d = g d) :
    (l.map f).sum = (l.map g).sum := by
  induction l with
  | nil => rfl
  | cons a t ih =>
    simp only [List.map_cons, List.sum_cons]
    rw [h a (List.mem_cons_self _ _), ih (fun d hd => h d (List.mem_cons_of_mem _ hd))]

/-- C18: on a uniform mesh (in every direction the face area is one value and
the cell volume is that area times the cell width) with an edge velocity that
is one value per direction, `ComputeAofs` gives the same `Aofs` with
`iconserv = 1` as with `iconserv = 0`, at every cell and for every edge-state
field. -/
theorem ComputeAofs_forms_agree (D : ℕ) (dx a u : ℕ → ℚ) (v : ℚ)
    (edge_state : ℕ → IntVect → ℚ) (c : IntVect)
    (hdx : ∀ d, d < D → dx d ≠ 0) (ha : ∀ d, d < D → a d ≠ 0)
    (hv : ∀ d, d < D → v = a d * dx d) :
    ComputeAofs D dx (fun d _ => a d) (fun d _ => u d) edge_state (fun _ => v) 1 c =
      ComputeAofs D dx (fun d _ => a d) (fun d _ => u d) edge_state (fun _ => v) 0 c := by
  simp only [ComputeAofs, if_true, faceFlux, show ¬ (0 : ℤ) = 1 by decide, if_false]
  rw [sum_map_div]
  apply sum_map_congr_mem
  intro d hd
  have hd' := List.mem_range.mp hd
  rw [hv d hd']
  have h1 := hdx d hd'
  have h2 := ha d hd'
  field_simp
  ring

/-- Witness of C18: two directions with cell widths `1` and `1/2`, face areas
`1/2` and `1`, cell volume `1/2`, edge velocities `3` and `-1`, and the edge
state `i + 2j` at the cell `(0,0)`. -/
theorem ComputeAofs_forms_agree_witness :
    ComputeAofs 2 (fun d => if d = 0 then 1 else 1 / 2)
        (fun d _ => (fun d => if d = 0 then (1 / 2 : ℚ) else 1) d)
        (fun d _ => (fun d => if d = 0 then (3 : ℚ) else -1) d)
        (fun _ f => (f.getD 0 0 : ℚ) + 2 * (f.getD 1 0 : ℚ)) (fun _ => 1 / 2) 1 [0, 0] =
      ComputeAofs 2 (fun d => if d = 0 then 1 else 1 / 2)
        (fun d _ => (fun d => if d = 0 then (1 / 2 : ℚ) else 1) d)
        (fun d _ => (fun d => if d = 0 then (3 : ℚ) else -1) d)
        (fun _ f => (f.getD 0 0 : ℚ) + 2 * (f.getD 1 0 : ℚ)) (fun _ => 1 / 2) 0 [0, 0] :=
  ComputeAofs_forms_agree 2 (fun d => if d = 0 then 1 else 1 / 2)
    (fun d => if d = 0 then (1 / 2 : ℚ) else 1) (fun d => if d = 0 then (3 : ℚ) else -1)
    (1 / 2) (fun _ f => (f.getD 0 0 : ℚ) + 2 * (f.getD 1 0 : ℚ)) [0, 0]
    (by intro d hd; interval_cases d <;> norm_num)
    (by intro d hd; interval_cases d <;> norm_num)
    (by intro d hd; interval_cases d <;> norm_num)

theorem calcDiffusivity_fold_error (cfg : Config) (visc_coef : ℕ → ℚ) (l : List ℕ)
    (d : MultiFab)
    (h : ∃ c, c ∈ l ∧ cfg.is_diffusive c = true ∧ visc_coef c < 0) :
    l.foldlM (calcDiffusivityStep cfg visc_coef) d = .error .abort := by
  induction l generalizing d with
  | nil =>
    obtain ⟨c, hc, _⟩ := h
    exact absurd hc (List.not_mem_nil c)
  | cons a t ih =>
    rw [List.foldlM_cons]
    by_cases hbad : cfg.is_diffusive a = true ∧ visc_coef a < 0
    · have hstep : calcDiffusivityStep cfg visc_coef d a = .error .abort := by
        simp only [calcDiffusivityStep, hbad.1, if_true, ge_iff_le, not_le.mpr hbad.2, if_false]
      rw [hstep]
      rfl
    · have ht : ∃ c, c ∈ t ∧ cfg.is_diffusive c = true ∧ visc_coef c < 0 := by
        obtain ⟨c, hc, hcd⟩ := h
        rcases List.mem_cons.mp hc with rfl | hc
        · exact absurd hcd hbad
        · exact ⟨c, hc, hcd⟩
      have hstep : ∃ d1, calcDiffusivityStep cfg visc_coef d a = .ok d1 := by
        simp only [calcDiffusivityStep]
        split_ifs
        · exact ⟨_, rfl⟩
        · rename_i h1 h2
          exact absurd ⟨h1, not_le.mp h2⟩ hbad
        · exact ⟨_, rfl⟩
      obtain ⟨d1, hd1⟩ := hstep
      rw [hd1]
      exact ih d1 ht

theorem calcDiffusivity_fold_ok (cfg : Config) (visc_coef : ℕ → ℚ) (l : List ℕ)
    (d : MultiFab)
    (h : ∀ c, c ∈ l → cfg.is_diffusive c = true → 0 ≤ visc_coef c) :
    l.foldlM (calcDiffusivityStep cfg visc_coef) d = .ok
      (l.foldl (fun d comp => if cfg.is_diffusive comp = true then
        d.setValComp (visc_coef comp) (comp - cfg.Density - 1) else d) d) := by
  induction l generalizing d with
  | nil => rfl
  | cons a t ih =>
    rw [List.foldlM_cons, List.foldl_cons]
    have hstep : calcDiffusivityStep cfg visc_coef d a = .ok
        (if cfg.is_diffusive a = true then
          d.setValComp (visc_coef a) (a - cfg.Density - 1) else d) := by
      simp only [calcDiffusivityStep]
      by_cases hd : cfg.is_diffusive a = true
      · simp only [hd, if_true, ge_iff_le, h a (List.mem_cons_self _ _) hd]
      · simp only [hd, if_false, Bool.false_eq_true]
    rw [hstep]
    exact ih _ (fun c hc => h c (List.mem_cons_of_mem _ hc))

theorem calcDiffusivity_fold_data (cfg : Config) (visc_coef : ℕ → ℚ) (l : List ℕ)
    (hl : ∀ c, c ∈ l → cfg.Density + 1 ≤ c) (d : MultiFab) (i : ℕ) (cell : IntVect) (n : ℕ) :
    (l.foldl (fun d comp => if cfg.is_diffusive comp = true then
        d.setValComp (visc_coef comp) (comp - cfg.Density - 1) else d) d).data i cell n =
      if d.inGrown d.nGrow i cell = true ∧ n + cfg.Density + 1 ∈ l ∧
          cfg.is_diffusive (n + cfg.Density + 1) = true
      then visc_coef (n + cfg.Density + 1) else d.data i cell n := by
  induction l generalizing d with
  | nil => simp
  | cons a t ih =>
    rw [List.foldl_cons, ih (fun c hc => hl c (List.mem_cons_of_mem _ hc))]
    have ha := hl a (List.mem_cons_self _ _)
    by_cases hd : cfg.is_diffusive a = true
    · simp only [hd, if_true]
      have hg : (d.setValComp (visc_coef a) (a - cfg.Density - 1)).inGrown
          (d.setValComp (visc_coef a) (a - cfg.Density - 1)).nGrow i cell
          = d.inGrown d.nGrow i cell := rfl
      rw [hg]
      by_cases hn : n + cfg.Density + 1 = a
      · subst hn
        have hn2 : n + cfg.Density + 1 - cfg.Density - 1 = n := by omega
        rw [hn2]
        by_cases hgr : d.inGrown d.nGrow i cell = true
        · simp [hgr, hd, MultiFab.setValComp]
        · simp [hgr, MultiFab.setValComp]
      · have hn' : ¬ n = a - cfg.Density - 1 := by omega
        have hmem : n + cfg.Density + 1 ∈ a :: t ↔ n + cfg.Density + 1 ∈ t := by
          simp [hn]
        simp only [hmem, MultiFab.setValComp, hn', decide_False, Bool.and_false,
          Bool.false_eq_true, if_false]
    · have hmem : (n + cfg.Density + 1 ∈ a :: t ∧ cfg.is_diffusive (n + cfg.Density + 1) = true)
          ↔ (n + cfg.Density + 1 ∈ t ∧ cfg.is_diffusive (n + cfg.Density + 1) = true) := by
        constructor
        · rintro ⟨h1, h2⟩
          rcases List.mem_cons.mp h1 with h | h
          · rw [h] at h2
            exact absurd h2 hd
          · exact ⟨h, h2⟩
        · rintro ⟨h1, h2⟩
          exact ⟨List.mem_cons_of_mem _ h1, h2⟩
      simp only [hd, if_false, Bool.false_eq_true, hmem]

/-- C20: at the old or the new time of a level whose density is the state
component `BL_SPACEDIM`, `calcDiffusivity` ends in `Abort` if and only if some
state component `c` in `[Density+1, NUM_STATE)` is diffusive with
`visc_coef[c] < 0`.  Otherwise it returns, and in the array of the selected
time every cell, ghost cells included, holds `visc_coef[c]` in component
`c - Density - 1` for every diffusive `c`, the component of every
non-diffusive `c` is as before, and the array of the other time is untouched. -/
theorem calcDiffusivity_abort_iff (cfg : Config) (visc_coef : ℕ → ℚ) (whichTime : TimeLevel)
    (st : DiffusivityArrays) (hD : cfg.Density = cfg.BL_SPACEDIM)
    (ht : whichTime = .AmrOldTime ∨ whichTime = .AmrNewTime) :
    (calcDiffusivity cfg visc_coef whichTime st = .error .abort ↔
      ∃ c, cfg.Density + 1 ≤ c ∧ c < cfg.NUM_STATE ∧ cfg.is_diffusive c = true ∧
        visc_coef c < 0) ∧
    ((¬ ∃ c, cfg.Density + 1 ≤ c ∧ c < cfg.NUM_STATE ∧ cfg.is_diffusive c = true ∧
        visc_coef c < 0) →
      ∃ st' d d', calcDiffusivity cfg visc_coef whichTime st = .ok st' ∧
        select_diff_cc whichTime st = some d ∧ select_diff_cc whichTime st' = some d' ∧
        (∀ c, cfg.Density + 1 ≤ c → c < cfg.NUM_STATE → cfg.is_diffusive c = true →
          ∀ i cell, d.inGrown d.nGrow i cell = true →
            d'.data i cell (c - cfg.Density - 1) = visc_coef c) ∧
        (∀ c, cfg.Density + 1 ≤ c → c < cfg.NUM_STATE → cfg.is_diffusive c = false →
          ∀ i cell, d'.data i cell (c - cfg.Density - 1)
            = d.data i cell (c - cfg.Density - 1)) ∧
        (whichTime = .AmrOldTime → st'.diffnp1_cc = st.diffnp1_cc) ∧
        (whichTime = .AmrNewTime → st'.diffn_cc = st.diffn_cc)) := by
  have hmem : ∀ c, c ∈ List.range' (cfg.Density + 1) (cfg.NUM_STATE - cfg.BL_SPACEDIM - 1) ↔
      (cfg.Density + 1 ≤ c ∧ c < cfg.NUM_STATE) := by
    intro c
    rw [List.mem_range'_1]
    omega
  obtain ⟨d, hsel⟩ : ∃ d, select_diff_cc whichTime st = some d := by
    rcases ht with rfl | rfl
    · exact ⟨_, rfl⟩
    · exact ⟨_, rfl⟩
  have hgood : (¬ ∃ c, cfg.Density + 1 ≤ c ∧ c < cfg.NUM_STATE ∧ cfg.is_diffusive c = true ∧
      visc_coef c < 0) →
      (List.range' (cfg.Density + 1) (cfg.NUM_STATE - cfg.BL_SPACEDIM - 1)).foldlM
        (calcDiffusivityStep cfg visc_coef) d = .ok
        ((List.range' (cfg.Density + 1) (cfg.NUM_STATE - cfg.BL_SPACEDIM - 1)).foldl
          (fun d comp => if cfg.is_diffusive comp = true then
            d.setValComp (visc_coef comp) (comp - cfg.Density - 1) else d) d) := by
    intro hno
    apply calcDiffusivity_fold_ok
    intro c hc hdiff
    by_contra hneg
    exact hno ⟨c, ((hmem c).mp hc).1, ((hmem c).mp hc).2, hdiff, not_le.mp hneg⟩
  constructor
  · constructor
    · intro herr
      by_contra hno
      have hok := hgood hno
      simp only [calcDiffusivity, hsel, hok] at herr
      exact Except.noConfusion herr
    · rintro ⟨c, h1, h2, h3, h4⟩
      have hfold := calcDiffusivity_fold_error cfg visc_coef
        (List.range' (cfg.Density + 1) (cfg.NUM_STATE - cfg.BL_SPACEDIM - 1)) d
        ⟨c, (hmem c).mpr ⟨h1, h2⟩, h3, h4⟩
      simp only [calcDiffusivity, hsel, hfold]
  · intro hno
    have hok := hgood hno
    have hdata := calcDiffusivity_fold_data cfg visc_coef
      (List.range' (cfg.Density + 1) (cfg.NUM_STATE - cfg.BL_SPACEDIM - 1))
      (fun c hc => ((hmem c).mp hc).1) d
    have hcalc : calcDiffusivity cfg visc_coef whichTime st = .ok
        (if whichTime = .AmrOldTime then { st with diffn_cc :=
          ((List.range' (cfg.Density + 1) (cfg.NUM_STATE - cfg.BL_SPACEDIM - 1)).foldl
            (fun d comp => if cfg.is_diffusive comp = true then
              d.setValComp (visc_coef comp) (comp - cfg.Density - 1) else d) d) }
        else { st with diffnp1_cc :=
          ((List.range' (cfg.Density + 1) (cfg.NUM_STATE - cfg.BL_SPACEDIM - 1)).foldl
            (fun d comp => if cfg.is_diffusive comp = true then
              d.setValComp (visc_coef comp) (comp - cfg.Density - 1) else d) d) }) := by
      simp only [calcDiffusivity, hsel, hok]
    refine ⟨_, d, (List.range' (cfg.Density + 1) (cfg.NUM_STATE - cfg.BL_SPACEDIM - 1)).foldl
      (fun d comp => if cfg.is_diffusive comp = true then
        d.setValComp (visc_coef comp) (comp - cfg.Density - 1) else d) d,
      hcalc, hsel, ?_, ?_, ?_, ?_, ?_⟩
    · rcases ht with rfl | rfl
      · rfl
      · rfl
    · intro c h1 h2 h3 i cell hg
      have hc : c - cfg.Density - 1 + cfg.Density + 1 = c := by omega
      rw [hdata, hc, if_pos ⟨hg, (hmem c).mpr ⟨h1, h2⟩, h3⟩]
    · intro c h1 h2 h3 i cell
      have hc : c - cfg.Density - 1 + cfg.Density + 1 = c := by omega
      rw [hdata, hc, if_neg]
      rintro ⟨_, _, h⟩
      rw [h3] at h
      exact Bool.false_ne_true h
    · rintro rfl
      rfl
    · rintro rfl
      rfl

/-- Witness of C20: the coarse sample level, whose tracer (component `3`) is
diffusive, with every coefficient `1/2`, at the new time. -/
theorem calcDiffusivity_abort_iff_witness :
    (calcDiffusivity syncCfg sampleViscCoef TimeLevel.AmrNewTime sampleDiffusivity
        = .error .abort ↔
      ∃ c, syncCfg.Density + 1 ≤ c ∧ c < syncCfg.NUM_STATE ∧ syncCfg.is_diffusive c = true ∧
        sampleViscCoef c < 0) ∧
    ((¬ ∃ c, syncCfg.Density + 1 ≤ c ∧ c < syncCfg.NUM_STATE ∧ syncCfg.is_diffusive c = true ∧
        sampleViscCoef c < 0) →
      ∃ st' d d',
        calcDiffusivity syncCfg sampleViscCoef TimeLevel.AmrNewTime sampleDiffusivity = .ok st' ∧
        select_diff_cc TimeLevel.AmrNewTime sampleDiffusivity = some d ∧
        select_diff_cc TimeLevel.AmrNewTime st' = some d' ∧
        (∀ c, syncCfg.Density + 1 ≤ c → c < syncCfg.NUM_STATE → syncCfg.is_diffusive c = true →
          ∀ i cell, d.inGrown d.nGrow i cell = true →
            d'.data i cell (c - syncCfg.Density - 1) = sampleViscCoef c) ∧
        (∀ c, syncCfg.Density + 1 ≤ c → c < syncCfg.NUM_STATE → syncCfg.is_diffusive c = false →
          ∀ i cell, d'.data i cell (c - syncCfg.Density - 1)
            = d.data i cell (c - syncCfg.Density - 1)) ∧
        (TimeLevel.AmrNewTime = TimeLevel.AmrOldTime →
          st'.diffnp1_cc = sampleDiffusivity.diffnp1_cc) ∧
        (TimeLevel.AmrNewTime = TimeLevel.AmrNewTime →
          st'.diffn_cc = sampleDiffusivity.diffn_cc)) :=
  calcDiffusivity_abort_iff syncCfg sampleViscCoef TimeLevel.AmrNewTime sampleDiffusivity
    (by decide) (Or.inr rfl)

theorem accumRegOps_scaled (boxes : List Box) (src : MultiFab) (g : Geometry) (m : ℚ)
    (k : ℕ) (c : IntVect) :
    accumRegOps.plusFrom ⟨boxes, fun _ _ => 0⟩ (src.multValid m) g k c
      = m * accumRegOps.plusFrom ⟨boxes, fun _ _ => 0⟩ src g k c := by
  have hv : ∀ i, (src.multValid m).inValid i c = src.inValid i c := fun i => rfl
  have hl : (src.multValid m).grids.length = src.grids.length := rfl
  simp only [accumRegOps, zero_add, hv, hl]
  generalize List.range src.grids.length = l
  induction l with
  | nil => simp
  | cons a t ih =>
    simp only [List.map_cons, List.sum_cons, ih, mul_add]
    congr 1
    by_cases h : src.inValid a c = true
    · simp only [h, if_true, MultiFab.multValid]
      ring
    · simp only [h, if_false, Bool.false_eq_true, mul_zero]

/-- C21: `CrseInit` sets the register to zero before it accumulates.  Each
entry of a boundary register afterwards is what `plusFrom` accumulates at the
node, periodic images included, from the residual scaled by `mult`, onto a
register of zeros; where that accumulation commutes with the scaling, as a sum
of residual values does, the entry is `mult` times the residual accumulated at
the node.  Two registers on the same boxes end with the same boundary
registers, whatever they held before the call. -/
theorem CrseInit_overwrites (ops : SyncRegOps) (reg : SyncRegister) (resid : MultiFab)
    (crse_geom : Geometry) (mult : ℚ)
    (hlin : ∀ face k c,
      ops.plusFrom ⟨(reg.bndry face).boxes, fun _ _ => 0⟩ (resid.multValid mult) crse_geom k c
        = mult * ops.plusFrom ⟨(reg.bndry face).boxes, fun _ _ => 0⟩ resid crse_geom k c) :
    (∀ face k c, ((CrseInit ops reg resid crse_geom mult).1.bndry face).data k c =
      ops.plusFrom ⟨(reg.bndry face).boxes, fun _ _ => 0⟩ (resid.multValid mult)
        crse_geom k c) ∧
    (∀ face k c, ((CrseInit ops reg resid crse_geom mult).1.bndry face).data k c =
      mult * ops.plusFrom ⟨(reg.bndry face).boxes, fun _ _ => 0⟩ resid crse_geom k c) ∧
    (∀ face, ((CrseInit ops reg resid crse_geom mult).1.bndry face).boxes
      = (reg.bndry face).boxes) ∧
    (∀ reg' : SyncRegister, (∀ face, (reg'.bndry face).boxes = (reg.bndry face).boxes) →
      (CrseInit ops reg' resid crse_geom mult).1.bndry
        = (CrseInit ops reg resid crse_geom mult).1.bndry) := by
  refine ⟨fun face k c => rfl, fun face k c => ?_, fun face => rfl, ?_⟩
  · exact hlin face k c
  · intro reg' hboxes
    funext face
    simp only [CrseInit, SyncRegister.setValZero, hboxes face]

/-- Witness of C21: the sample register, which holds `4`, and a residual that
holds `3` on the grid `[0,3] x [0,3]`, with `mult = 5`. -/
theorem CrseInit_overwrites_witness :
    (∀ face k c,
      ((CrseInit accumRegOps sampleReg (constMF 3) sampleGeom 5).1.bndry face).data k c =
      accumRegOps.plusFrom ⟨(sampleReg.bndry face).boxes, fun _ _ => 0⟩
        ((constMF 3).multValid 5) sampleGeom k c) ∧
    (∀ face k c,
      ((CrseInit accumRegOps sampleReg (constMF 3) sampleGeom 5).1.bndry face).data k c =
      5 * accumRegOps.plusFrom ⟨(sampleReg.bndry face).boxes, fun _ _ => 0⟩ (constMF 3)
        sampleGeom k c) ∧
    (∀ face, ((CrseInit accumRegOps sampleReg (constMF 3) sampleGeom 5).1.bndry face).boxes
      = (sampleReg.bndry face).boxes) ∧
    (∀ reg' : SyncRegister, (∀ face, (reg'.bndry face).boxes = (sampleReg.bndry face).boxes) →
      (CrseInit accumRegOps reg' (constMF 3) sampleGeom 5).1.bndry
        = (CrseInit accumRegOps sampleReg (constMF 3) sampleGeom 5).1.bndry) :=
  CrseInit_overwrites accumRegOps sampleReg (constMF 3) sampleGeom 5
    (fun _ k c => accumRegOps_scaled _ (constMF 3) sampleGeom 5 k c)

theorem mac_sync_reflux_Ssync_plain {ρ : Type} (ops : SyncOps ρ) (cfg : Config) (dt : ℚ)
    (st : SyncLevel ρ) (i : ℕ) (c : IntVect) (sigma : ℕ)
    (hq : isConservedScalar cfg (cfg.BL_SPACEDIM + sigma) = false)
    (hnd : cfg.is_diffusive (cfg.BL_SPACEDIM + sigma) = false) :
    (mac_sync_reflux ops cfg dt st).Ssync.data i c sigma =
      dt * (ops.mac_sync_compute dt st).2.1 i c sigma := by
  have hother : ∀ x, x ∈ List.range' cfg.BL_SPACEDIM (cfg.NUM_STATE - cfg.BL_SPACEDIM) →
      isConservedScalar cfg x = true → x - cfg.BL_SPACEDIM ≠ sigma := by
    intro x hx hc hxs
    have hx1 := (List.mem_range'_1.mp hx).1
    have : x = cfg.BL_SPACEDIM + sigma := by omega
    rw [this, hq] at hc
    exact Bool.false_ne_true hc
  unfold mac_sync_reflux
  obtain ⟨_, i2⟩ := mac_sync_interp_frame ops cfg (mac_sync_add ops cfg (mac_sync_readd cfg
    (mac_sync_viscous ops cfg dt (mac_sync_velocity ops cfg dt
      (mac_sync_subtract cfg (mac_sync_scale ops dt st))))))
  obtain ⟨a1, _⟩ := mac_sync_add_frame ops cfg (mac_sync_readd cfg
    (mac_sync_viscous ops cfg dt (mac_sync_velocity ops cfg dt
      (mac_sync_subtract cfg (mac_sync_scale ops dt st)))))
  obtain ⟨_, _, _, v4⟩ := foldl_viscous ops cfg dt
    (List.range (cfg.NUM_STATE - cfg.BL_SPACEDIM)) (List.nodup_range _)
    (mac_sync_velocity ops cfg dt (mac_sync_subtract cfg (mac_sync_scale ops dt st)))
  obtain ⟨_, w2, _⟩ := mac_sync_velocity_frame ops cfg dt
    (mac_sync_subtract cfg (mac_sync_scale ops dt st))
  rw [i2, a1]
  have hre : (mac_sync_readd cfg (mac_sync_viscous ops cfg dt (mac_sync_velocity ops cfg dt
      (mac_sync_subtract cfg (mac_sync_scale ops dt st))))).Ssync.data i c sigma
      = (mac_sync_viscous ops cfg dt (mac_sync_velocity ops cfg dt
          (mac_sync_subtract cfg (mac_sync_scale ops dt st)))).Ssync.data i c sigma :=
    foldl_readd_other cfg _ _ _ i c sigma hother
  have hvis : (mac_sync_viscous ops cfg dt (mac_sync_velocity ops cfg dt
      (mac_sync_subtract cfg (mac_sync_scale ops dt st)))).Ssync.data i c sigma
      = (mac_sync_subtract cfg (mac_sync_scale ops dt st)).Ssync.data i c sigma := by
    unfold mac_sync_viscous
    rw [v4 i c sigma, w2, if_neg]
    rintro ⟨_, h⟩
    rw [hnd] at h
    exact Bool.false_ne_true h
  have hsub : (mac_sync_subtract cfg (mac_sync_scale ops dt st)).Ssync.data i c sigma
      = (mac_sync_scale ops dt st).Ssync.data i c sigma :=
    foldl_deltaSsync_Ssync_other cfg _ _ _ i c sigma hother
  rw [hre, hvis, hsub]
  simp only [mac_sync_scale, MultiFab.mult]
  ring

/-- C22: in `mac_sync` with `do_reflux` set and no diffusive scalar, at every
cell that is valid in the new-time state and in `Ssync` and where the new-time
density is not zero, every scalar component `BL_SPACEDIM + sigma` of the
new-time state ends as its value before plus `dt` times the `Ssync` that
`mac_sync_compute` returned, whether the component is conservative or not:
what the first loop subtracts as `DeltaSsync` the second adds back.  For a
conservative component other than the density the `Ssync` between the two
loops, times the density, is `dt` times the returned `Ssync` times the density
less the component times `dt` times the density sync. -/
theorem mac_sync_round_trip {ρ : Type} (ops : SyncOps ρ) (cfg : Config) (dt : ℚ)
    (st : SyncLevel ρ) (hr : cfg.do_reflux = true) (hD : cfg.BL_SPACEDIM ≤ cfg.Density)
    (hnd : ∀ sigma, sigma < cfg.NUM_STATE - cfg.BL_SPACEDIM →
      cfg.is_diffusive (cfg.BL_SPACEDIM + sigma) = false)
    (i : ℕ) (c : IntVect) (hval : st.S_new.inValid i c = true)
    (hvalS : st.Ssync.inValid i c = true)
    (hrho : st.S_new.data i c cfg.Density ≠ 0)
    (sigma : ℕ) (hs : sigma < cfg.NUM_STATE - cfg.BL_SPACEDIM) :
    (mac_sync ops cfg dt st).S_new.data i c (cfg.BL_SPACEDIM + sigma) =
      st.S_new.data i c (cfg.BL_SPACEDIM + sigma)
        + dt * (ops.mac_sync_compute dt (mac_sync_entry ops cfg dt st)).2.1 i c sigma ∧
    (isConservedScalar cfg (cfg.BL_SPACEDIM + sigma) = true →
      (mac_sync_subtract cfg (mac_sync_scale ops dt
          (mac_sync_entry ops cfg dt st))).Ssync.data i c sigma
          * st.S_new.data i c cfg.Density =
        dt * (ops.mac_sync_compute dt (mac_sync_entry ops cfg dt st)).2.1 i c sigma
            * st.S_new.data i c cfg.Density
          - st.S_new.data i c (cfg.BL_SPACEDIM + sigma)
            * (dt * (ops.mac_sync_compute dt (mac_sync_entry ops cfg dt st)).2.1 i c
                (cfg.Density - cfg.BL_SPACEDIM))) := by
  have hv : (mac_sync_entry ops cfg dt st).S_new.inValid i c = true := hval
  constructor
  · have hS := mac_sync_reflux_S_new ops cfg dt (mac_sync_entry ops cfg dt st) i c sigma hs hval
    have hmac : (mac_sync ops cfg dt st).S_new
        = (mac_sync_reflux ops cfg dt (mac_sync_entry ops cfg dt st)).S_new := by
      simp only [mac_sync, hr, if_true]
    rw [hmac, hS]
    congr 1
    cases hq : isConservedScalar cfg (cfg.BL_SPACEDIM + sigma)
    · exact mac_sync_reflux_Ssync_plain ops cfg dt _ i c sigma hq (hnd sigma hs)
    · have h := mac_sync_reflux_Ssync_conserved ops cfg dt (mac_sync_entry ops cfg dt st) i c
        sigma hs hq hD hval hvalS
      rw [mac_sync_subtract_field ops cfg dt (mac_sync_entry ops cfg dt st) sigma hs hq hD] at h
      rw [h]
      simp only [viscousSync, hnd sigma hs, Bool.false_eq_true, if_false, hv, if_true]
      ring
  · intro hq
    have h := congrFun (congrFun
      (mac_sync_subtract_field ops cfg dt (mac_sync_entry ops cfg dt st) sigma hs hq hD) i) c
    have hS : (mac_sync_entry ops cfg dt st).S_new = st.S_new := rfl
    simp only [hv, if_true, deltaRhoQ] at h
    rw [h, hS]
    field_simp

/-- Witness of C22: the conservative tracer (`sigma = 1`) at the cell `(0,0)`
of the coarse sample level without diffusion, where the density is `2`. -/
theorem mac_sync_round_trip_witness :
    sampleSyncLevel.S_new.data 0 [0, 0] (coarseCfg 0 (fun _ => .Conservative)).Density ≠ 0 ∧
    isConservedScalar (coarseCfg 0 (fun _ => .Conservative))
      ((coarseCfg 0 (fun _ => .Conservative)).BL_SPACEDIM + 1) = true ∧
    (mac_sync sampleSyncOps (coarseCfg 0 (fun _ => .Conservative)) (1 / 2)
        sampleSyncLevel).S_new.data 0 [0, 0]
        ((coarseCfg 0 (fun _ => .Conservative)).BL_SPACEDIM + 1) =
      sampleSyncLevel.S_new.data 0 [0, 0]
          ((coarseCfg 0 (fun _ => .Conservative)).BL_SPACEDIM + 1)
        + 1 / 2 * (sampleSyncOps.mac_sync_compute (1 / 2)
            (mac_sync_entry sampleSyncOps (coarseCfg 0 (fun _ => .Conservative)) (1 / 2)
              sampleSyncLevel)).2.1 0 [0, 0] 1 ∧
    (mac_sync_subtract (coarseCfg 0 (fun _ => .Conservative))
        (mac_sync_scale sampleSyncOps (1 / 2)
          (mac_sync_entry sampleSyncOps (coarseCfg 0 (fun _ => .Conservative)) (1 / 2)
            sampleSyncLevel))).Ssync.data 0 [0, 0] 1
        * sampleSyncLevel.S_new.data 0 [0, 0] (coarseCfg 0 (fun _ => .Conservative)).Density =
      1 / 2 * (sampleSyncOps.mac_sync_compute (1 / 2)
            (mac_sync_entry sampleSyncOps (coarseCfg 0 (fun _ => .Conservative)) (1 / 2)
              sampleSyncLevel)).2.1 0 [0, 0] 1
          * sampleSyncLevel.S_new.data 0 [0, 0] (coarseCfg 0 (fun _ => .Conservative)).Density
        - sampleSyncLevel.S_new.data 0 [0, 0]
            ((coarseCfg 0 (fun _ => .Conservative)).BL_SPACEDIM + 1)
          * (1 / 2 * (sampleSyncOps.mac_sync_compute (1 / 2)
              (mac_sync_entry sampleSyncOps (coarseCfg 0 (fun _ => .Conservative)) (1 / 2)
                sampleSyncLevel)).2.1 0 [0, 0]
              ((coarseCfg 0 (fun _ => .Conservative)).Density
                - (coarseCfg 0 (fun _ => .Conservative)).BL_SPACEDIM)) :=
  ⟨by simp only [sampleSyncLevel]; split_ifs <;> norm_num, by decide,
    (mac_sync_round_trip sampleSyncOps (coarseCfg 0 (fun _ => .Conservative)) (1 / 2)
      sampleSyncLevel rfl (by decide) (fun _ _ => rfl) 0 [0, 0] (by decide) (by decide)
      (by simp only [sampleSyncLevel]; split_ifs <;> norm_num) 1 (by decide)).1,
    (mac_sync_round_trip sampleSyncOps (coarseCfg 0 (fun _ => .Conservative)) (1 / 2)
      sampleSyncLevel rfl (by decide) (fun _ _ => rfl) 0 [0, 0] (by decide) (by decide)
      (by simp only [sampleSyncLevel]; split_ifs <;> norm_num) 1 (by decide)).2 (by decide)⟩

theorem recordOutflow_foldlM_none (D : ℕ) (phys_bc : BCRec) (l : List ℕ)
    (acc : List ℤ × ℕ) (hacc : acc.2 ≤ D - 1)
    (h : D - 1 < acc.2 + l.countP (isOutflowDir phys_bc)) :
    l.foldlM
      (fun (acc : List ℤ × ℕ) dir =>
        if phys_bc.lo dir = Outflow ∨ phys_bc.hi dir = Outflow then
          if acc.2 < D - 1 then some (acc.1.set acc.2 (dir : ℤ), acc.2 + 1) else none
        else some acc) acc = none := by
  induction l generalizing acc with
  | nil =>
    simp only [List.countP_nil, add_zero] at h
    omega
  | cons d t ih =>
    simp only [List.foldlM_cons]
    by_cases hd : phys_bc.lo d = Outflow ∨ phys_bc.hi d = Outflow
    · have hq : isOutflowDir phys_bc d = true := by simp [isOutflowDir, hd]
      rw [List.countP_cons_of_pos _ _ hq] at h
      by_cases hlt : acc.2 < D - 1
      · simp only [hd, if_true, hlt, Option.some_bind, Option.bind_eq_bind]
        exact ih (acc.1.set acc.2 (d : ℤ), acc.2 + 1) (by simp only; omega)
          (by simp only; omega)
      · simp only [hd, if_true, hlt, if_false, Option.none_bind, Option.bind_eq_bind]
    · have hq : ¬ isOutflowDir phys_bc d = true := by simp [isOutflowDir, hd]
      rw [List.countP_cons_of_neg _ _ hq] at h
      simp only [hd, if_false, Option.some_bind, Option.bind_eq_bind]
      exact ih acc hacc h

/-- C23 (the code at the failing input): the loop of `InitRHS` that records the
outflow directions writes past the `BL_SPACEDIM-1` entries of `outflow_dirs`
exactly when every direction has an `Outflow` boundary; so it does in three
dimensions with `Outflow` on every low side, and in two with `Outflow` on every
high side. -/
theorem recordOutflow_writes_past_end :
    recordOutflow 3 (sampleBC Outflow 1) = none ∧
    recordOutflow 2 (sampleBC 1 Outflow) = none ∧
    (∀ (D : ℕ) (phys_bc : BCRec),
      recordOutflow D phys_bc = none ↔
        D - 1 < (List.range D).countP (isOutflowDir phys_bc)) := by
  refine ⟨by decide, by decide, ?_⟩
  intro D phys_bc
  constructor
  · intro hnone
    by_contra hle
    obtain ⟨r, hr⟩ := recordOutflow_isSome D phys_bc (not_lt.mp hle)
    rw [hr] at hnone
    exact Option.noConfusion hnone
  · intro h
    exact recordOutflow_foldlM_none D phys_bc (List.range D) _ (Nat.zero_le _)
      (by simpa using h)

theorem compAddGrid_of_disjoint (ops : SyncRegOps) (fine_geom : Geometry) (Pgrids : List Box)
    (data : FabData) (k : ℕ) (sync_box : Box)
    (h : ∀ P, P ∈ Pgrids → (P.inter sync_box).ok = false) :
    compAddGrid ops fine_geom Pgrids data k sync_box = data := by
  unfold compAddGrid
  induction Pgrids generalizing data with
  | nil => rfl
  | cons P t ih =>
    rw [List.foldl_cons]
    simp only [h P (List.mem_cons_self _ _), Bool.false_eq_true, if_false]
    exact ih data (fun Q hQ => h Q (List.mem_cons_of_mem _ hQ))

/-- C24 (the code at the failing input): `CompAdd` looks for the periodic
shifts of a box of `Pgrids` only when the box itself meets the residual box.
When no box of `Pgrids` meets a residual box, the residual goes to `FineAdd`
unchanged.  On a domain that is periodic in the first direction, with the
residual `1` on the nodes `[0,0] x [2,2]` and the box `[6,0] x [8,2]` in
`Pgrids`, the node `(0,1)` lies in the shift of that box by `(-8,0)`, a shift
`periodicShift` returns, and the residual there stays `1`. -/
theorem CompAdd_skips_periodic_image :
    periodicRegOps.periodicShift periodicGeom ⟨[0, 0], [2, 2]⟩ ⟨[6, 0], [8, 2]⟩ = [[-8, 0]] ∧
    (((⟨[6, 0], [8, 2]⟩ : Box).shift [-8, 0]).inter ⟨[0, 0], [2, 2]⟩).contains [0, 1] = true ∧
    (CompAdd_mask periodicRegOps periodicGeom [⟨[6, 0], [8, 2]⟩] sampleEdgeResid).data 0 [0, 1] 0
      = 1 ∧
    (∀ (ops : SyncRegOps) (fine_geom : Geometry) (Pgrids : List Box) (fine : MultiFab),
      (∀ k P, k < fine.grids.length → P ∈ Pgrids →
        (P.inter (fine.grids.getD k ⟨[], []⟩)).ok = false) →
      CompAdd_mask ops fine_geom Pgrids fine = fine) := by
  have hgen : ∀ (ops : SyncRegOps) (fine_geom : Geometry) (Pgrids : List Box)
      (fine : MultiFab),
      (∀ k P, k < fine.grids.length → P ∈ Pgrids →
        (P.inter (fine.grids.getD k ⟨[], []⟩)).ok = false) →
      CompAdd_mask ops fine_geom Pgrids fine = fine := by
    intro ops fine_geom Pgrids fine h
    unfold CompAdd_mask
    have hfold : ∀ (l : List ℕ) (data : FabData), (∀ k, k ∈ l → k < fine.grids.length) →
        l.foldl (fun data k =>
          compAddGrid ops fine_geom Pgrids data k (fine.grids.getD k ⟨[], []⟩)) data = data := by
      intro l
      induction l with
      | nil => intro data _; rfl
      | cons a t ih =>
        intro data hl
        rw [List.foldl_cons, compAddGrid_of_disjoint ops fine_geom Pgrids data a _
          (fun P hP => h a P (hl a (List.mem_cons_self _ _)) hP)]
        exact ih data (fun k hk => hl k (List.mem_cons_of_mem _ hk))
    rw [hfold _ _ (fun k hk => List.mem_range.mp hk)]
  refine ⟨by decide, by decide, ?_, hgen⟩
  rw [hgen periodicRegOps periodicGeom [⟨[6, 0], [8, 2]⟩] sampleEdgeResid]
  · rfl
  · intro k P hk hP
    rw [List.mem_singleton.mp hP]
    have hk0 : k = 0 := by
      have : k < 1 := hk
      omega
    rw [hk0]
    decide

theorem incrRhoAvgWeight_sum (m : ℕ) :
    ((List.range (m + 1)).map (fun k : ℕ => incrRhoAvgWeight ((k : ℤ) + 1) ((m + 1 : ℕ) : ℤ))).sum
      = 1 - 1 / (2 * ((m + 1 : ℕ) : ℚ)) := by
  have hpre : ∀ l : List ℕ, (∀ k, k ∈ l → k < m) →
      (l.map (fun k : ℕ => incrRhoAvgWeight ((k : ℤ) + 1) ((m + 1 : ℕ) : ℤ))).sum
        = (l.length : ℚ) * (1 / ((m + 1 : ℕ) : ℚ)) := by
    intro l
    induction l with
    | nil => intro _; simp
    | cons a t ih =>
      intro hl
      have ha := hl a (List.mem_cons_self _ _)
      have hne : ¬ ((a : ℤ) + 1 = ((m + 1 : ℕ) : ℤ)) := by
        push_cast
        omega
      rw [List.map_cons, List.sum_cons, ih (fun k hk => hl k (List.mem_cons_of_mem _ hk)),
        List.length_cons]
      simp only [incrRhoAvgWeight, hne, if_false]
      push_cast
      ring
  rw [List.range_succ, List.map_append, List.sum_append,
    hpre (List.range m) (fun k hk => List.mem_range.mp hk), List.length_range]
  have hm : ((m : ℚ) + 1) ≠ 0 := by positivity
  have he : ((m : ℤ) + 1 = ((m + 1 : ℕ) : ℤ)) := by push_cast; rfl
  simp only [List.map_cons, List.map_nil, List.sum_cons, List.sum_nil, incrRhoAvgWeight,
    add_zero, he, if_true]
  push_cast
  field_simp
  ring

/-- C25: at a level above `0` outside the initial step, with `ncycle >= 1` and
no NaN in the scalars, `advance` returns at every iteration and calls
`incrRhoAvg` once, with the weight `incrRhoAvgWeight iteration ncycle`; that
weight is `1/ncycle` for every iteration but `ncycle`, `1/(2*ncycle)` for the
iteration `ncycle`, and the weights of the iterations `1..ncycle` sum to
`1 - 1/(2*ncycle)`. -/
theorem incrRhoAvg_weights (nan : List Call → ℕ → Bool) (cfg : Config) (n : ℕ)
    (hn : 1 ≤ n) (hlev : 0 < cfg.level) (hinit : cfg.initial_step = false)
    (hnan : ∀ t k, nan t k = false) :
    (∀ (time dt : ℚ) (iteration : ℤ), ∃ tr r,
      advance (traceOps nan) cfg time dt iteration (n : ℤ) [] = some (tr, r) ∧
      tr.filter Call.isIncrRhoAvg = [Call.incrRhoAvg (incrRhoAvgWeight iteration (n : ℤ))]) ∧
    (∀ iteration : ℤ, iteration ≠ (n : ℤ) →
      incrRhoAvgWeight iteration (n : ℤ) = 1 / (n : ℚ)) ∧
    incrRhoAvgWeight (n : ℤ) (n : ℤ) = 1 / (2 * (n : ℚ)) ∧
    ((List.range n).map (fun k : ℕ => incrRhoAvgWeight ((k : ℤ) + 1) (n : ℤ))).sum
      = 1 - 1 / (2 * (n : ℚ)) := by
  refine ⟨?_, ?_, ?_, ?_⟩
  · intro time dt iteration
    obtain ⟨tr, h⟩ := advance_isSome (traceOps nan) cfg time dt iteration (n : ℤ) []
      (fun t k => hnan t k)
    refine ⟨tr, _, h, ?_⟩
    have htr := advance_trace nan cfg time dt iteration (n : ℤ) [] tr _ h
    rw [List.nil_append] at htr
    obtain ⟨pre, post, hsplit, hpre, hpost⟩ := advanceCalls_split cfg time dt iteration (n : ℤ)
    have hA : ∀ l : List Call, (∀ e, e ∈ l → e.stage ≠ 8) →
        l.filter Call.isIncrRhoAvg = [] := by
      intro l hl
      rw [List.filter_eq_nil_iff]
      intro e he hs
      exact hl e he (stage_of_tail_call e (Or.inr (Or.inl hs)))
    rw [htr, hsplit, List.filter_append, List.filter_append, hA pre hpre, hA post hpost]
    cases hp : cfg.projector <;> by_cases h1 : iteration = 1 <;>
      simp [hinit, hlev, h1, Call.isIncrRhoAvg, List.filter, incrRhoAvgWeight]
  · intro iteration hne
    simp only [incrRhoAvgWeight, hne, if_false]
    push_cast
    rfl
  · simp only [incrRhoAvgWeight, if_true]
    rw [div_div]
    push_cast
    rfl
  · obtain ⟨m, rfl⟩ : ∃ m, n = m + 1 := ⟨n - 1, by omega⟩
    exact incrRhoAvgWeight_sum m

/-- Witness of C25: level `1` of two levels, with `ncycle = 2`. -/
theorem incrRhoAvg_weights_witness :
    (∀ (time dt : ℚ) (iteration : ℤ), ∃ tr r,
      advance (traceOps (fun _ _ => false)) { sampleCfg 1 with level := 1, finestLevel := 1 }
        time dt iteration ((2 : ℕ) : ℤ) [] = some (tr, r) ∧
      tr.filter Call.isIncrRhoAvg
        = [Call.incrRhoAvg (incrRhoAvgWeight iteration ((2 : ℕ) : ℤ))]) ∧
    (∀ iteration : ℤ, iteration ≠ ((2 : ℕ) : ℤ) →
      incrRhoAvgWeight iteration ((2 : ℕ) : ℤ) = 1 / ((2 : ℕ) : ℚ)) ∧
    incrRhoAvgWeight ((2 : ℕ) : ℤ) ((2 : ℕ) : ℤ) = 1 / (2 * ((2 : ℕ) : ℚ)) ∧
    ((List.range 2).map
      (fun k : ℕ => incrRhoAvgWeight ((k : ℤ) + 1) ((2 : ℕ) : ℤ))).sum
      = 1 - 1 / (2 * ((2 : ℕ) : ℚ)) :=
  incrRhoAvg_weights (fun _ _ => false) { sampleCfg 1 with level := 1, finestLevel := 1 } 2
    (by decide) (by decide) rfl (fun _ _ => rfl)

theorem foldl_establish {α β : Type} (P : α → Prop) (f : α → β → α) (l : List β) (x : β)
    (hx : x ∈ l) (hpres : ∀ a b, P a → P (f a b)) (hest : ∀ a, P (f a x)) (a : α) :
    P (l.foldl f a) := by
  induction l generalizing a with
  | nil => exact absurd hx (List.not_mem_nil x)
  | cons b t ih =>
    rw [List.foldl_cons]
    rcases List.mem_cons.mp hx with rfl | hx'
    · have hkeep : ∀ (l : List β) (a : α), P a → P (l.foldl f a) := by
        intro l
        induction l with
        | nil => intro a ha; exact ha
        | cons c u ihu => intro a ha; exact ihu (f a c) (hpres a c ha)
      exact hkeep t _ (hest a)
    · exact ih hx' (f a b)

theorem foldl_preserve {α β : Type} (P : α → Prop) (f : α → β → α) (l : List β)
    (hpres : ∀ a b, P a → P (f a b)) (a : α) (ha : P a) : P (l.foldl f a) := by
  induction l generalizing a with
  | nil => exact ha
  | cons c u ih => exact ih (f a c) (hpres a c ha)

theorem recordOutflow_foldlM_spec (D : ℕ) (phys_bc : BCRec) (l : List ℕ)
    (acc r : List ℤ × ℕ) (hlen : acc.1.length = D - 1)
    (h : l.foldlM
      (fun (acc : List ℤ × ℕ) dir =>
        if phys_bc.lo dir = Outflow ∨ phys_bc.hi dir = Outflow then
          if acc.2 < D - 1 then some (acc.1.set acc.2 (dir : ℤ), acc.2 + 1) else none
        else some acc) acc = some r) :
    acc.2 ≤ r.2 ∧ (∀ n, n < acc.2 → r.1.getD n 0 = acc.1.getD n 0) ∧
    ∀ d, d ∈ l → isOutflowDir phys_bc d = true →
      ∃ n, acc.2 ≤ n ∧ n < r.2 ∧ r.1.getD n 0 = (d : ℤ) := by
  induction l generalizing acc with
  | nil =>
    simp only [List.foldlM_nil, Option.pure_def, Option.some.injEq] at h
    subst h
    exact ⟨le_refl _, fun _ _ => rfl, fun d hd => absurd hd (List.not_mem_nil d)⟩
  | cons a t ih =>
    simp only [List.foldlM_cons] at h
    by_cases hd : phys_bc.lo a = Outflow ∨ phys_bc.hi a = Outflow
    · by_cases hlt : acc.2 < D - 1
      · simp only [hd, if_true, hlt, Option.some_bind, Option.bind_eq_bind] at h
        obtain ⟨h1, h2, h3⟩ := ih (acc.1.set acc.2 (a : ℤ), acc.2 + 1)
          (by simp only [List.length_set]; exact hlen) h
        simp only at h1 h2 h3
        have hrec : r.1.getD acc.2 0 = (a : ℤ) := by
          rw [h2 acc.2 (Nat.lt_succ_self _)]
          simp only [List.getD_eq_getElem?_getD, List.getElem?_set_self (by omega : acc.2 < acc.1.length),
            Option.getD_some]
        refine ⟨by omega, ?_, ?_⟩
        · intro n hn
          rw [h2 n (by omega)]
          simp only [List.getD_eq_getElem?_getD, List.getElem?_set_ne (by omega : acc.2 ≠ n)]
        · intro d hdm hq
          rcases List.mem_cons.mp hdm with rfl | hdt
          · exact ⟨acc.2, le_refl _, by omega, hrec⟩
          · obtain ⟨n, hn1, hn2, hn3⟩ := h3 d hdt hq
            exact ⟨n, by omega, hn2, hn3⟩
      · simp only [hd, if_true, hlt, if_false, Option.none_bind, Option.bind_eq_bind] at h
        exact Option.noConfusion h
    · simp only [hd, if_false, Option.some_bind, Option.bind_eq_bind] at h
      obtain ⟨h1, h2, h3⟩ := ih acc hlen h
      refine ⟨h1, h2, ?_⟩
      intro d hdm hq
      rcases List.mem_cons.mp hdm with rfl | hdt
      · have : isOutflowDir phys_bc d = false := by simp [isOutflowDir, hd]
        rw [this] at hq
        exact absurd hq Bool.false_ne_true
      · exact h3 d hdt hq

theorem inRange_inter (l1 h1 l2 h2 c : List ℤ) (ha : inRange l1 h1 c = true)
    (hb : inRange l2 h2 c = true) :
    inRange (List.zipWith max l1 l2) (List.zipWith min h1 h2) c = true := by
  induction c generalizing l1 h1 l2 h2 with
  | nil =>
    cases l1 <;> cases h1 <;> cases l2 <;> cases h2 <;> simp_all [inRange]
  | cons x cs ih =>
    cases l1 with
    | nil => cases h1 <;> simp [inRange] at ha
    | cons a l1 =>
      cases h1 with
      | nil => simp [inRange] at ha
      | cons b h1 =>
        cases l2 with
        | nil => cases h2 <;> simp [inRange] at hb
        | cons a2 l2 =>
          cases h2 with
          | nil => simp [inRange] at hb
          | cons b2 h2 =>
            simp only [inRange, Bool.and_eq_true, decide_eq_true_eq] at ha hb
            simp only [List.zipWith_cons_cons, inRange, Bool.and_eq_true, decide_eq_true_eq]
            exact ⟨⟨max_le ha.1.1 hb.1.1, le_min ha.1.2 hb.1.2⟩, ih l1 h1 l2 h2 ha.2 hb.2⟩

theorem ok_of_inRange (l h c : List ℤ) (hc : inRange l h c = true) : Box.ok ⟨l, h⟩ = true := by
  induction c generalizing l h with
  | nil => cases l <;> cases h <;> simp_all [inRange, Box.ok]
  | cons x cs ih =>
    cases l with
    | nil => cases h <;> simp [inRange] at hc
    | cons a l =>
      cases h with
      | nil => simp [inRange] at hc
      | cons b h =>
        simp only [inRange, Bool.and_eq_true, decide_eq_true_eq] at hc
        have hrec := ih l h hc.2
        simp only [Box.ok, Bool.and_eq_true, decide_eq_true_eq, List.length_cons,
          List.zipWith_cons_cons, List.all_cons, id_eq] at hrec ⊢
        exact ⟨by omega, ⟨le_trans hc.1.1 hc.1.2, hrec.2⟩⟩

theorem inter_contains (a b : Box) (c : IntVect) (ha : a.contains c = true)
    (hb : b.contains c = true) :
    (a.inter b).ok = true ∧ (a.inter b).contains c = true :=
  ⟨ok_of_inRange _ _ c (inRange_inter _ _ _ _ c ha hb), inRange_inter _ _ _ _ c ha hb⟩

theorem zeroOnBox_keeps_zero (data : FabData) (j : ℕ) (bx : Box) (i : ℕ) (c : IntVect)
    (h : data i c 0 = 0) : zeroOnBox data j bx i c 0 = 0 := by
  unfold zeroOnBox
  split_ifs
  · rfl
  · exact h

theorem zeroOutflow_zero (phys_bc : BCRec) (node_domain : Box) (grids : List Box)
    (outflow_dirs : List ℤ) (nOutflow : ℕ) (data : FabData) (dir n0 i : ℕ) (c : IntVect)
    (hn0 : n0 < nOutflow) (hdir : (outflow_dirs.getD n0 0).toNat = dir)
    (hi : i < grids.length) (hc : (grids.getD i ⟨[], []⟩).contains c = true)
    (hface : (phys_bc.lo dir = Outflow ∧ (node_domain.loFace dir).contains c = true) ∨
      (phys_bc.hi dir = Outflow ∧ (node_domain.hiFace dir).contains c = true)) :
    zeroOutflow phys_bc node_domain grids outflow_dirs nOutflow data i c 0 = 0 := by
  unfold zeroOutflow
  have hinner : ∀ (d : ℕ) (a : FabData) (j : ℕ), a i c 0 = 0 →
      (if phys_bc.hi d = Outflow
        then zeroOnBox (if phys_bc.lo d = Outflow
            then zeroOnBox a j ((grids.getD j ⟨[], []⟩).inter (node_domain.loFace d)) else a) j
          ((grids.getD j ⟨[], []⟩).inter (node_domain.hiFace d))
        else (if phys_bc.lo d = Outflow
            then zeroOnBox a j ((grids.getD j ⟨[], []⟩).inter (node_domain.loFace d)) else a))
        i c 0 = 0 := by
    intro d a j ha
    split_ifs
    · exact zeroOnBox_keeps_zero _ _ _ i c (zeroOnBox_keeps_zero _ _ _ i c ha)
    · exact zeroOnBox_keeps_zero _ _ _ i c ha
    · exact zeroOnBox_keeps_zero _ _ _ i c ha
    · exact ha
  apply foldl_establish (fun a : FabData => a i c 0 = 0) _ (List.range nOutflow) n0
    (List.mem_range.mpr hn0)
  · intro a n ha
    exact foldl_preserve (fun a : FabData => a i c 0 = 0) _ (List.range grids.length)
      (fun a j ha => hinner _ a j ha) a ha
  · intro a
    simp only [hdir]
    apply foldl_establish (fun a : FabData => a i c 0 = 0) _ (List.range grids.length) i
      (List.mem_range.mpr hi)
    · intro a j ha
      exact hinner _ a j ha
    · intro a
      rcases hface with ⟨hlo, hcl⟩ | ⟨hhi, hch⟩
      · obtain ⟨hok, hcon⟩ := inter_contains _ _ c hc hcl
        have hz : zeroOnBox a i ((grids.getD i ⟨[], []⟩).inter (node_domain.loFace dir))
            i c 0 = 0 := by
          simp only [zeroOnBox, hok, hcon, and_self, if_true]
        simp only [hlo, if_true]
        split_ifs
        · exact zeroOnBox_keeps_zero _ _ _ i c hz
        · exact hz
      · obtain ⟨hok, hcon⟩ := inter_contains _ _ c hc hch
        simp only [hhi, if_true, zeroOnBox, hok, hcon, and_self]

theorem multiplyByMasks_keeps_zero (ops : SyncRegOps) (D : ℕ) (mask : ℕ → FabSet)
    (rhs : MultiFab) (i : ℕ) (c : IntVect) (h : rhs.data i c 0 = 0) :
    (multiplyByMasks ops D mask rhs).data i c 0 = 0 := by
  unfold multiplyByMasks
  apply foldl_preserve (fun r : MultiFab => r.data i c 0 = 0) _ (List.range (2 * D)) _ rhs h
  intro a face ha
  simp only
  split_ifs
  · rw [ha, zero_mul]
  · exact ha

/-- C26: when at most `BL_SPACEDIM-1` directions have an outflow boundary,
`InitRHS` returns, and at every valid node of `rhs` on the low (high) face of
the node-centred domain in a direction whose low (high) boundary is `Outflow`
the component `0` of `rhs` is `0` before the multiplication by the boundary
masks (`rhs0`) and after it. -/
theorem InitRHS_outflow_zero (ops : SyncRegOps) (D : ℕ) (reg : SyncRegister) (rhs : MultiFab)
    (geom : Geometry) (phys_bc : BCRec)
    (hout : (List.range D).countP (isOutflowDir phys_bc) ≤ D - 1) :
    ∃ reg' rhs0, InitRHS ops D reg rhs geom phys_bc
        = some (reg', multiplyByMasks ops D reg'.bndry_mask rhs0) ∧
      ∀ dir i c, dir < D → i < rhs.grids.length →
        (rhs.grids.getD i ⟨[], []⟩).contains c = true →
        ((phys_bc.lo dir = Outflow ∧
            (geom.Domain.surroundingNodes.loFace dir).contains c = true) ∨
          (phys_bc.hi dir = Outflow ∧
            (geom.Domain.surroundingNodes.hiFace dir).contains c = true)) →
        rhs0.data i c 0 = 0 ∧
        (multiplyByMasks ops D reg'.bndry_mask rhs0).data i c 0 = 0 := by
  obtain ⟨r, hr⟩ := recordOutflow_isSome D phys_bc hout
  obtain ⟨hg, _⟩ := copyTo_fold_shape ops geom reg.bndry rhs.nGrow (List.range (2 * D))
    { rhs with data := fun _ _ _ => 0 }
  have hspec := recordOutflow_foldlM_spec D phys_bc (List.range D)
    ((List.replicate (D - 1) (0 : ℤ)).set 0 (-1), 0) r
    (by simp only [List.length_set, List.length_replicate]) hr
  have hI : ∃ rhs1 : MultiFab, rhs1.grids = rhs.grids ∧
      InitRHS ops D reg rhs geom phys_bc = some
        ({ reg with bndry_mask := (fun face => makeBndryMask ops D geom reg.grids
            { reg.bndry_mask face with data := fun _ _ => 0 }) },
          multiplyByMasks ops D (fun face => makeBndryMask ops D geom reg.grids
              { reg.bndry_mask face with data := fun _ _ => 0 })
            (if 0 < r.2 then
              { rhs1 with data := (zeroOutflow phys_bc geom.Domain.surroundingNodes rhs1.grids
                  r.1 r.2 rhs1.data) }
            else rhs1)) :=
    ⟨_, hg, by simp only [InitRHS, hr, Option.some_bind]⟩
  obtain ⟨rhs1, hg1, hI⟩ := hI
  refine ⟨_, _, hI, ?_⟩
  intro dir i c hdir hi hc hface
  have hq : isOutflowDir phys_bc dir = true := by
    rcases hface with ⟨h, _⟩ | ⟨h, _⟩ <;> simp [isOutflowDir, h]
  obtain ⟨n, _, hn, hrn⟩ := hspec.2.2 dir (List.mem_range.mpr hdir) hq
  have hpos : 0 < r.2 := by omega
  have hzero : (if 0 < r.2 then
      { rhs1 with data := (zeroOutflow phys_bc geom.Domain.surroundingNodes rhs1.grids
          r.1 r.2 rhs1.data) }
      else rhs1).data i c 0 = 0 := by
    rw [if_pos hpos]
    simp only [hg1]
    exact zeroOutflow_zero phys_bc _ rhs.grids r.1 r.2 _ dir n i c hn
      (by rw [hrn]; rfl) hi hc hface
  exact ⟨hzero, multiplyByMasks_keeps_zero ops D _ _ i c hzero⟩

/-- Witness of C26: the sample register on the domain `[0,7] x [0,7]` with
`Outflow` on the high side of the first direction only, and a right-hand side
that holds `5` on the nodes `[6,2] x [8,4]`: the node `(8,3)` is valid and
lies on the high `x` face of the node domain, and ends as `0`. -/
theorem InitRHS_outflow_zero_witness :
    (List.range 2).countP
      (isOutflowDir ⟨fun _ => 1, fun d => if d = 0 then Outflow else 1⟩) ≤ 2 - 1 ∧
    ((⟨[⟨[6, 2], [8, 4]⟩], 0, fun _ _ _ => 5⟩ : MultiFab).grids.getD 0 ⟨[], []⟩).contains
      [8, 3] = true ∧
    (⟨fun _ => 1, fun d => if d = 0 then Outflow else 1⟩ : BCRec).hi 0 = Outflow ∧
    (sampleGeom.Domain.surroundingNodes.hiFace 0).contains [8, 3] = true ∧
    ∃ reg' rhs0, InitRHS sampleRegOps 2 sampleReg ⟨[⟨[6, 2], [8, 4]⟩], 0, fun _ _ _ => 5⟩
        sampleGeom ⟨fun _ => 1, fun d => if d = 0 then Outflow else 1⟩
        = some (reg', multiplyByMasks sampleRegOps 2 reg'.bndry_mask rhs0) ∧
      rhs0.data 0 [8, 3] 0 = 0 ∧
      (multiplyByMasks sampleRegOps 2 reg'.bndry_mask rhs0).data 0 [8, 3] 0 = 0 := by
  refine ⟨by decide, by decide, rfl, by decide, ?_⟩
  obtain ⟨reg', rhs0, h, hall⟩ := InitRHS_outflow_zero sampleRegOps 2 sampleReg
    ⟨[⟨[6, 2], [8, 4]⟩], 0, fun _ _ _ => 5⟩ sampleGeom
    ⟨fun _ => 1, fun d => if d = 0 then Outflow else 1⟩ (by decide)
  exact ⟨reg', rhs0, h, hall 0 0 [8, 3] (by decide) (by decide) (by decide)
    (Or.inr ⟨rfl, by decide⟩)⟩

/-- C27: with `do_reflux` unset `mac_sync` is `sync_setup`, `mac_sync_solve`
and `sync_cleanup` and nothing else: `Ssync`, `Vsync`, `rho_ctime`, the
new-time state of the level and of every other level are what they were, and
the rest of the hierarchy, flux registers included, is what `sync_cleanup`
leaves of the state `mac_sync_solve` left. -/
theorem mac_sync_without_reflux {ρ : Type} (ops : SyncOps ρ) (cfg : Config) (dt : ℚ)
    (st : SyncLevel ρ) (hr : cfg.do_reflux = false) :
    (mac_sync ops cfg dt st).Ssync = st.Ssync ∧
    (mac_sync ops cfg dt st).Vsync = st.Vsync ∧
    (mac_sync ops cfg dt st).S_new = st.S_new ∧
    (mac_sync ops cfg dt st).fine_S_new = st.fine_S_new ∧
    (mac_sync ops cfg dt st).rho_ctime = st.rho_ctime ∧
    (mac_sync ops cfg dt st).DeltaSsync = ⟨cfg.grids, 0, ops.sync_setup st⟩ ∧
    (mac_sync ops cfg dt st).rest =
      ops.sync_cleanup { st with
        DeltaSsync := ⟨cfg.grids, 0, ops.sync_setup st⟩
        rest := ops.mac_sync_solve dt
          { st with DeltaSsync := ⟨cfg.grids, 0, ops.sync_setup st⟩ } } := by
  have h : mac_sync ops cfg dt st =
      { mac_sync_entry ops cfg dt st with
        rest := ops.sync_cleanup (mac_sync_entry ops cfg dt st) } := by
    simp only [mac_sync, hr, Bool.false_eq_true, if_false]
  rw [h]
  exact ⟨rfl, rfl, rfl, rfl, rfl, rfl, rfl⟩

/-- Witness of C27: the coarse sample level with `do_reflux` unset. -/
theorem mac_sync_without_reflux_witness :
    (mac_sync sampleSyncOps { syncCfg with do_reflux := false } 1 sampleSyncLevel).Ssync
      = sampleSyncLevel.Ssync ∧
    (mac_sync sampleSyncOps { syncCfg with do_reflux := false } 1 sampleSyncLevel).Vsync
      = sampleSyncLevel.Vsync ∧
    (mac_sync sampleSyncOps { syncCfg with do_reflux := false } 1 sampleSyncLevel).S_new
      = sampleSyncLevel.S_new ∧
    (mac_sync sampleSyncOps { syncCfg with do_reflux := false } 1 sampleSyncLevel).fine_S_new
      = sampleSyncLevel.fine_S_new ∧
    (mac_sync sampleSyncOps { syncCfg with do_reflux := false } 1 sampleSyncLevel).rho_ctime
      = sampleSyncLevel.rho_ctime ∧
    (mac_sync sampleSyncOps { syncCfg with do_reflux := false } 1 sampleSyncLevel).DeltaSsync
      = ⟨({ syncCfg with do_reflux := false } : Config).grids, 0,
          sampleSyncOps.sync_setup sampleSyncLevel⟩ ∧
    (mac_sync sampleSyncOps { syncCfg with do_reflux := false } 1 sampleSyncLevel).rest =
      sampleSyncOps.sync_cleanup { sampleSyncLevel with
        DeltaSsync := ⟨({ syncCfg with do_reflux := false } : Config).grids, 0,
          sampleSyncOps.sync_setup sampleSyncLevel⟩
        rest := sampleSyncOps.mac_sync_solve 1
          { sampleSyncLevel with
            DeltaSsync := ⟨({ syncCfg with do_reflux := false } : Config).grids, 0,
              sampleSyncOps.sync_setup sampleSyncLevel⟩ } } :=
  mac_sync_without_reflux sampleSyncOps { syncCfg with do_reflux := false } 1 sampleSyncLevel rfl

theorem updateRange_of_stage (e : Call) (h : e.stage ≠ 4) : e.updateRange = none := by
  cases e <;> simp [Call.stage, Call.updateRange] at h ⊢

theorem filterMap_updateRange_nil (l : List Call) (h : ∀ e, e ∈ l → e.stage ≠ 4) :
    l.filterMap Call.updateRange = [] := by
  induction l with
  | nil => rfl
  | cons a t ih =>
    rw [List.filterMap_cons, updateRange_of_stage a (h a (List.mem_cons_self _ _))]
    exact ih (fun e he => h e (List.mem_cons_of_mem _ he))

theorem filterMap_updateCalls (cfg : Config) (dt : ℚ) (a b : ℕ) :
    (updateCalls cfg dt a b).filterMap Call.updateRange = [(a, b)] := by
  unfold updateCalls
  split_ifs <;> simp [Call.updateRange]

theorem filterMap_updateCalls_flatMap (cfg : Config) (dt : ℚ) (f : ℕ → ℕ) (l : List ℕ) :
    (l.flatMap (fun i => updateCalls cfg dt (f i) (f i))).filterMap Call.updateRange
      = l.map (fun i => (f i, f i)) := by
  induction l with
  | nil => rfl
  | cons a t ih =>
    rw [List.flatMap_cons, List.filterMap_append, filterMap_updateCalls, ih]
    rfl

theorem advanceCalls_updateRanges (cfg : Config) (time dt : ℚ) (iteration ncycle : ℤ) :
    (advanceCalls cfg time dt iteration ncycle).filterMap Call.updateRange =
      (cfg.Density, cfg.Density) ::
        (if cfg.do_scalar_update_in_order = true then
          (List.range (cfg.NUM_SCALARS - 1)).map (fun iComp =>
            (cfg.Density + cfg.scalarUpdateOrder iComp,
              cfg.Density + cfg.scalarUpdateOrder iComp))
        else [(cfg.Density + 1, cfg.Density + cfg.NUM_SCALARS - 1)]) := by
  have h2 : (if cfg.do_mac_proj = true then
      [Call.create_mac_rhs time dt, Call.mac_project time dt] else []).filterMap
        Call.updateRange = [] := by
    split_ifs <;> rfl
  have h3 : (if cfg.do_mom_diff = 0 then [Call.velocity_advection dt] else []).filterMap
      Call.updateRange = [] := by
    split_ifs <;> rfl
  have h4 : (fluxCalls cfg dt cfg.Density
      (cfg.Density + cfg.NUM_SCALARS - 1 + 1 - cfg.Density)).filterMap Call.updateRange = [] :=
    filterMap_updateRange_nil _ (fun e he => by
      rw [fluxCalls_stage cfg dt _ _ e he]
      decide)
  have h6 : (if cfg.do_mom_diff = 1 then [Call.velocity_advection dt] else []).filterMap
      Call.updateRange = [] := by
    split_ifs <;> rfl
  have h7 : (if cfg.have_divu = true then
      Call.calc_divu (time + dt) dt ::
        (if cfg.have_dsdt = true then
            Call.calc_dsdt time dt :: (if cfg.initial_step = true then [Call.copy_dsdt] else [])
          else [])
      else []).filterMap Call.updateRange = [] := by
    split_ifs <;> rfl
  have h9 : (if (!cfg.initial_step) = true then
      (if 0 < cfg.level then
          [Call.incrRhoAvg ((if iteration = ncycle then 1 / 2 else 1) / (ncycle : ℚ))]
        else []) ++
      (if cfg.projector = true then [Call.level_projector dt time iteration] else []) ++
      (if 0 < cfg.level ∧ iteration = 1 then [Call.p_avg_setVal] else [])
      else []).filterMap Call.updateRange = [] := by
    split_ifs <;> rfl
  have hU : (if cfg.do_scalar_update_in_order = true then
      (List.range (cfg.NUM_SCALARS - 1)).flatMap (fun iComp =>
        updateCalls cfg dt (cfg.Density + cfg.scalarUpdateOrder iComp)
          (cfg.Density + cfg.scalarUpdateOrder iComp))
      else updateCalls cfg dt (cfg.Density + 1)
        (cfg.Density + cfg.NUM_SCALARS - 1)).filterMap Call.updateRange =
      (if cfg.do_scalar_update_in_order = true then
        (List.range (cfg.NUM_SCALARS - 1)).map (fun iComp =>
          (cfg.Density + cfg.scalarUpdateOrder iComp,
            cfg.Density + cfg.scalarUpdateOrder iComp))
      else [(cfg.Density + 1, cfg.Density + cfg.NUM_SCALARS - 1)]) := by
    split_ifs
    · exact filterMap_updateCalls_flatMap cfg dt _ _
    · exact filterMap_updateCalls cfg dt _ _
  unfold advanceCalls advanceCallsStart advanceCallsEnd
  simp only [List.filterMap_append, List.filterMap_cons, List.filterMap_nil, h2, h3, h4, h6, h7,
    h9, hU, filterMap_updateCalls, Call.updateRange, List.nil_append, List.append_nil,
    List.singleton_append]

theorem scalarsOf_self (a : ℕ) : scalarsOf (a, a) = [a] := by
  simp [scalarsOf]

theorem flatMap_scalarsOf_diag (f : ℕ → ℕ) (l : List ℕ) :
    (l.map (fun i => (f i, f i))).flatMap scalarsOf = l.map f := by
  induction l with
  | nil => rfl
  | cons a t ih =>
    rw [List.map_cons, List.flatMap_cons, scalarsOf_self, ih]
    rfl

/-- C28: an `advance` whose scalars hold no NaN returns, and its calls of
`scalar_update` are, in order: one for the density alone, then either one for
the scalars `Density+1 .. Density+NUM_SCALARS-1` together, or, with
`do_scalar_update_in_order` set, one for each scalar
`Density + scalarUpdateOrder[iComp]`, `iComp = 0 .. NUM_SCALARS-2`.  The
scalars they update are the density first and then the others, each once:
when `scalarUpdateOrder[0 .. NUM_SCALARS-2]` is a permutation of
`1 .. NUM_SCALARS-1`, the list of updated scalars is a permutation without
repetition of `Density, Density+1, .., Density+NUM_SCALARS-1` in both modes. -/
theorem scalar_update_coverage (nan : List Call → ℕ → Bool) (cfg : Config) (time dt : ℚ)
    (iteration ncycle : ℤ) (hnan : ∀ t k, nan t k = false)
    (hperm : cfg.do_scalar_update_in_order = true →
      ((List.range (cfg.NUM_SCALARS - 1)).map cfg.scalarUpdateOrder).Perm
        (List.range' 1 (cfg.NUM_SCALARS - 1))) :
    ∃ tr r, advance (traceOps nan) cfg time dt iteration ncycle [] = some (tr, r) ∧
      tr.filterMap Call.updateRange =
        (cfg.Density, cfg.Density) ::
          (if cfg.do_scalar_update_in_order = true then
            (List.range (cfg.NUM_SCALARS - 1)).map (fun iComp =>
              (cfg.Density + cfg.scalarUpdateOrder iComp,
                cfg.Density + cfg.scalarUpdateOrder iComp))
          else [(cfg.Density + 1, cfg.Density + cfg.NUM_SCALARS - 1)]) ∧
      (tr.filterMap Call.updateRange).flatMap scalarsOf =
        cfg.Density ::
          (if cfg.do_scalar_update_in_order = true then
            (List.range (cfg.NUM_SCALARS - 1)).map (fun iComp =>
              cfg.Density + cfg.scalarUpdateOrder iComp)
          else List.range' (cfg.Density + 1) (cfg.NUM_SCALARS - 1)) ∧
      ((tr.filterMap Call.updateRange).flatMap scalarsOf).Perm
        (cfg.Density :: List.range' (cfg.Density + 1) (cfg.NUM_SCALARS - 1)) ∧
      ((tr.filterMap Call.updateRange).flatMap scalarsOf).Nodup := by
  obtain ⟨tr, h⟩ := advance_isSome (traceOps nan) cfg time dt iteration ncycle []
    (fun t k => hnan t k)
  have htr := advance_trace nan cfg time dt iteration ncycle [] tr _ h
  rw [List.nil_append] at htr
  have hranges := advanceCalls_updateRanges cfg time dt iteration ncycle
  rw [← htr] at hranges
  have hflat : (tr.filterMap Call.updateRange).flatMap scalarsOf =
      cfg.Density ::
        (if cfg.do_scalar_update_in_order = true then
          (List.range (cfg.NUM_SCALARS - 1)).map (fun iComp =>
            cfg.Density + cfg.scalarUpdateOrder iComp)
        else List.range' (cfg.Density + 1) (cfg.NUM_SCALARS - 1)) := by
    rw [hranges, List.flatMap_cons, scalarsOf_self, List.singleton_append]
    congr 1
    split_ifs
    · exact flatMap_scalarsOf_diag _ _
    · simp only [List.flatMap_cons, List.flatMap_nil, List.append_nil, scalarsOf]
      congr 1
      omega
  have hP : ((tr.filterMap Call.updateRange).flatMap scalarsOf).Perm
      (cfg.Density :: List.range' (cfg.Density + 1) (cfg.NUM_SCALARS - 1)) := by
    rw [hflat]
    apply List.Perm.cons
    split_ifs with hord
    · have hp := (hperm hord).map (fun x => cfg.Density + x)
      rw [List.map_map, List.map_add_range'] at hp
      exact hp
    · exact List.Perm.refl _
  refine ⟨tr, _, h, hranges, hflat, hP, ?_⟩
  rw [List.Perm.nodup_iff hP]
  have hnd := List.nodup_range' cfg.Density (cfg.NUM_SCALARS - 1 + 1)
  rw [List.range'_succ] at hnd
  exact hnd

/-- Witness of C28: the sample level with the ordered updates switched on;
its one scalar besides the density has the order entry `1`. -/
theorem scalar_update_coverage_witness :
    ∃ tr r, advance (traceOps (fun _ _ => false))
        { sampleCfg 1 with do_scalar_update_in_order := true } 0 1 1 1 [] = some (tr, r) ∧
      tr.filterMap Call.updateRange =
        (2, 2) ::
          (if ({ sampleCfg 1 with do_scalar_update_in_order := true } :
              Config).do_scalar_update_in_order = true then
            (List.range (2 - 1)).map (fun iComp =>
              (2 + (sampleCfg 1).scalarUpdateOrder iComp,
                2 + (sampleCfg 1).scalarUpdateOrder iComp))
          else [(2 + 1, 2 + 2 - 1)]) ∧
      (tr.filterMap Call.updateRange).flatMap scalarsOf =
        2 ::
          (if ({ sampleCfg 1 with do_scalar_update_in_order := true } :
              Config).do_scalar_update_in_order = true then
            (List.range (2 - 1)).map (fun iComp => 2 + (sampleCfg 1).scalarUpdateOrder iComp)
          else List.range' (2 + 1) (2 - 1)) ∧
      ((tr.filterMap Call.updateRange).flatMap scalarsOf).Perm
        (2 :: List.range' (2 + 1) (2 - 1)) ∧
      ((tr.filterMap Call.updateRange).flatMap scalarsOf).Nodup :=
  scalar_update_coverage (fun _ _ => false)
    { sampleCfg 1 with do_scalar_update_in_order := true } 0 1 1 1 (fun _ _ => rfl)
    (fun _ => List.Perm.refl _)

theorem fort_maxval_ge (dat : IntVect → ℚ) (bx : Box) (x : IntVect) (hx : x ∈ bx.cells) :
    dat x ≤ fort_maxval dat bx := by
  unfold fort_maxval
  cases hcells : bx.cells with
  | nil =>
    rw [hcells] at hx
    exact absurd hx (List.not_mem_nil x)
  | cons c cs =>
    rw [hcells] at hx
    simp only
    rcases List.mem_cons.mp hx with rfl | hx'
    · exact foldl_ge_init _ (fun m a => le_max_left _ _) cs _
    · exact foldl_max_ge_mem dat cs _ x hx'

theorem fort_maxval_attained (dat : IntVect → ℚ) (bx : Box) :
    fort_maxval dat bx = 0 ∨ ∃ x, x ∈ bx.cells ∧ fort_maxval dat bx = dat x := by
  unfold fort_maxval
  cases hcells : bx.cells with
  | nil => exact Or.inl rfl
  | cons c cs =>
    right
    simp only
    rcases foldl_max_attained dat cs (dat c) with h | ⟨x, hx, h⟩
    · exact ⟨c, List.mem_cons_self _ _, h⟩
    · exact ⟨x, List.mem_cons_of_mem _ hx, h⟩

theorem MaxVal_spec (cfg : Config) (mf : MultiFab) (fine_boxes : List Box)
    (fine_ratio : IntVect) :
    0 ≤ MaxVal cfg mf fine_boxes fine_ratio ∧
    (∀ i c, i < mf.grids.length → (cfg.grids.getD i ⟨[], []⟩).contains c = true →
      (cfg.level < cfg.finestLevel →
        coveredBy (fine_boxes.map (fun b => b.coarsen fine_ratio)) c = false) →
      mf.data i c 0 ≤ MaxVal cfg mf fine_boxes fine_ratio) ∧
    (MaxVal cfg mf fine_boxes fine_ratio = 0 ∨
      ∃ i c, i < mf.grids.length ∧ (cfg.grids.getD i ⟨[], []⟩).contains c = true ∧
        (cfg.level < cfg.finestLevel →
          coveredBy (fine_boxes.map (fun b => b.coarsen fine_ratio)) c = false) ∧
        MaxVal cfg mf fine_boxes fine_ratio = mf.data i c 0) := by
  refine ⟨?_, ?_, ?_⟩
  · exact foldl_ge_init _ (fun m a => le_max_left _ _) _ _
  · intro i c hi hc hun
    have h1 := foldl_max_ge_mem
      (fun i => fort_maxval (maxValFab cfg mf
        (if cfg.level < cfg.finestLevel
          then fine_boxes.map (fun b => b.coarsen fine_ratio) else []) i)
        (cfg.grids.getD i ⟨[], []⟩)) (List.range mf.grids.length) 0 i (List.mem_range.mpr hi)
    have h2 := fort_maxval_ge (maxValFab cfg mf
        (if cfg.level < cfg.finestLevel
          then fine_boxes.map (fun b => b.coarsen fine_ratio) else []) i)
        (cfg.grids.getD i ⟨[], []⟩) c ((mem_cells_iff _ c).mpr hc)
    have h3 : maxValFab cfg mf
        (if cfg.level < cfg.finestLevel
          then fine_boxes.map (fun b => b.coarsen fine_ratio) else []) i c = mf.data i c 0 := by
      unfold maxValFab
      rw [if_neg]
      rintro ⟨hl, _, hcov⟩
      rw [if_pos hl, hun hl] at hcov
      exact Bool.false_ne_true hcov
    rw [h3] at h2
    exact le_trans h2 h1
  · rcases foldl_max_attained
      (fun i => fort_maxval (maxValFab cfg mf
        (if cfg.level < cfg.finestLevel
          then fine_boxes.map (fun b => b.coarsen fine_ratio) else []) i)
        (cfg.grids.getD i ⟨[], []⟩)) (List.range mf.grids.length) 0 with h | ⟨i, hi, h⟩
    · exact Or.inl h
    · rcases fort_maxval_attained (maxValFab cfg mf
        (if cfg.level < cfg.finestLevel
          then fine_boxes.map (fun b => b.coarsen fine_ratio) else []) i)
        (cfg.grids.getD i ⟨[], []⟩) with h0 | ⟨x, hx, hval⟩
      · left
        exact h.trans h0
      · have hxc := (mem_cells_iff _ x).mp hx
        by_cases hcov : cfg.level < cfg.finestLevel ∧
            coveredBy (fine_boxes.map (fun b => b.coarsen fine_ratio)) x = true
        · left
          rw [show MaxVal cfg mf fine_boxes fine_ratio = _ from h, hval]
          unfold maxValFab
          rw [if_pos ⟨hcov.1, hxc, by rw [if_pos hcov.1]; exact hcov.2⟩]
        · right
          refine ⟨i, x, List.mem_range.mp hi, hxc, ?_, ?_⟩
          · intro hl
            cases hb : coveredBy (fine_boxes.map (fun b => b.coarsen fine_ratio)) x
            · rfl
            · exact absurd ⟨hl, hb⟩ hcov
          · rw [show MaxVal cfg mf fine_boxes fine_ratio = _ from h, hval]
            unfold maxValFab
            rw [if_neg]
            rintro ⟨hl, _, hc⟩
            rw [if_pos hl] at hc
            exact hcov ⟨hl, hc⟩

/-- C29: `MaxVal` is never negative.  It is the larger of `0` and the largest
value of the derived field over the cells of the grids of the level that no
coarsened box of the next finer level covers: it bounds the field at every
such cell, and it is `0` or the field at one of them.  So two fields that
agree on the cells not covered have the same `MaxVal`, and a field that is
negative everywhere has `MaxVal` `0`. -/
theorem MaxVal_uncovered_maximum (cfg : Config) (mf : MultiFab) (fine_boxes : List Box)
    (fine_ratio : IntVect) :
    0 ≤ MaxVal cfg mf fine_boxes fine_ratio ∧
    (∀ i c, i < mf.grids.length → (cfg.grids.getD i ⟨[], []⟩).contains c = true →
      (cfg.level < cfg.finestLevel →
        coveredBy (fine_boxes.map (fun b => b.coarsen fine_ratio)) c = false) →
      mf.data i c 0 ≤ MaxVal cfg mf fine_boxes fine_ratio) ∧
    (MaxVal cfg mf fine_boxes fine_ratio = 0 ∨
      ∃ i c, i < mf.grids.length ∧ (cfg.grids.getD i ⟨[], []⟩).contains c = true ∧
        (cfg.level < cfg.finestLevel →
          coveredBy (fine_boxes.map (fun b => b.coarsen fine_ratio)) c = false) ∧
        MaxVal cfg mf fine_boxes fine_ratio = mf.data i c 0) ∧
    (∀ mf2 : MultiFab, mf2.grids.length = mf.grids.length →
      (∀ i c, i < mf.grids.length → (cfg.grids.getD i ⟨[], []⟩).contains c = true →
        (cfg.level < cfg.finestLevel →
          coveredBy (fine_boxes.map (fun b => b.coarsen fine_ratio)) c = false) →
        mf2.data i c 0 = mf.data i c 0) →
      MaxVal cfg mf2 fine_boxes fine_ratio = MaxVal cfg mf fine_boxes fine_ratio) ∧
    ((∀ i c, mf.data i c 0 < 0) → MaxVal cfg mf fine_boxes fine_ratio = 0) := by
  obtain ⟨h0, hub, hatt⟩ := MaxVal_spec cfg mf fine_boxes fine_ratio
  refine ⟨h0, hub, hatt, ?_, ?_⟩
  · intro mf2 hlen hagree
    obtain ⟨g0, gub, gatt⟩ := MaxVal_spec cfg mf2 fine_boxes fine_ratio
    apply le_antisymm
    · rcases gatt with h | ⟨i, c, hi, hc, hun, h⟩
      · rw [h]
        exact h0
      · rw [h, hagree i c (hlen ▸ hi) hc hun]
        exact hub i c (hlen ▸ hi) hc hun
    · rcases hatt with h | ⟨i, c, hi, hc, hun, h⟩
      · rw [h]
        exact g0
      · rw [h, ← hagree i c hi hc hun]
        exact gub i c (hlen.symm ▸ hi) hc hun
  · intro hneg
    rcases hatt with h | ⟨i, c, _, _, _, h⟩
    · exact h
    · have := hneg i c
      rw [← h] at this
      exact absurd h0 (not_le.mpr this)

/-! ## The doubling of `FineAdd` -/

end IAMR
